import Mathlib

/-!
# DeluxeDraw: history engine, layer stack, compositing, canvas handling, project files

A shallow embedding of the undo/redo history, of the layer-stack operations, of
the compositor and of the project store of `src/cmd/old/dd.go`, of the canvas
handling of `Update` in `src/dd.go` and in `src/cmd/old/dd.go` and of the
square pen `DrawSquareLine` of both files, with the invariants and laws they
satisfy.

Conventions of the embedding

* Go `int` values that can be negative (`historyIndex`, `activeLayer`,
  `maxHistory`, the arguments of `SaveLayerState` and `ReorderLayers`) are `Int`.
* A Go run-time panic (index or slice bound out of range) is the result `none`.
* A render texture is represented by the image that
  `rl.LoadImageFromTexture` reads back from it.  The rows of that image run
  from the bottom of the picture to its top, which is why the source flips
  every read-back (`// Flip Y`) and draws every layer texture with the source
  height `-h`.
* Drawing a texture into a render texture goes through the default blend of the
  graphics library: `drawTextureRec` for `rl.DrawTextureRec` with height `-h`,
  `drawTexture` for `rl.DrawTexture`, which draws the rows of an uploaded image
  from the top of the picture down.
* Where a statement holds for whatever the library draws, the library call is a
  parameter: `draw` for drawing one layer texture over the composite, `render`
  for the rasterisation of one drawing command.  The canvas handling returns
  the commands it issues next to the state.
* `float32` values are not represented: the pointer enters as the result of
  `ScreenToCanvas`, points stored from it are integer pairs, sizes are rationals.
  The exception is `DrawSquareLine`: its loop ends on an exact comparison of
  `float32` coordinates, so every sum and difference there is rounded to the
  nearest `float32` by `f32`, and the corner of a stamp by `roundFloat32`.
* A project archive is the list of its entries, each with what the zip, JSON
  and PNG decoders return for it; encoding and decoding the metadata is the
  identity, the PNG codec is a parameter of `SaveProject`.
-/

namespace DeluxeDraw

/-! ## Pixels and images -/

/-- An RGBA8 colour, as `rl.Color` / `color.RGBA`. -/
structure Color where
  r : Fin 256
  g : Fin 256
  b : Fin 256
  a : Fin 256
deriving DecidableEq, Repr

/-- The colour `rl.Blank`, also `rl.Color{0, 0, 0, 0}` and the zero value of `color.RGBA`. -/
def Color.blank : Color := ⟨0, 0, 0, 0⟩

/-- A raster image: `width * height` pixels stored row by row. -/
structure Image where
  width : Nat
  height : Nat
  pix : List Color
  wf : pix.length = width * height
deriving DecidableEq

/-- An image filled with one colour (`image.NewRGBA`, `rl.GenImageColor`). -/
def Image.fill (w h : Nat) (c : Color) : Image :=
  ⟨w, h, List.replicate (w * h) c, by simp⟩

/-- Read a pixel (`rl.GetImageColor`, `(*image.RGBA).At`): blank outside the bounds. -/
def Image.getColor (img : Image) (x y : Nat) : Color :=
  if x < img.width ∧ y < img.height then img.pix.getD (y * img.width + x) Color.blank
  else Color.blank

/-- Write a pixel (`(*image.RGBA).Set`, `rl.ImageDrawPixel`): nothing happens outside the bounds. -/
def Image.setColor (img : Image) (x y : Nat) (c : Color) : Image :=
  if x < img.width ∧ y < img.height then
    ⟨img.width, img.height, img.pix.set (y * img.width + x) c, by simp [img.wf]⟩
  else img

/-- The 16-bit channel that `color.RGBA.RGBA()` returns for an 8-bit channel: `v | v << 8`. -/
def chan16 (v : Fin 256) : Nat := v.val ||| (v.val <<< 8)

/-- The conversion `uint8(r >> 8)` applied to a 16-bit channel. -/
def chan8 (r : Nat) : Fin 256 := ⟨(r >>> 8) % 256, Nat.mod_lt _ (by decide)⟩

/-- The colour rebuilt in `Undo` and `Redo` from `layerData.At(x, y).RGBA()`. -/
def Color.viaRGBA (c : Color) : Color :=
  ⟨chan8 (chan16 c.r), chan8 (chan16 c.g), chan8 (chan16 c.b), chan8 (chan16 c.a)⟩

/-- The conversion loop of `SaveLayerState`: the Go image `goImg` built from the
image read back from the layer texture, flipped vertically. -/
def goImgOf (img : Image) : Image :=
  (List.range img.height).foldl
    (fun goImg y =>
      (List.range img.width).foldl
        (fun goImg x => goImg.setColor x (img.height - 1 - y) (img.getColor x y))
        goImg)
    (Image.fill img.width img.height Color.blank)

/-- The conversion loop of `Undo` and `Redo`: the raylib image `rlImg` built from
a stored snapshot, flipped vertically. -/
def rlImgOf (layerData : Image) : Image :=
  (List.range layerData.height).foldl
    (fun rlImg y =>
      (List.range layerData.width).foldl
        (fun rlImg x =>
          rlImg.setColor x (layerData.height - 1 - y) (layerData.getColor x y).viaRGBA)
        rlImg)
    (Image.fill layerData.width layerData.height Color.blank)

/-! ## Drawing into a render texture -/

/-- The default blend mode of the graphics library for one channel: source times
source alpha plus destination times one minus source alpha, in 8-bit integer
arithmetic.  It is exact for source alpha 0 and 255; the rounding of the
graphics hardware in between is not represented. -/
def blendChannel (src dst alpha : Fin 256) : Fin 256 :=
  ⟨((src.val * alpha.val + dst.val * (255 - alpha.val)) / 255) % 256,
    Nat.mod_lt _ (by decide)⟩

/-- One source pixel blended over one destination pixel. -/
def Color.blendOver (src dst : Color) : Color :=
  ⟨blendChannel src.r dst.r src.a, blendChannel src.g dst.g src.a,
    blendChannel src.b dst.b src.a, blendChannel src.a dst.a src.a⟩

/-- The library call `rl.DrawTextureRec(texture, {0, 0, width, -height}, {0, 0},
rl.White)` inside a texture mode: the source texture is blended, pixel by pixel
and with its own alpha, over the target. -/
def drawTextureRec (target source : Image) : Image :=
  ⟨target.width, target.height,
    (List.range (target.width * target.height)).map fun k =>
      if k % target.width < source.width ∧ k / target.width < source.height then
        (source.getColor (k % target.width) (k / target.width)).blendOver
          (target.getColor (k % target.width) (k / target.width))
      else target.getColor (k % target.width) (k / target.width),
    by simp⟩

/-- The library call `rl.DrawTexture(texture, 0, 0, rl.White)` inside a texture
mode, `texture` being the upload of the image `source`: row `y` of `source` is
drawn on row `y` of the picture, counted from the top, which is row
`height - 1 - y` of the image read back from the target; each pixel is blended
with its own alpha over the target. -/
def drawTexture (target source : Image) : Image :=
  ⟨target.width, target.height,
    (List.range (target.width * target.height)).map fun k =>
      if k % target.width < source.width
          ∧ target.height - 1 - k / target.width < source.height then
        (source.getColor (k % target.width) (target.height - 1 - k / target.width)).blendOver
          (target.getColor (k % target.width) (k / target.width))
      else target.getColor (k % target.width) (k / target.width),
    by simp⟩

/-- The library call `rl.ClearBackground(color)` inside a texture mode. -/
def clearBackground (target : Image) (color : Color) : Image :=
  Image.fill target.width target.height color

/-! ## Go slices -/

/-- Go indexing `l[i]`: a panic when `i` is out of range. -/
def index? {α : Type} (l : List α) (i : Int) : Option α :=
  if 0 ≤ i then l[i.toNat]? else none

/-- Go slicing `l[:hi]`: a panic when `hi` is negative or beyond the length. -/
def sliceTo? {α : Type} (l : List α) (hi : Int) : Option (List α) :=
  if 0 ≤ hi ∧ hi ≤ l.length then some (l.take hi.toNat) else none

/-- Go slicing `l[lo:]`: a panic when `lo` is negative or beyond the length. -/
def sliceFrom? {α : Type} (l : List α) (lo : Int) : Option (List α) :=
  if 0 ≤ lo ∧ lo ≤ l.length then some (l.drop lo.toNat) else none

/-! ## Data model -/

/-- A drawing layer.  `texture` is the image read back from the render texture;
`opacity` is a `float32` in the source and only ever copied here. -/
structure Layer where
  name : String
  texture : Image
  visible : Bool
  locked : Bool
  opacity : Rat
deriving DecidableEq

/-- A history entry.  `SaveLayerState` is the only place that builds one, behind
its guard `layerIndex < 0`, so the recorded index is kept as a natural number. -/
structure HistoryAction where
  actionType : String
  layerIndex : Nat
  layerData : Image
deriving DecidableEq

/-- Tool types. -/
inductive ToolType where
  | ToolPen
  | ToolBrush
  | ToolEraser
  | ToolBucket
  | ToolEyedropper
  | ToolLine
  | ToolRect
  | ToolCircle
  | ToolMove
  | ToolZoom
deriving DecidableEq, Repr

/-- Pen shapes. -/
inductive PenShape where
  | PenShapeRound
  | PenShapeSquare
deriving DecidableEq, Repr

/-- A point of the canvas as `rl.Vector2`.  Every value the canvas handling
stores is converted from an `int`, so the coordinates are kept as integers. -/
structure Vector2 where
  X : Int
  Y : Int
deriving DecidableEq, Repr

/-- The part of the application state that the history engine, the layer stack,
the compositor and the canvas handling read and write.  The fields after
`maxHistory` default to the values `NewApp` gives them, except that the
default palette is empty; `penSize`, `zoom`, `panX` and `panY` are `float32` in
the source and `compositeTexture` is the image read back from the composite
render texture. -/
structure App where
  layers : List Layer
  activeLayer : Int
  canvasWidth : Int
  canvasHeight : Int
  layerCounter : Int
  history : List HistoryAction
  historyIndex : Int
  maxHistory : Int
  currentTool : ToolType := ToolType.ToolPen
  penSize : Rat := 4
  penShape : PenShape := PenShape.PenShapeRound
  currentColor : Color := ⟨0, 0, 0, 255⟩
  isDrawing : Bool := false
  lastMousePos : Vector2 := ⟨0, 0⟩
  lineStart : Vector2 := ⟨0, 0⟩
  compositeTexture : Image := Image.fill 0 0 Color.blank
  zoom : Rat := 1
  panX : Rat := 0
  panY : Rat := 0
  colorPalette : List Color := []
  currentFilePath : String := ""
deriving DecidableEq

/-- The function `NewLayer`: a fully transparent, visible, unlocked layer of opacity 1. -/
def NewLayer (name : String) (width height : Int) : Layer :=
  { name := name
    texture := Image.fill width.toNat height.toNat Color.blank
    visible := true
    locked := false
    opacity := 1 }

/-! ## History engine -/

/-- The method `SaveLayerState`: record a snapshot of layer `layerIndex`. -/
def SaveLayerState (app : App) (layerIndex : Int) (actionType : String) : Option App :=
  if layerIndex < 0 ∨ layerIndex ≥ app.layers.length then some app
  else do
    let layer ← index? app.layers layerIndex
    let goImg := goImgOf layer.texture
    -- Truncate history if we're not at the end
    let history ←
      if app.historyIndex < (app.history.length : Int) - 1 then
        sliceTo? app.history (app.historyIndex + 1)
      else some app.history
    -- Add to history
    let history := history ++ [⟨actionType, layerIndex.toNat, goImg⟩]
    let historyIndex := app.historyIndex + 1
    -- Limit history size
    if (history.length : Int) > app.maxHistory then do
      let history ← sliceFrom? history 1
      some { app with history := history, historyIndex := historyIndex - 1 }
    else
      some { app with history := history, historyIndex := historyIndex }

/-- The drawing of `Undo` and `Redo` into a layer texture: the image `rlImg`
rebuilt from the snapshot is uploaded, the render texture is cleared to
`rl.Color{0, 0, 0, 0}` and the upload is drawn with `rl.DrawTexture`. -/
def restoreTexture (texture layerData : Image) : Image :=
  drawTexture (clearBackground texture ⟨0, 0, 0, 0⟩) (rlImgOf layerData)

/-- The block shared by `Undo` and `Redo`: when the recorded index addresses a
layer, that layer's texture is cleared and the stored snapshot drawn into it. -/
def restoreAction (layers : List Layer) (action : HistoryAction) : List Layer :=
  if h : action.layerIndex < layers.length then
    layers.set action.layerIndex
      { layers[action.layerIndex] with
        texture := restoreTexture layers[action.layerIndex].texture action.layerData }
  else layers

/-- The method `Undo`. -/
def Undo (app : App) : Option App :=
  if app.historyIndex < 0 ∨ app.historyIndex ≥ app.history.length then some app
  else do
    let action ← index? app.history app.historyIndex
    some { app with
      layers := restoreAction app.layers action
      historyIndex := app.historyIndex - 1 }

/-- The method `Redo`. -/
def Redo (app : App) : Option App :=
  if app.historyIndex < (app.history.length : Int) - 2 then do
    let historyIndex := app.historyIndex + 1
    -- Skip to next action
    let historyIndex := historyIndex + 1
    let action ← index? app.history historyIndex
    some { app with
      layers := restoreAction app.layers action
      historyIndex := historyIndex }
  else some app

/-! ## Layer stack -/

/-- The method `AddLayer`. -/
def AddLayer (app : App) : App :=
  let name := "LAYER " ++ toString app.layerCounter
  let newLayer := NewLayer name app.canvasWidth app.canvasHeight
  let layers := app.layers ++ [newLayer]
  { app with
    layerCounter := app.layerCounter + 1
    layers := layers
    activeLayer := (layers.length : Int) - 1 }

/-- The method `DuplicateActiveLayer`. -/
def DuplicateActiveLayer (app : App) : Option App := do
  let srcLayer ← index? app.layers app.activeLayer
  let newLayer := NewLayer (srcLayer.name ++ " COPY") app.canvasWidth app.canvasHeight
  -- Copy content
  let newLayer : Layer :=
    { newLayer with
      texture := drawTextureRec newLayer.texture srcLayer.texture
      visible := srcLayer.visible
      locked := srcLayer.locked
      opacity := srcLayer.opacity }
  -- Insert after current layer
  let front ← sliceTo? app.layers (app.activeLayer + 1)
  let back ← sliceFrom? app.layers (app.activeLayer + 1)
  some { app with
    layers := front ++ ([newLayer] ++ back)
    activeLayer := app.activeLayer + 1 }

/-- The method `DeleteActiveLayer`. -/
def DeleteActiveLayer (app : App) : Option App :=
  if (app.layers.length : Int) > 1 ∧ app.activeLayer > 0 then do
    let _ ← index? app.layers app.activeLayer
    -- Remove from slice
    let front ← sliceTo? app.layers app.activeLayer
    let back ← sliceFrom? app.layers (app.activeLayer + 1)
    let layers := front ++ back
    -- Adjust active layer
    if app.activeLayer ≥ layers.length then
      some { app with layers := layers, activeLayer := (layers.length : Int) - 1 }
    else
      some { app with layers := layers }
  else some app

/-- The method `ToggleLockActiveLayer`. -/
def ToggleLockActiveLayer (app : App) : Option App := do
  let layer ← index? app.layers app.activeLayer
  some { app with
    layers := app.layers.set app.activeLayer.toNat { layer with locked := !layer.locked } }

/-- The method `ReorderLayers`. -/
def ReorderLayers (app : App) (fromIndex toIndex : Int) : Option App :=
  if fromIndex < 0 ∨ fromIndex ≥ app.layers.length ∨ toIndex < 0
      ∨ toIndex ≥ app.layers.length ∨ fromIndex = toIndex then some app
  else do
    let layer ← index? app.layers fromIndex
    -- Remove layer from old position
    let front ← sliceTo? app.layers fromIndex
    let back ← sliceFrom? app.layers (fromIndex + 1)
    let layers := front ++ back
    -- Insert at new position
    let toIndex := if toIndex > fromIndex then toIndex - 1 else toIndex
    let front ← sliceTo? layers toIndex
    let back ← sliceFrom? layers toIndex
    let layers := front ++ ([layer] ++ back)
    -- Update active layer if it was moved
    let activeLayer :=
      if app.activeLayer = fromIndex then toIndex
      else if fromIndex < app.activeLayer ∧ toIndex ≥ app.activeLayer then app.activeLayer - 1
      else if fromIndex > app.activeLayer ∧ toIndex ≤ app.activeLayer then app.activeLayer + 1
      else app.activeLayer
    some { app with layers := layers, activeLayer := activeLayer }

/-! ## Compositing -/

/-- The method `ComposeLayers`, for any implementation `draw` of the library call
that draws one layer texture over the composite. -/
def ComposeLayersWith (draw : Image → Image → Image) (app : App) : App :=
  { app with
    compositeTexture :=
      app.layers.foldl
        (fun composite layer =>
          if !layer.visible then composite else draw composite layer.texture)
        (Image.fill app.compositeTexture.width app.compositeTexture.height Color.blank) }

/-- The method `ComposeLayers` with the blend `drawTextureRec`. -/
def ComposeLayers (app : App) : App :=
  ComposeLayersWith drawTextureRec app

/-! ## Canvas handling of `Update` -/

/-- The constant `screenWidth`. -/
def screenWidth : Int := 1280

/-- The constant `screenHeight`. -/
def screenHeight : Int := 800

/-- The constant `leftPanel`. -/
def leftPanel : Int := 100

/-- The constant `rightPanel`. -/
def rightPanel : Int := 200

/-- What one frame supplies to the canvas handling: the horizontal pointer
position, the result of `ScreenToCanvas` for the pointer (its `float32`
arithmetic is not represented) and the state of the left button. -/
structure Input where
  mouseX : Rat
  canvasX : Int
  canvasY : Int
  pressed : Bool
  down : Bool
  released : Bool
deriving DecidableEq

/-- The shapes the canvas handling draws.  `circleLines` keeps the two points
whose distance, halved, is its radius. -/
inductive Shape where
  | squareLine (start finish : Vector2) (size : Rat)
  | lineEx (startPos endPos : Vector2) (thick : Rat)
  | circleV (center : Vector2) (radius : Rat)
  | rectangleLines (posX posY width height : Int)
  | circleLines (centerX centerY : Int) (diameterFrom diameterTo : Vector2)
deriving DecidableEq

/-- One drawing command issued between `BeginTextureMode` and `EndTextureMode`:
the layer drawn into, whether the subtractive blend mode of the eraser is on,
the shape and the colour. -/
structure DrawCall where
  target : Int
  erase : Bool
  shape : Shape
  color : Color
deriving DecidableEq

/-- The test `mousePos.X > leftPanel && mousePos.X < screenWidth-rightPanel`. -/
def Input.overCanvas (inp : Input) : Bool :=
  decide (inp.mouseX > (leftPanel : Rat) ∧ inp.mouseX < ((screenWidth - rightPanel : Int) : Rat))

/-- The library call `rl.GetImageColor` with `int32` coordinates: blank outside the image. -/
def Image.getColorAt (img : Image) (x y : Int) : Color :=
  if 0 ≤ x ∧ 0 ≤ y then img.getColor x.toNat y.toNat else Color.blank

/-- The commands of the `switch` on the stroke tools (pen, brush, eraser). -/
def strokeCalls (app : App) (currentPos : Vector2) : List DrawCall :=
  match app.currentTool with
  | ToolType.ToolPen | ToolType.ToolBrush =>
    if app.penShape = PenShape.PenShapeSquare then
      [⟨app.activeLayer, false,
        Shape.squareLine app.lastMousePos currentPos app.penSize, app.currentColor⟩]
    else
      [⟨app.activeLayer, false,
          Shape.lineEx app.lastMousePos currentPos app.penSize, app.currentColor⟩,
        ⟨app.activeLayer, false, Shape.circleV currentPos (app.penSize / 2), app.currentColor⟩]
  | ToolType.ToolEraser =>
    if app.penShape = PenShape.PenShapeSquare then
      [⟨app.activeLayer, true,
        Shape.squareLine app.lastMousePos currentPos (app.penSize * 2), ⟨255, 255, 255, 255⟩⟩]
    else
      [⟨app.activeLayer, true,
          Shape.lineEx app.lastMousePos currentPos (app.penSize * 2), ⟨255, 255, 255, 255⟩⟩,
        ⟨app.activeLayer, true, Shape.circleV currentPos app.penSize, ⟨255, 255, 255, 255⟩⟩]
  | _ => []

/-- The commands of the `switch` on the primitive tools (line, rectangle, circle). -/
def commitCalls (app : App) (currentPos : Vector2) : List DrawCall :=
  match app.currentTool with
  | ToolType.ToolLine =>
    [⟨app.activeLayer, false, Shape.lineEx app.lineStart currentPos app.penSize,
      app.currentColor⟩]
  | ToolType.ToolRect =>
    [⟨app.activeLayer, false,
      Shape.rectangleLines (min app.lineStart.X currentPos.X) (min app.lineStart.Y currentPos.Y)
        (Int.natAbs (currentPos.X - app.lineStart.X))
        (Int.natAbs (currentPos.Y - app.lineStart.Y)),
      app.currentColor⟩]
  | ToolType.ToolCircle =>
    [⟨app.activeLayer, false,
      Shape.circleLines (Int.tdiv (app.lineStart.X + currentPos.X) 2)
        (Int.tdiv (app.lineStart.Y + currentPos.Y) 2) app.lineStart currentPos,
      app.currentColor⟩]
  | _ => []

/-- The commands `calls` issued between `rl.BeginTextureMode(app.layers[i].texture)`
and `rl.EndTextureMode()`, for any implementation `render` of the library's
rasterisation of one command. -/
def drawOnLayer (render : Image → DrawCall → Image) (layers : List Layer) (i : Int)
    (calls : List DrawCall) : Option (List Layer) := do
  let layer ← index? layers i
  some (layers.set i.toNat { layer with texture := calls.foldl render layer.texture })

/-- The stroke block: the active layer is drawn into with the stroke commands of
the current tool and the current position becomes `lastMousePos`. -/
def strokeBlock (render : Image → DrawCall → Image) (app : App) (currentPos : Vector2) :
    Option (App × List DrawCall) := do
  let layers ← drawOnLayer render app.layers app.activeLayer (strokeCalls app currentPos)
  some ({ app with layers := layers, lastMousePos := currentPos }, strokeCalls app currentPos)

/-- The block run on `IsMouseButtonReleased && isDrawing`: with a primitive tool
the primitive is drawn into the active layer up to `currentPos`; `isDrawing`
becomes false. -/
def commitBlock (render : Image → DrawCall → Image) (app : App) (released : Bool)
    (currentPos : Vector2) : Option (App × List DrawCall) :=
  if released ∧ app.isDrawing then
    if app.currentTool = ToolType.ToolLine ∨ app.currentTool = ToolType.ToolRect
        ∨ app.currentTool = ToolType.ToolCircle then do
      let layers ← drawOnLayer render app.layers app.activeLayer (commitCalls app currentPos)
      some ({ app with layers := layers, isDrawing := false }, commitCalls app currentPos)
    else some ({ app with isDrawing := false }, [])
  else some (app, [])

/-- The canvas handling of `Update` in `src/dd.go`: the state after the frame and
the drawing commands issued, in order. -/
def UpdateCanvas (render : Image → DrawCall → Image) (app : App) (inp : Input) :
    Option (App × List DrawCall) :=
  if inp.overCanvas then
    (index? app.layers app.activeLayer).bind fun active =>
      if !active.locked then
        let pos : Vector2 := ⟨inp.canvasX, inp.canvasY⟩
        let pressedApp : App :=
          if inp.pressed then { app with isDrawing := true, lastMousePos := pos, lineStart := pos }
          else app
        (if inp.down ∧ pressedApp.isDrawing then strokeBlock render pressedApp pos
          else some (pressedApp, [])).bind fun stroked =>
          (commitBlock render stroked.1 inp.released pos).map fun committed =>
            (committed.1, stroked.2 ++ committed.2)
      else some (app, [])
  else some (app, [])

/-- The block of `Update` in `src/cmd/old/dd.go` run on `IsMouseButtonPressed`:
the eyedropper samples the composite, any other tool records a snapshot and
starts a gesture. -/
def pressBlockOld (draw : Image → Image → Image) (app : App) (inp : Input) : Option App :=
  if app.currentTool = ToolType.ToolEyedropper then
    let composed := ComposeLayersWith draw app
    if inp.canvasX ≥ 0 ∧ inp.canvasX < composed.canvasWidth ∧ inp.canvasY ≥ 0
        ∧ inp.canvasY < composed.canvasHeight then
      some { composed with
        currentColor := composed.compositeTexture.getColorAt inp.canvasX
          (composed.canvasHeight - 1 - inp.canvasY) }
    else some composed
  else
    (index? app.layers app.activeLayer).bind fun active =>
      (if !active.locked then SaveLayerState app app.activeLayer "draw" else some app).map
        fun saved =>
          { saved with
            isDrawing := true
            lastMousePos := ⟨inp.canvasX, inp.canvasY⟩
            lineStart := ⟨inp.canvasX, inp.canvasY⟩ }

/-- The canvas handling of `Update` in `src/cmd/old/dd.go`: the state after the
frame and the drawing commands issued, in order. -/
def UpdateCanvasOld (draw : Image → Image → Image) (render : Image → DrawCall → Image)
    (app : App) (inp : Input) : Option (App × List DrawCall) :=
  (if inp.overCanvas then
    (index? app.layers app.activeLayer).bind fun active =>
      if !active.locked then
        (if inp.pressed then pressBlockOld draw app inp else some app).bind fun pressedApp =>
          strokeBlock render pressedApp ⟨inp.canvasX, inp.canvasY⟩
      else some (app, [])
  else some (app, [])).bind fun drawn =>
    (commitBlock render drawn.1 inp.released ⟨screenWidth, screenHeight⟩).map fun committed =>
      (committed.1, drawn.2 ++ committed.2)

/-- A stand-in for the rasterisation of a drawing command, used in examples:
the whole texture takes the colour of the command. -/
def floodRender (img : Image) (call : DrawCall) : Image :=
  Image.fill img.width img.height call.color

/-! ## The square pen: `DrawSquareLine` -/

/-- One call `rl.DrawRectangle(posX, posY, width, height, color)`. -/
structure Stamp where
  posX : Int
  posY : Int
  width : Int
  height : Int
  color : Color
deriving DecidableEq

/-- The pixels a stamp paints: `[posX, posX + width) x [posY, posY + height)`. -/
def Stamp.paints (s : Stamp) (x y : Int) : Bool :=
  decide (s.posX ≤ x ∧ x < s.posX + s.width ∧ s.posY ≤ y ∧ y < s.posY + s.height)

/-- The function `abs` of the source, on integer-valued arguments. -/
def absF (a : Int) : Int :=
  if a < 0 then -a else a

/-- The conversion `int32(v)` of a floating-point value: the fraction is
discarded, towards zero. -/
def truncate (q : Rat) : Int :=
  Int.tdiv q.num q.den

/-- The exponent of the unit in the last place of a `float32` of magnitude
`a / b`, counted from the smallest one: the least `k` with
`a / b < 2^24 * 2^(k - 149)`, at most 253. -/
def ulpExp (a b : Nat) : Nat → Nat → Nat
  | 0, k => k
  | binades + 1, k =>
    if a * 2 ^ 149 < 2 ^ (24 + k) * b then k else ulpExp a b binades (k + 1)

/-- The `float32` nearest to the rational `q`, ties to the even significand:
the value a `float32` operation yields, `q` being its exact result.  Overflow
to infinity (magnitudes of `2^128` and more) is not modelled. -/
def roundFloat32 (q : Rat) : Rat :=
  let k := ulpExp q.num.natAbs q.den 253 0
  let a := q.num.natAbs * 2 ^ 149
  let b := q.den * 2 ^ k
  let n := a / b
  let r := a % b
  let m := if 2 * r < b then n else if b < 2 * r then n + 1 else if n % 2 = 0 then n else n + 1
  mkRat (q.num.sign * ((m * 2 ^ k : Nat) : Int)) (2 ^ 149)

/-- The square drawn at one point of the line:
`rl.DrawRectangle(int32(x0-size/2), int32(y0-size/2), int32(size), int32(size), color)`,
for a `float32` value `size`; the quotient and the differences are `float32`
results. -/
def stampAt (size : Rat) (color : Color) (p : Vector2) : Stamp :=
  { posX := truncate (roundFloat32 ((p.X : Rat) - roundFloat32 (size / 2)))
    posY := truncate (roundFloat32 ((p.Y : Rat) - roundFloat32 (size / 2)))
    width := truncate size
    height := truncate size
    color := color }

/-- The unit in the last place of a `float32` of magnitude `m`: 1 below
`2^24`, doubling with every binade up to the largest one. -/
def ulpFrom (m : Nat) : Nat → Nat → Nat
  | 0, u => u
  | binades + 1, u => if m < 2 ^ 24 * u then u else ulpFrom m binades (2 * u)

/-- The `float32` nearest to the integer `n`, ties to the even significand:
the value a `float32` addition or subtraction of integer-valued operands
yields, `n` being its exact result. Integers of magnitude below `2^24` are
kept. Overflow to infinity (magnitudes of `2^128` and more) is not modelled. -/
def f32 (n : Int) : Int :=
  let ulp := ulpFrom n.natAbs 104 1
  let q := n.natAbs / ulp
  let r := n.natAbs % ulp
  let m := if 2 * r < ulp then q else if ulp < 2 * r then q + 1 else if q % 2 = 0 then q else q + 1
  n.sign * ((m * ulp : Nat) : Int)

/-- The `for` loop of `DrawSquareLine`: the points at which a square is drawn,
in order, or `none` when `fuel` iterations do not reach the `break`. The
coordinates and `err` are `float32` variables holding integers. -/
def squareLineLoop (dx dy sx sy endX endY : Int) : Nat → Int → Int → Int → Option (List Vector2)
  | 0, _, _, _ => none
  | fuel + 1, x0, y0, err =>
    if x0 = endX ∧ y0 = endY then some [⟨x0, y0⟩]
    else
      let e2 := f32 (2 * err)
      let err1 := if e2 > -dy then f32 (err - dy) else err
      let x1 := if e2 > -dy then f32 (x0 + sx) else x0
      let err2 := if e2 < dx then f32 (err1 + dx) else err1
      let y1 := if e2 < dx then f32 (y0 + sy) else y0
      (squareLineLoop dx dy sx sy endX endY fuel x1 y1 err2).map fun rest => ⟨x0, y0⟩ :: rest

/-- The points at which `DrawSquareLine` draws a square. -/
def squareLinePoints (fuel : Nat) (start finish : Vector2) : Option (List Vector2) :=
  let dx := absF (f32 (finish.X - start.X))
  let dy := absF (f32 (finish.Y - start.Y))
  squareLineLoop dx dy
    (if start.X > finish.X then -1 else 1) (if start.Y > finish.Y then -1 else 1)
    finish.X finish.Y fuel start.X start.Y (f32 (dx - dy))

/-- The function `DrawSquareLine`: the `rl.DrawRectangle` calls it issues, in order. -/
def DrawSquareLine (fuel : Nat) (start finish : Vector2) (size : Rat) (color : Color) :
    Option (List Stamp) :=
  (squareLinePoints fuel start finish).map fun pts => pts.map (stampAt size color)

/-- Two consecutive points of a stepped path: each coordinate changes by at
most 1 and at least one of them changes. -/
def Adjacent (p q : Vector2) : Prop :=
  q.X - p.X ≤ 1 ∧ p.X - q.X ≤ 1 ∧ q.Y - p.Y ≤ 1 ∧ p.Y - q.Y ≤ 1 ∧ (q.X ≠ p.X ∨ q.Y ≠ p.Y)

instance (p q : Vector2) : Decidable (Adjacent p q) := by
  unfold Adjacent; infer_instance

/-! ## Project files: `SaveProject` and `LoadProject` -/

/-- The struct `LayerData` of the project metadata. -/
structure LayerData where
  Name : String
  Visible : Bool
  Locked : Bool
  Opacity : Rat
deriving DecidableEq

/-- The struct `ColorData` of the project metadata. -/
structure ColorData where
  R : Fin 256
  G : Fin 256
  B : Fin 256
  A : Fin 256
deriving DecidableEq

/-- The struct `ProjectData`, the content of `project.json`. -/
structure ProjectData where
  CanvasWidth : Int
  CanvasHeight : Int
  Layers : List LayerData
  Palette : List ColorData
deriving DecidableEq

/-- One entry of a zip archive, with what the library calls of `LoadProject`
return for it: `scanned` is the value `fmt.Sscanf(file.Name, "layer_%d.png", &idx)`
leaves in `idx`; `project` is the document `json.NewDecoder(rc).Decode` yields
(`none`: the entry cannot be opened or decoded); `decoded` is the image
`png.Decode` yields, as 8-bit RGBA pixels (`none`: the entry cannot be opened,
read or decoded). -/
structure ZipFile where
  Name : String
  scanned : Int
  project : Option ProjectData
  decoded : Option Image
deriving DecidableEq

/-- The errors `LoadProject` returns: `zip.OpenReader` failed, no `project.json`
entry, or the metadata entry cannot be opened or decoded. -/
inductive LoadError where
  | archive
  | notFound
  | metadata
deriving DecidableEq

/-- The function `strings.HasPrefix`. -/
def HasPrefix (s pre : String) : Bool := pre.toList.isPrefixOf s.toList

/-- The function `strings.HasSuffix`. -/
def HasSuffix (s suf : String) : Bool := suf.toList.isSuffixOf s.toList

/-- The method `SaveProject`, when the file can be created and written: the
new state and the entries of the archive. `png goImg` is what `png.Decode`
will return for the bytes `png.Encode` writes for `goImg`; the metadata is
read back as written and `Sscanf` reads the index `Sprintf` printed. -/
def SaveProject (png : Image → Option Image) (app : App) (filename : String) :
    App × List ZipFile :=
  let project : ProjectData :=
    { CanvasWidth := app.canvasWidth
      CanvasHeight := app.canvasHeight
      Layers := app.layers.map fun layer =>
        { Name := layer.name, Visible := layer.visible, Locked := layer.locked,
          Opacity := layer.opacity }
      Palette := app.colorPalette.map fun color =>
        { R := color.r, G := color.g, B := color.b, A := color.a } }
  -- Save project.json
  let jsonFile : ZipFile :=
    { Name := "project.json", scanned := 0, project := some project, decoded := none }
  -- Save each layer as PNG
  let pngFiles := app.layers.enum.map fun (i, layer) =>
    { Name := "layer_" ++ toString i ++ ".png", scanned := (i : Int), project := none,
      decoded := png (goImgOf layer.texture) : ZipFile }
  ({ app with currentFilePath := filename }, jsonFile :: pngFiles)

/-- The first loop of `LoadProject`: the last entry named `project.json` and the
map `layerFiles`, as an association list with the latest assignment first. -/
def scanFiles (files : List ZipFile) : Option ZipFile × List (Int × ZipFile) :=
  files.foldl
    (fun acc file =>
      if file.Name = "project.json" then (some file, acc.2)
      else if HasPrefix file.Name "layer_" ∧ HasSuffix file.Name ".png" then
        (acc.1, (file.scanned, file) :: acc.2)
      else acc)
    (none, [])

/-- The body of the layer loop of `LoadProject`: a new layer with the stored
flags; when `layerFiles[i]` exists and decodes, the image `rlImg` rebuilt from
it is uploaded and drawn into the layer texture with `rl.DrawTexture`. -/
def loadLayer (layerFiles : List (Int × ZipFile)) (canvasWidth canvasHeight : Int) (i : Nat)
    (layerData : LayerData) : Layer :=
  let layer : Layer :=
    { NewLayer layerData.Name canvasWidth canvasHeight with
      visible := layerData.Visible
      locked := layerData.Locked
      opacity := layerData.Opacity }
  match (layerFiles.lookup (i : Int)).bind fun layerFile => layerFile.decoded with
  | some img => { layer with texture := drawTexture layer.texture (rlImgOf img) }
  | none => layer

/-- The layer loop of `LoadProject`, `for i, layerData := range project.Layers`,
from index `i` on. -/
def loadLayers (layerFiles : List (Int × ZipFile)) (canvasWidth canvasHeight : Int) :
    Nat → List LayerData → List Layer
  | _, [] => []
  | i, layerData :: rest =>
    loadLayer layerFiles canvasWidth canvasHeight i layerData
      :: loadLayers layerFiles canvasWidth canvasHeight (i + 1) rest

/-- The method `LoadProject`: the state it leaves and the error it returns
(`none` for `nil`). `archive` is the result of `zip.OpenReader(filename)`. -/
def LoadProject (app : App) (filename : String) (archive : Option (List ZipFile)) :
    App × Option LoadError :=
  match archive with
  | none => (app, some LoadError.archive)
  | some files =>
    -- Find and read project.json
    match (scanFiles files).1 with
    | none => (app, some LoadError.notFound)
    | some projectFile =>
      match projectFile.project with
      | none => (app, some LoadError.metadata)
      | some project =>
        let layers :=
          loadLayers (scanFiles files).2 project.CanvasWidth project.CanvasHeight 0
            project.Layers
        ({ app with
            layers := layers
            canvasWidth := project.CanvasWidth
            canvasHeight := project.CanvasHeight
            compositeTexture :=
              Image.fill project.CanvasWidth.toNat project.CanvasHeight.toNat Color.blank
            colorPalette :=
              if project.Palette.length > 0 then
                project.Palette.map fun colorData =>
                  ⟨colorData.R, colorData.G, colorData.B, colorData.A⟩
              else app.colorPalette
            -- Reset view
            activeLayer := min 1 ((layers.length : Int) - 1)
            zoom := 1
            panX := 0
            panY := 0
            currentFilePath := filename }, none)

/-! ## The initial state and the states reachable from it -/

/-- The function `NewApp`, for the fields of the model; the palette holds the
values of raylib's named colours. -/
def NewApp : App :=
  { canvasWidth := 512
    canvasHeight := 512
    zoom := 1
    currentTool := ToolType.ToolPen
    penSize := 4
    penShape := PenShape.PenShapeRound
    currentColor := ⟨0, 0, 0, 255⟩
    layerCounter := 3
    maxHistory := 50
    historyIndex := -1
    history := []
    layers :=
      [{ NewLayer "BACKGROUND" 512 512 with texture := Image.fill 512 512 ⟨255, 255, 255, 255⟩ },
        NewLayer "LAYER 1" 512 512, NewLayer "LAYER 2" 512 512]
    activeLayer := 1
    compositeTexture := Image.fill 512 512 Color.blank
    colorPalette :=
      [⟨0, 0, 0, 255⟩, ⟨255, 255, 255, 255⟩, ⟨230, 41, 55, 255⟩, ⟨0, 228, 48, 255⟩,
        ⟨0, 121, 241, 255⟩, ⟨253, 249, 0, 255⟩, ⟨255, 161, 0, 255⟩, ⟨200, 122, 255, 255⟩,
        ⟨255, 109, 194, 255⟩, ⟨127, 106, 79, 255⟩, ⟨130, 130, 130, 255⟩, ⟨80, 80, 80, 255⟩,
        ⟨200, 200, 200, 255⟩, ⟨102, 191, 255, 255⟩, ⟨255, 0, 255, 255⟩, ⟨255, 0, 128, 255⟩,
        ⟨128, 255, 0, 255⟩, ⟨0, 128, 255, 255⟩] }

/-- The states reachable from `NewApp` through the history engine and the
layer-stack operations, each with any arguments, when the call returns. -/
inductive Reachable : App → Prop where
  | init : Reachable NewApp
  | saveLayerState {app app' : App} (layerIndex : Int) (actionType : String) :
      Reachable app → SaveLayerState app layerIndex actionType = some app' → Reachable app'
  | undo {app app' : App} : Reachable app → Undo app = some app' → Reachable app'
  | redo {app app' : App} : Reachable app → Redo app = some app' → Reachable app'
  | addLayer {app : App} : Reachable app → Reachable (AddLayer app)
  | duplicateActiveLayer {app app' : App} :
      Reachable app → DuplicateActiveLayer app = some app' → Reachable app'
  | deleteActiveLayer {app app' : App} :
      Reachable app → DeleteActiveLayer app = some app' → Reachable app'
  | reorderLayers {app app' : App} (fromIndex toIndex : Int) :
      Reachable app → ReorderLayers app fromIndex toIndex = some app' → Reachable app'

/-! ## Predicates and derived operations used in the statements -/

/-- The history invariant: bounded length and a position in `[-1, length - 1]`. -/
def App.HistInv (app : App) : Prop :=
  (app.history.length : Int) ≤ app.maxHistory ∧ -1 ≤ app.historyIndex
    ∧ app.historyIndex ≤ (app.history.length : Int) - 1

instance (app : App) : Decidable app.HistInv := by
  unfold App.HistInv; infer_instance

/-- The layer-stack invariant: at least one layer and a valid active index. -/
def App.LayerInv (app : App) : Prop :=
  1 ≤ app.layers.length ∧ 0 ≤ app.activeLayer ∧ app.activeLayer < app.layers.length

instance (app : App) : Decidable app.LayerInv := by
  unfold App.LayerInv; infer_instance

/-- The pixel content of layer `i`, if there is such a layer. -/
def App.pixels? (app : App) (i : Nat) : Option Image :=
  app.layers[i]?.map Layer.texture

/-- An arbitrary change of the pixels of layer `i`: afterwards its texture holds `img`. -/
def App.paint (app : App) (i : Nat) (img : Image) : App :=
  { app with layers := app.layers.modify (fun l => { l with texture := img }) i }

/-- One draw operation on layer `i`: the snapshot, then a change of its pixels. -/
def drawOp (i : Nat) (app : Option App) (img : Image) : Option App :=
  app.bind fun a => (SaveLayerState a i "draw").map fun b => b.paint i img

/-- A sequence of draw operations on layer `i`, one per image of the list. -/
def drawOps (i : Nat) (app : App) (imgs : List Image) : Option App :=
  imgs.foldl (drawOp i) (some app)

/-- Successive calls of `Undo`, `n` of them. -/
def undoN : Nat → App → Option App
  | 0, app => some app
  | n + 1, app => (Undo app).bind (undoN n)

/-- A sequence of `SaveLayerState` calls, each with its layer index and tag. -/
def saveAll (app : App) (calls : List (Int × String)) : Option App :=
  calls.foldl (fun a c => a.bind fun b => SaveLayerState b c.1 c.2) (some app)

/-! ## Small concrete states -/

/-- A one-pixel image of the given grey level. -/
def dot (v : Fin 256) : Image := ⟨1, 1, [⟨v, v, v, 255⟩], rfl⟩

/-- A layer holding a one-pixel image. -/
def dotLayer (name : String) (v : Fin 256) (locked : Bool) : Layer :=
  { name := name, texture := dot v, visible := true, locked := locked, opacity := 1 }

/-- A state with two layers and the given history, position and capacity. -/
def sample (history : List HistoryAction) (historyIndex maxHistory : Int) : App :=
  { layers := [dotLayer "BACKGROUND" 255 false, dotLayer "LAYER 1" 10 false]
    activeLayer := 1
    canvasWidth := 1
    canvasHeight := 1
    layerCounter := 2
    history := history
    historyIndex := historyIndex
    maxHistory := maxHistory }

/-- Two recorded snapshots of layer 1, used as a sample history. -/
def sampleHistory : List HistoryAction :=
  [⟨"draw", 1, dot 1⟩, ⟨"draw", 1, dot 2⟩]

/-- Three recorded snapshots of layer 1. -/
def sampleHistory3 : List HistoryAction :=
  [⟨"draw", 1, dot 1⟩, ⟨"draw", 1, dot 2⟩, ⟨"draw", 1, dot 3⟩]

/-- A state whose layer 1 is locked, with one recorded snapshot of that layer. -/
def lockedSample (history : List HistoryAction) (historyIndex : Int) : App :=
  { layers := [dotLayer "BACKGROUND" 255 false, dotLayer "LAYER 1" 10 true]
    activeLayer := 1
    canvasWidth := 1
    canvasHeight := 1
    layerCounter := 2
    history := history
    historyIndex := historyIndex
    maxHistory := 50 }

/-- A state with three layers `A`, `B`, `C` (grey levels 1, 2, 3) and no history. -/
def sample3 (activeLayer : Int) : App :=
  { layers := [dotLayer "A" 1 false, dotLayer "B" 2 false, dotLayer "C" 3 false]
    activeLayer := activeLayer
    canvasWidth := 1
    canvasHeight := 1
    layerCounter := 3
    history := []
    historyIndex := -1
    maxHistory := 50 }

/-- A layer holding a one-pixel image, with the given visibility and opacity. -/
def dotLayerWith (name : String) (v : Fin 256) (visible : Bool) (opacity : Rat) : Layer :=
  { name := name, texture := dot v, visible := visible, locked := false, opacity := opacity }

/-- A state with a one-pixel canvas, a one-pixel composite texture and the given layers. -/
def stack (layers : List Layer) : App :=
  { layers := layers
    activeLayer := 0
    canvasWidth := 1
    canvasHeight := 1
    layerCounter := 1
    history := []
    historyIndex := -1
    maxHistory := 50
    compositeTexture := Image.fill 1 1 Color.blank }

/-- A one-pixel, one-layer state with the eyedropper selected; the layer holds
grey 9 and is locked or not, and the current colour is black. -/
def pickerSample (locked : Bool) : App :=
  { layers := [dotLayer "BACKGROUND" 9 locked]
    activeLayer := 0
    canvasWidth := 1
    canvasHeight := 1
    layerCounter := 1
    history := []
    historyIndex := -1
    maxHistory := 50
    currentTool := ToolType.ToolEyedropper
    compositeTexture := Image.fill 1 1 Color.blank }

/-- A frame with the pointer over the canvas at canvas position `(0, 0)` and the
left button just pressed. -/
def pressAtOrigin : Input :=
  { mouseX := 500, canvasX := 0, canvasY := 0, pressed := true, down := true, released := false }

/-- The state `NewApp` is in after `AddLayer`, `SaveLayerState(3, "draw")` and
`DeleteActiveLayer`: the one history entry records index 3 and three layers
are left. -/
def staleIndexState : App :=
  { NewApp with
    layerCounter := 4
    activeLayer := 2
    history := [⟨"draw", 3, goImgOf (Image.fill 512 512 Color.blank)⟩]
    historyIndex := 0 }

/-- A one-pixel image holding the colour `c`. -/
def pixel (c : Color) : Image := ⟨1, 1, [c], rfl⟩

/-- An image one pixel wide and two rows high. -/
def strip (row0 row1 : Color) : Image := ⟨1, 2, [row0, row1], rfl⟩

/-- A visible, unlocked layer of opacity 1 named `INK`. -/
def inkLayer (texture : Image) : Layer :=
  { name := "INK", texture := texture, visible := true, locked := false, opacity := 1 }

/-- A state with the one layer `INK` and the given history and position. -/
def inkState (texture : Image) (history : List HistoryAction) (historyIndex : Int) : App :=
  { stack [inkLayer texture] with history := history, historyIndex := historyIndex }

/-! ## Images: the two conversion loops are mutually inverse -/

set_option maxRecDepth 100000 in
theorem chan8_chan16 (v : Fin 256) : chan8 (chan16 v) = v := by
  revert v; decide

theorem Color.viaRGBA_eq (c : Color) : c.viaRGBA = c := by
  cases c; simp [Color.viaRGBA, chan8_chan16]

theorem pixIndex_inj {w x y x' y' : Nat} (hx : x < w) (hx' : x' < w)
    (h : y * w + x = y' * w + x') : x = x' ∧ y = y' := by
  have h1 : (y * w + x) % w = (y' * w + x') % w := by rw [h]
  have h2 : (y * w + x) / w = (y' * w + x') / w := by rw [h]
  have hw : 0 < w := by omega
  rw [Nat.mul_comm y w, Nat.mul_comm y' w] at h1 h2
  rw [Nat.mul_add_mod, Nat.mul_add_mod, Nat.mod_eq_of_lt hx, Nat.mod_eq_of_lt hx'] at h1
  rw [Nat.mul_add_div hw, Nat.mul_add_div hw, Nat.div_eq_of_lt hx, Nat.div_eq_of_lt hx'] at h2
  omega

theorem pixIndex_lt {w h x y : Nat} (hx : x < w) (hy : y < h) : y * w + x < w * h := by
  calc y * w + x < y * w + w := by omega
    _ = (y + 1) * w := by ring
    _ ≤ h * w := Nat.mul_le_mul_right w hy
    _ = w * h := Nat.mul_comm h w

@[simp] theorem Image.setColor_width (img : Image) (x y : Nat) (c : Color) :
    (img.setColor x y c).width = img.width := by
  unfold Image.setColor; split <;> rfl

@[simp] theorem Image.setColor_height (img : Image) (x y : Nat) (c : Color) :
    (img.setColor x y c).height = img.height := by
  unfold Image.setColor; split <;> rfl

theorem Image.getColor_setColor (img : Image) (x y : Nat) (c : Color) (x' y' : Nat) :
    (img.setColor x y c).getColor x' y'
      = if x' = x ∧ y' = y ∧ x < img.width ∧ y < img.height then c
        else img.getColor x' y' := by
  by_cases hb : x < img.width ∧ y < img.height
  · by_cases hb' : x' < img.width ∧ y' < img.height
    · have hlt := pixIndex_lt hb'.1 hb'.2
      by_cases he : x' = x ∧ y' = y
      · obtain ⟨rfl, rfl⟩ := he
        simp [Image.setColor, Image.getColor, hb, List.getD_eq_getElem?_getD,
          List.getElem?_set, img.wf, hlt]
      · have hne : y * img.width + x ≠ y' * img.width + x' := by
          intro h
          have := pixIndex_inj hb.1 hb'.1 h
          exact he ⟨this.1.symm, this.2.symm⟩
        have he' : ¬ (x' = x ∧ y' = y ∧ x < img.width ∧ y < img.height) := fun h => he ⟨h.1, h.2.1⟩
        simp [Image.setColor, Image.getColor, hb, hb', List.getD_eq_getElem?_getD,
          List.getElem?_set, hne, he]
    · have he' : ¬ (x' = x ∧ y' = y ∧ x < img.width ∧ y < img.height) := by
        rintro ⟨rfl, rfl, h⟩; exact hb' h
      have he : ¬ (x' = x ∧ y' = y) := fun h => he' ⟨h.1, h.2, hb⟩
      simp [Image.setColor, Image.getColor, hb, hb', he]
  · have he' : ¬ (x' = x ∧ y' = y ∧ x < img.width ∧ y < img.height) := fun h => hb h.2.2
    simp [Image.setColor, hb, he']

theorem Image.getColor_fill (w h : Nat) (c : Color) (x y : Nat) :
    (Image.fill w h c).getColor x y = if x < w ∧ y < h then c else Color.blank := by
  by_cases hb : x < w ∧ y < h
  · have := pixIndex_lt hb.1 hb.2
    simp [Image.fill, Image.getColor, hb, List.getD_eq_getElem?_getD, List.getElem?_replicate, this]
  · simp [Image.fill, Image.getColor, hb]

/-- Two images of the same size with the same pixel at every position are equal. -/
theorem Image.ext_getColor {a b : Image} (hw : a.width = b.width) (hh : a.height = b.height)
    (h : ∀ x y, x < a.width → y < a.height → a.getColor x y = b.getColor x y) : a = b := by
  obtain ⟨wa, ha, pa, wfa⟩ := a
  obtain ⟨wb, hb, pb, wfb⟩ := b
  simp only at hw hh
  subst hw hh
  have hp : pa = pb := by
    apply List.ext_getElem (by rw [wfa, wfb])
    intro i h1 h2
    have hi : i < wa * ha := by rw [← wfa]; exact h1
    have hwpos : 0 < wa := by
      rcases Nat.eq_zero_or_pos wa with h0 | h0
      · subst h0; simp at hi
      · exact h0
    have hx : i % wa < wa := Nat.mod_lt _ hwpos
    have hy : i / wa < ha := Nat.div_lt_of_lt_mul hi
    have hidx : i / wa * wa + i % wa = i := Nat.div_add_mod' i wa
    have := h (i % wa) (i / wa) hx hy
    simp only [Image.getColor, hx, hy, and_self, if_true, hidx, List.getD_eq_getElem?_getD] at this
    rw [List.getElem?_eq_getElem h1, List.getElem?_eq_getElem h2] at this
    simpa using this
  subst hp
  rfl

/-- One row of a conversion loop: the pixels `(x, r)` for `x < n` are overwritten. -/
theorem rowLoop_spec (f : Nat → Color) (r n : Nat) (g : Image) :
    ((List.range n).foldl (fun g x => g.setColor x r (f x)) g).width = g.width
    ∧ ((List.range n).foldl (fun g x => g.setColor x r (f x)) g).height = g.height
    ∧ ∀ x' y', ((List.range n).foldl (fun g x => g.setColor x r (f x)) g).getColor x' y'
        = if x' < n ∧ y' = r ∧ x' < g.width ∧ r < g.height then f x' else g.getColor x' y' := by
  induction n with
  | zero => simp
  | succ n ih =>
    obtain ⟨ihw, ihh, ihc⟩ := ih
    rw [List.range_succ, List.foldl_append]
    simp only [List.foldl_cons, List.foldl_nil, Image.setColor_width, Image.setColor_height]
    refine ⟨ihw, ihh, ?_⟩
    intro x' y'
    rw [Image.getColor_setColor, ihc, ihw, ihh]
    by_cases h1 : x' = n
    · subst h1
      by_cases h2 : y' = r ∧ x' < g.width ∧ r < g.height
      · simp [h2]
      · have h3 : ¬ (y' = r ∧ x' < g.width ∧ r < g.height) := h2
        by_cases h4 : y' = r <;> by_cases h5 : x' < g.width <;> by_cases h6 : r < g.height
          <;> simp_all
    · have h2 : (x' < n + 1) = (x' < n) := by
        apply propext; omega
      simp [h1, h2]

/-- The whole conversion loop after `n` source rows. -/
theorem flipLoop_spec (F : Nat → Nat → Color) (W H n : Nat) (g : Image)
    (hw : g.width = W) (hh : g.height = H) (hn : n ≤ H) :
    ((List.range n).foldl
        (fun g y => (List.range W).foldl (fun g x => g.setColor x (H - 1 - y) (F x y)) g) g).width
      = W
    ∧ ((List.range n).foldl
        (fun g y => (List.range W).foldl (fun g x => g.setColor x (H - 1 - y) (F x y)) g) g).height
      = H
    ∧ ∀ x' y', ((List.range n).foldl
        (fun g y => (List.range W).foldl (fun g x => g.setColor x (H - 1 - y) (F x y)) g)
          g).getColor x' y'
        = if x' < W ∧ y' < H ∧ H - 1 - y' < n then F x' (H - 1 - y') else g.getColor x' y' := by
  induction n with
  | zero => simp [hw, hh]
  | succ n ih =>
    obtain ⟨ihw, ihh, ihc⟩ := ih (by omega)
    rw [List.range_succ, List.foldl_append]
    simp only [List.foldl_cons, List.foldl_nil]
    obtain ⟨rw1, rh1, rc1⟩ := rowLoop_spec (fun x => F x n) (H - 1 - n) W
      ((List.range n).foldl
        (fun g y => (List.range W).foldl (fun g x => g.setColor x (H - 1 - y) (F x y)) g) g)
    refine ⟨by rw [rw1, ihw], by rw [rh1, ihh], ?_⟩
    intro x' y'
    rw [rc1, ihc, ihw, ihh]
    by_cases h1 : x' < W ∧ y' = H - 1 - n ∧ x' < W ∧ H - 1 - n < H
    · have e1 : H - 1 - y' = n := by omega
      have c2 : x' < W ∧ y' < H ∧ H - 1 - y' < n + 1 := ⟨h1.1, by omega, by omega⟩
      rw [if_pos h1, if_pos c2, e1]
    · rw [if_neg h1]
      by_cases h2 : x' < W ∧ y' < H ∧ H - 1 - y' < n
      · have c2 : x' < W ∧ y' < H ∧ H - 1 - y' < n + 1 := ⟨h2.1, h2.2.1, by omega⟩
        rw [if_pos h2, if_pos c2]
      · have c2 : ¬ (x' < W ∧ y' < H ∧ H - 1 - y' < n + 1) := by
          rintro ⟨a, b, c⟩
          by_cases h3 : H - 1 - y' < n
          · exact h2 ⟨a, b, h3⟩
          · exact h1 ⟨a, by omega, a, by omega⟩
        rw [if_neg h2, if_neg c2]

theorem goImgOf_width (img : Image) : (goImgOf img).width = img.width :=
  (flipLoop_spec (fun x y => img.getColor x y) img.width img.height img.height
    (Image.fill img.width img.height Color.blank) rfl rfl (Nat.le_refl _)).1

theorem goImgOf_height (img : Image) : (goImgOf img).height = img.height :=
  (flipLoop_spec (fun x y => img.getColor x y) img.width img.height img.height
    (Image.fill img.width img.height Color.blank) rfl rfl (Nat.le_refl _)).2.1

/-- The snapshot is the texture image upside down: pixel `(x, y)` of the snapshot
is pixel `(x, height - 1 - y)` of the image. -/
theorem goImgOf_getColor (img : Image) (x y : Nat) (hx : x < img.width) (hy : y < img.height) :
    (goImgOf img).getColor x y = img.getColor x (img.height - 1 - y) := by
  have h := (flipLoop_spec (fun x y => img.getColor x y) img.width img.height img.height
    (Image.fill img.width img.height Color.blank) rfl rfl (Nat.le_refl _)).2.2 x y
  have e : img.height - 1 - y < img.height := by omega
  unfold goImgOf
  rw [h]
  simp [hx, hy, e]

theorem rlImgOf_width (g : Image) : (rlImgOf g).width = g.width :=
  (flipLoop_spec (fun x y => (g.getColor x y).viaRGBA) g.width g.height g.height
    (Image.fill g.width g.height Color.blank) rfl rfl (Nat.le_refl _)).1

theorem rlImgOf_height (g : Image) : (rlImgOf g).height = g.height :=
  (flipLoop_spec (fun x y => (g.getColor x y).viaRGBA) g.width g.height g.height
    (Image.fill g.width g.height Color.blank) rfl rfl (Nat.le_refl _)).2.1

theorem rlImgOf_getColor (g : Image) (x y : Nat) (hx : x < g.width) (hy : y < g.height) :
    (rlImgOf g).getColor x y = g.getColor x (g.height - 1 - y) := by
  have h := (flipLoop_spec (fun x y => (g.getColor x y).viaRGBA) g.width g.height g.height
    (Image.fill g.width g.height Color.blank) rfl rfl (Nat.le_refl _)).2.2 x y
  have e : g.height - 1 - y < g.height := by omega
  unfold rlImgOf
  rw [h]
  simp [hx, hy, e, Color.viaRGBA_eq]

/-- The conversion loop of `Undo`, applied to a snapshot, rebuilds the read-back
image the snapshot was taken from. -/
theorem rlImgOf_goImgOf (img : Image) : rlImgOf (goImgOf img) = img := by
  apply Image.ext_getColor
  · rw [rlImgOf_width, goImgOf_width]
  · rw [rlImgOf_height, goImgOf_height]
  · intro x y hx hy
    rw [rlImgOf_width, goImgOf_width] at hx
    rw [rlImgOf_height, goImgOf_height] at hy
    rw [rlImgOf_getColor _ _ _ (by rw [goImgOf_width]; exact hx) (by rw [goImgOf_height]; exact hy),
      goImgOf_height, goImgOf_getColor _ _ _ hx (by omega)]
    congr 1
    omega

/-- The conversion loop of `SaveLayerState` inverts the one of `Undo`. -/
theorem goImgOf_rlImgOf (g : Image) : goImgOf (rlImgOf g) = g := by
  apply Image.ext_getColor
  · rw [goImgOf_width, rlImgOf_width]
  · rw [goImgOf_height, rlImgOf_height]
  · intro x y hx hy
    rw [goImgOf_width, rlImgOf_width] at hx
    rw [goImgOf_height, rlImgOf_height] at hy
    rw [goImgOf_getColor _ _ _ (by rw [rlImgOf_width]; exact hx) (by rw [rlImgOf_height]; exact hy),
      rlImgOf_height, rlImgOf_getColor _ _ _ hx (by omega)]
    congr 1
    omega

/-! ## Go slices: when they do not panic -/

theorem index?_eq_some {α : Type} (l : List α) (i : Int) (h0 : 0 ≤ i) (h1 : i < l.length) :
    ∃ a, l[i.toNat]? = some a ∧ index? l i = some a := by
  have hlt : i.toNat < l.length := by omega
  exact ⟨l[i.toNat], List.getElem?_eq_getElem hlt, by simp [index?, h0, List.getElem?_eq_getElem hlt]⟩

theorem index?_of_getElem? {α : Type} (l : List α) (i : Int) (a : α) (h0 : 0 ≤ i)
    (h : l[i.toNat]? = some a) : index? l i = some a := by
  simp [index?, h0, h]

theorem sliceTo?_eq_some {α : Type} (l : List α) (hi : Int) (h0 : 0 ≤ hi) (h1 : hi ≤ l.length) :
    sliceTo? l hi = some (l.take hi.toNat) := by
  simp [sliceTo?, h0, h1]

theorem sliceFrom?_eq_some {α : Type} (l : List α) (lo : Int) (h0 : 0 ≤ lo) (h1 : lo ≤ l.length) :
    sliceFrom? l lo = some (l.drop lo.toNat) := by
  simp [sliceFrom?, h0, h1]

/-! ## The three history operations in closed form -/

/-- The history after the truncation and the append of `SaveLayerState`. -/
theorem SaveLayerState_eq (app : App) (i : Int) (tag : String) (layer : Layer)
    (h0 : 0 ≤ i) (hl : app.layers[i.toNat]? = some layer)
    (hp0 : -1 ≤ app.historyIndex) (hp1 : app.historyIndex ≤ (app.history.length : Int) - 1) :
    SaveLayerState app i tag
      = some
        (if ((app.history.take (app.historyIndex + 1).toNat
              ++ [HistoryAction.mk tag i.toNat (goImgOf layer.texture)] : List HistoryAction).length : Int)
            > app.maxHistory then
          { app with
            history := (app.history.take (app.historyIndex + 1).toNat
              ++ [HistoryAction.mk tag i.toNat (goImgOf layer.texture)]).drop 1
            historyIndex := app.historyIndex + 1 - 1 }
        else
          { app with
            history := app.history.take (app.historyIndex + 1).toNat
              ++ [HistoryAction.mk tag i.toNat (goImgOf layer.texture)]
            historyIndex := app.historyIndex + 1 }) := by
  have hlen : i.toNat < app.layers.length := by
    rcases Nat.lt_or_ge i.toNat app.layers.length with h | h
    · exact h
    · rw [List.getElem?_eq_none h] at hl; cases hl
  have hguard : ¬ (i < 0 ∨ i ≥ (app.layers.length : Int)) := by omega
  have hidx : index? app.layers i = some layer := index?_of_getElem? _ _ _ h0 hl
  have hdrop : ∀ l : List HistoryAction,
      sliceFrom? (l ++ [HistoryAction.mk tag i.toNat (goImgOf layer.texture)]) 1
        = some ((l ++ [HistoryAction.mk tag i.toNat (goImgOf layer.texture)]).drop 1) := by
    intro l
    exact sliceFrom?_eq_some _ 1 (by omega) (by simp)
  unfold SaveLayerState
  rw [if_neg hguard]
  simp only [Option.bind_eq_bind, hidx, Option.some_bind]
  by_cases ht : app.historyIndex < (app.history.length : Int) - 1
  · rw [if_pos ht, sliceTo?_eq_some _ _ (by omega) (by omega), Option.some_bind]
    split
    · rw [hdrop, Option.some_bind]
    · rfl
  · have hT : app.history.take (app.historyIndex + 1).toNat = app.history := by
      have : (app.historyIndex + 1).toNat = app.history.length := by omega
      rw [this, List.take_length]
    rw [if_neg ht, hT]
    split
    · rw [hdrop, Option.some_bind]
    · rfl

theorem SaveLayerState_invalid (app : App) (i : Int) (tag : String)
    (h : i < 0 ∨ i ≥ (app.layers.length : Int)) : SaveLayerState app i tag = some app := by
  unfold SaveLayerState
  rw [if_pos h]

theorem Undo_eq (app : App) (action : HistoryAction) (h0 : 0 ≤ app.historyIndex)
    (ha : app.history[app.historyIndex.toNat]? = some action) :
    Undo app = some { app with
      layers := restoreAction app.layers action
      historyIndex := app.historyIndex - 1 } := by
  have hlen : app.historyIndex.toNat < app.history.length := by
    rcases Nat.lt_or_ge app.historyIndex.toNat app.history.length with h | h
    · exact h
    · rw [List.getElem?_eq_none h] at ha; cases ha
  have hguard : ¬ (app.historyIndex < 0 ∨ app.historyIndex ≥ (app.history.length : Int)) := by
    omega
  unfold Undo
  rw [if_neg hguard]
  simp [index?_of_getElem? _ _ _ h0 ha]

theorem Undo_noop (app : App)
    (h : app.historyIndex < 0 ∨ app.historyIndex ≥ (app.history.length : Int)) :
    Undo app = some app := by
  unfold Undo
  rw [if_pos h]

theorem Redo_eq (app : App) (action : HistoryAction) (h0 : -2 ≤ app.historyIndex)
    (h1 : app.historyIndex < (app.history.length : Int) - 2)
    (ha : app.history[(app.historyIndex + 2).toNat]? = some action) :
    Redo app = some { app with
      layers := restoreAction app.layers action
      historyIndex := app.historyIndex + 2 } := by
  have e : app.historyIndex + 1 + 1 = app.historyIndex + 2 := by omega
  unfold Redo
  rw [if_pos h1]
  simp [e, index?_of_getElem? _ _ _ (show 0 ≤ app.historyIndex + 2 by omega) ha]

theorem Redo_noop (app : App) (h : ¬ app.historyIndex < (app.history.length : Int) - 2) :
    Redo app = some app := by
  unfold Redo
  rw [if_neg h]

theorem restoreAction_length (layers : List Layer) (action : HistoryAction) :
    (restoreAction layers action).length = layers.length := by
  unfold restoreAction
  split <;> simp

/-! ## The history invariant -/

theorem SaveLayerState_HistInv (app : App) (h : app.HistInv) (i : Int) (tag : String) :
    ∃ app', SaveLayerState app i tag = some app' ∧ app'.HistInv
      ∧ app'.maxHistory = app.maxHistory ∧ app'.layers = app.layers := by
  obtain ⟨h1, h2, h3⟩ := h
  by_cases hg : i < 0 ∨ i ≥ (app.layers.length : Int)
  · exact ⟨app, SaveLayerState_invalid app i tag hg, ⟨h1, h2, h3⟩, rfl, rfl⟩
  · obtain ⟨layer, hl, -⟩ := index?_eq_some app.layers i (by omega) (by omega)
    rw [SaveLayerState_eq app i tag layer (by omega) hl h2 h3]
    refine ⟨_, rfl, ?_, ?_, ?_⟩
    · unfold App.HistInv
      split
      · rename_i hc
        simp only [List.length_append, List.length_take, List.length_singleton,
          List.length_drop] at hc ⊢
        omega
      · rename_i hc
        simp only [List.length_append, List.length_take, List.length_singleton] at hc ⊢
        omega
    · split <;> rfl
    · split <;> rfl

theorem Undo_HistInv (app : App) (h : app.HistInv) :
    ∃ app', Undo app = some app' ∧ app'.HistInv ∧ app'.maxHistory = app.maxHistory
      ∧ app'.layers.length = app.layers.length := by
  obtain ⟨h1, h2, h3⟩ := h
  by_cases hg : app.historyIndex < 0 ∨ app.historyIndex ≥ (app.history.length : Int)
  · exact ⟨app, Undo_noop app hg, ⟨h1, h2, h3⟩, rfl, rfl⟩
  · obtain ⟨action, ha, -⟩ := index?_eq_some app.history app.historyIndex (by omega) (by omega)
    rw [Undo_eq app action (by omega) ha]
    refine ⟨_, rfl, ?_, rfl, restoreAction_length _ _⟩
    unfold App.HistInv
    simp only
    omega

theorem Redo_HistInv (app : App) (h : app.HistInv) :
    ∃ app', Redo app = some app' ∧ app'.HistInv ∧ app'.maxHistory = app.maxHistory
      ∧ app'.layers.length = app.layers.length := by
  obtain ⟨h1, h2, h3⟩ := h
  by_cases hg : app.historyIndex < (app.history.length : Int) - 2
  · obtain ⟨action, ha, -⟩ :=
      index?_eq_some app.history (app.historyIndex + 2) (by omega) (by omega)
    rw [Redo_eq app action (by omega) hg ha]
    refine ⟨_, rfl, ?_, rfl, restoreAction_length _ _⟩
    unfold App.HistInv
    simp only
    omega
  · exact ⟨app, Redo_noop app hg, ⟨h1, h2, h3⟩, rfl, rfl⟩

/-- C1: in every state whose history holds at most `maxHistory` entries and whose
position lies in `[-1, length - 1]`, each of `SaveLayerState` (any layer index,
any tag), `Undo` and `Redo` returns a state, and that state again has at most
`maxHistory` entries and a position in `[-1, length - 1]`. -/
theorem history_invariant_preserved (app : App) (hmax : 1 ≤ app.maxHistory)
    (hlen : (app.history.length : Int) ≤ app.maxHistory)
    (hlo : -1 ≤ app.historyIndex)
    (hhi : app.historyIndex ≤ (app.history.length : Int) - 1) :
    (∀ (i : Int) (tag : String), ∃ app', SaveLayerState app i tag = some app'
        ∧ (app'.history.length : Int) ≤ app'.maxHistory ∧ -1 ≤ app'.historyIndex
        ∧ app'.historyIndex ≤ (app'.history.length : Int) - 1 ∧ 1 ≤ app'.maxHistory)
    ∧ (∃ app', Undo app = some app'
        ∧ (app'.history.length : Int) ≤ app'.maxHistory ∧ -1 ≤ app'.historyIndex
        ∧ app'.historyIndex ≤ (app'.history.length : Int) - 1 ∧ 1 ≤ app'.maxHistory)
    ∧ (∃ app', Redo app = some app'
        ∧ (app'.history.length : Int) ≤ app'.maxHistory ∧ -1 ≤ app'.historyIndex
        ∧ app'.historyIndex ≤ (app'.history.length : Int) - 1 ∧ 1 ≤ app'.maxHistory) := by
  have h : app.HistInv := ⟨hlen, hlo, hhi⟩
  refine ⟨fun i tag => ?_, ?_, ?_⟩
  · obtain ⟨app', e, ⟨a, b, c⟩, m, -⟩ := SaveLayerState_HistInv app h i tag
    exact ⟨app', e, a, b, c, by rw [m]; exact hmax⟩
  · obtain ⟨app', e, ⟨a, b, c⟩, m, -⟩ := Undo_HistInv app h
    exact ⟨app', e, a, b, c, by rw [m]; exact hmax⟩
  · obtain ⟨app', e, ⟨a, b, c⟩, m, -⟩ := Redo_HistInv app h
    exact ⟨app', e, a, b, c, by rw [m]; exact hmax⟩

theorem history_invariant_preserved_witness :
    (1 ≤ (sample sampleHistory 0 2).maxHistory
      ∧ ((sample sampleHistory 0 2).history.length : Int) ≤ (sample sampleHistory 0 2).maxHistory
      ∧ -1 ≤ (sample sampleHistory 0 2).historyIndex
      ∧ (sample sampleHistory 0 2).historyIndex
          ≤ ((sample sampleHistory 0 2).history.length : Int) - 1)
    ∧ ∃ app', Undo (sample sampleHistory 0 2) = some app'
        ∧ (app'.history.length : Int) ≤ app'.maxHistory ∧ -1 ≤ app'.historyIndex
        ∧ app'.historyIndex ≤ (app'.history.length : Int) - 1 ∧ 1 ≤ app'.maxHistory :=
  ⟨by decide,
    (history_invariant_preserved (sample sampleHistory 0 2) (by decide) (by decide) (by decide)
      (by decide)).2.1⟩

/-! ## Recording a snapshot -/

/-- C2: with a valid layer index `i`, a position `p` in `[-1, length - 1]` and
`p + 2 ≤ maxHistory`, `SaveLayerState app i tag` returns the state whose history
is the first `p + 1` old entries followed by one new entry with tag `tag`, layer
index `i` and, as snapshot, the converted current image of layer `i` (from
which the conversion loop of `Undo` rebuilds that image); every old entry after
`p` is gone, nothing else
changes, and the new position `p + 1` is the last index. -/
theorem SaveLayerState_appends (app : App) (i : Int) (tag : String)
    (hi0 : 0 ≤ i) (hi1 : i < app.layers.length)
    (hlo : -1 ≤ app.historyIndex)
    (hhi : app.historyIndex ≤ (app.history.length : Int) - 1)
    (hcap : app.historyIndex + 2 ≤ app.maxHistory) :
    ∃ layer app',
      app.layers[i.toNat]? = some layer
      ∧ SaveLayerState app i tag = some app'
      ∧ app' = { app with
          history := app.history.take (app.historyIndex + 1).toNat
            ++ [HistoryAction.mk tag i.toNat (goImgOf layer.texture)]
          historyIndex := app.historyIndex + 1 }
      ∧ rlImgOf (goImgOf layer.texture) = layer.texture
      ∧ (∀ x y, x < layer.texture.width → y < layer.texture.height →
          (goImgOf layer.texture).getColor x y
            = layer.texture.getColor x (layer.texture.height - 1 - y))
      ∧ app'.historyIndex = (app'.history.length : Int) - 1 := by
  obtain ⟨layer, hl, -⟩ := index?_eq_some app.layers i hi0 hi1
  have hc : ¬ (((app.history.take (app.historyIndex + 1).toNat
      ++ [HistoryAction.mk tag i.toNat (goImgOf layer.texture)] : List HistoryAction).length : Int)
        > app.maxHistory) := by
    simp only [List.length_append, List.length_take, List.length_singleton]
    omega
  refine ⟨layer, _, hl, ?_, rfl, rlImgOf_goImgOf _, fun x y hx hy => goImgOf_getColor _ x y hx hy, ?_⟩
  · rw [SaveLayerState_eq app i tag layer hi0 hl hlo hhi, if_neg hc]
  · simp only [List.length_append, List.length_take, List.length_singleton]
    omega

theorem SaveLayerState_appends_witness :
    (0 : Int) ≤ 1 ∧ (1 : Int) < (sample sampleHistory 0 2).layers.length
    ∧ ∃ layer app',
      (sample sampleHistory 0 2).layers[(1 : Int).toNat]? = some layer
      ∧ SaveLayerState (sample sampleHistory 0 2) 1 "draw" = some app'
      ∧ app' = { sample sampleHistory 0 2 with
          history := (sample sampleHistory 0 2).history.take
              ((sample sampleHistory 0 2).historyIndex + 1).toNat
            ++ [HistoryAction.mk "draw" (1 : Int).toNat (goImgOf layer.texture)]
          historyIndex := (sample sampleHistory 0 2).historyIndex + 1 }
      ∧ rlImgOf (goImgOf layer.texture) = layer.texture
      ∧ (∀ x y, x < layer.texture.width → y < layer.texture.height →
          (goImgOf layer.texture).getColor x y
            = layer.texture.getColor x (layer.texture.height - 1 - y))
      ∧ app'.historyIndex = (app'.history.length : Int) - 1 :=
  ⟨by decide, by decide,
    SaveLayerState_appends (sample sampleHistory 0 2) 1 "draw" (by decide) (by decide)
      (by decide) (by decide) (by decide)⟩

theorem saveAll_HistInv (calls : List (Int × String)) (start : App) (h : start.HistInv) :
    ∃ final, saveAll start calls = some final ∧ final.HistInv
      ∧ final.maxHistory = start.maxHistory := by
  induction calls generalizing start with
  | nil => exact ⟨start, rfl, h, rfl⟩
  | cons c cs ih =>
    obtain ⟨mid, e, hmid, hm, -⟩ := SaveLayerState_HistInv start h c.1 c.2
    obtain ⟨final, e2, hf, hm2⟩ := ih mid hmid
    refine ⟨final, ?_, hf, by rw [hm2, hm]⟩
    unfold saveAll at e2 ⊢
    rw [List.foldl_cons, Option.some_bind, e]
    exact e2

/-- C3: when the history holds exactly `maxHistory ≥ 1` entries and the position
is the last index, `SaveLayerState` with a valid layer index returns the state
whose history is the old one without its first entry followed by the new entry;
its length is still `maxHistory` and the position `maxHistory - 1` is its last
index.  Consequently no sequence of `SaveLayerState` calls, of whatever length,
started in a state satisfying the history invariant stores more than
`maxHistory` entries. -/
theorem SaveLayerState_evicts_oldest (app : App) (i : Int) (tag : String)
    (hi0 : 0 ≤ i) (hi1 : i < app.layers.length)
    (hmax : 1 ≤ app.maxHistory)
    (hfull : (app.history.length : Int) = app.maxHistory)
    (hpos : app.historyIndex = (app.history.length : Int) - 1) :
    (∃ layer app',
      app.layers[i.toNat]? = some layer
      ∧ SaveLayerState app i tag = some app'
      ∧ app' = { app with
          history := app.history.drop 1
            ++ [HistoryAction.mk tag i.toNat (goImgOf layer.texture)]
          historyIndex := app.maxHistory - 1 }
      ∧ (app'.history.length : Int) = app.maxHistory
      ∧ app'.history.getLast? = some (HistoryAction.mk tag i.toNat (goImgOf layer.texture))
      ∧ app'.historyIndex = (app'.history.length : Int) - 1)
    ∧ ∀ (start : App) (calls : List (Int × String)), start.HistInv →
        ∃ final, saveAll start calls = some final
          ∧ (final.history.length : Int) ≤ start.maxHistory
          ∧ final.maxHistory = start.maxHistory := by
  constructor
  · obtain ⟨layer, hl, -⟩ := index?_eq_some app.layers i hi0 hi1
    have hT : app.history.take (app.historyIndex + 1).toNat = app.history := by
      have : (app.historyIndex + 1).toNat = app.history.length := by omega
      rw [this, List.take_length]
    have hne : app.history ≠ [] := by
      intro h
      rw [h] at hfull
      simp at hfull
      omega
    have hc : ((app.history.take (app.historyIndex + 1).toNat
        ++ [HistoryAction.mk tag i.toNat (goImgOf layer.texture)] : List HistoryAction).length : Int)
          > app.maxHistory := by
      rw [hT]
      simp only [List.length_append, List.length_singleton]
      omega
    have hd : (app.history ++ [HistoryAction.mk tag i.toNat (goImgOf layer.texture)]).drop 1
        = app.history.drop 1 ++ [HistoryAction.mk tag i.toNat (goImgOf layer.texture)] := by
      cases hh : app.history with
      | nil => exact absurd hh hne
      | cons a t => simp
    have hidx : app.historyIndex + 1 - 1 = app.maxHistory - 1 := by omega
    refine ⟨layer, _, hl, ?_, rfl, ?_, ?_, ?_⟩
    · rw [SaveLayerState_eq app i tag layer hi0 hl (by omega) (by omega), if_pos hc, hT, hd, hidx]
    · simp only [List.length_append, List.length_drop, List.length_singleton]
      omega
    · simp
    · simp only [List.length_append, List.length_drop, List.length_singleton]
      omega
  · intro start calls h
    obtain ⟨final, e, hf, hm⟩ := saveAll_HistInv calls start h
    exact ⟨final, e, by rw [← hm]; exact hf.1, hm⟩

theorem SaveLayerState_evicts_oldest_witness :
    ((0 : Int) ≤ 1 ∧ (1 : Int) < (sample sampleHistory 1 2).layers.length
      ∧ 1 ≤ (sample sampleHistory 1 2).maxHistory
      ∧ ((sample sampleHistory 1 2).history.length : Int) = (sample sampleHistory 1 2).maxHistory
      ∧ (sample sampleHistory 1 2).historyIndex
          = ((sample sampleHistory 1 2).history.length : Int) - 1)
    ∧ (sample [] (-1) 2).HistInv
    ∧ (∃ layer app',
        (sample sampleHistory 1 2).layers[(1 : Int).toNat]? = some layer
        ∧ SaveLayerState (sample sampleHistory 1 2) 1 "draw" = some app'
        ∧ app' = { sample sampleHistory 1 2 with
            history := (sample sampleHistory 1 2).history.drop 1
              ++ [HistoryAction.mk "draw" (1 : Int).toNat (goImgOf layer.texture)]
            historyIndex := (sample sampleHistory 1 2).maxHistory - 1 }
        ∧ (app'.history.length : Int) = (sample sampleHistory 1 2).maxHistory
        ∧ app'.history.getLast?
            = some (HistoryAction.mk "draw" (1 : Int).toNat (goImgOf layer.texture))
        ∧ app'.historyIndex = (app'.history.length : Int) - 1)
    ∧ ∃ final, saveAll (sample [] (-1) 2) [(1, "a"), (1, "b"), (1, "c")] = some final
        ∧ (final.history.length : Int) ≤ (sample [] (-1) 2).maxHistory
        ∧ final.maxHistory = (sample [] (-1) 2).maxHistory :=
  ⟨by decide, by decide,
    (SaveLayerState_evicts_oldest (sample sampleHistory 1 2) 1 "draw" (by decide) (by decide)
      (by decide) (by decide) (by decide)).1,
    (SaveLayerState_evicts_oldest (sample sampleHistory 1 2) 1 "draw" (by decide) (by decide)
      (by decide) (by decide) (by decide)).2 (sample [] (-1) 2) [(1, "a"), (1, "b"), (1, "c")]
      (by decide)⟩

/-! ## Undo -/

theorem restoreAction_of_getElem? (layers : List Layer) (action : HistoryAction) (layer : Layer)
    (h : layers[action.layerIndex]? = some layer) :
    restoreAction layers action
      = layers.set action.layerIndex
          { layer with texture := restoreTexture layer.texture action.layerData } := by
  have hlt : action.layerIndex < layers.length := by
    rcases Nat.lt_or_ge action.layerIndex layers.length with h' | h'
    · exact h'
    · rw [List.getElem?_eq_none h'] at h; cases h
  rw [List.getElem?_eq_getElem hlt, Option.some.injEq] at h
  subst h
  unfold restoreAction
  rw [dif_pos hlt]

theorem restoreAction_of_ge (layers : List Layer) (action : HistoryAction)
    (h : layers.length ≤ action.layerIndex) : restoreAction layers action = layers := by
  unfold restoreAction
  rw [dif_neg (by omega)]

/-- C4: evaluation of `Undo` on a layer one pixel wide and two rows high.  The
entry holds the snapshot `strip black white`, the snapshot of a layer texture
`strip white black`.  `Undo` decrements the position and leaves every other
layer and the history as they were, but the layer does not hold the stored
snapshot afterwards: the upload keeps the row order of a read-back and
`rl.DrawTexture` draws its rows from the top down, so the texture is
`strip black white` and a snapshot of it is `strip white black`, the stored
one upside down.  The blend also changes pixels that are not opaque:
`(200, 0, 0, 100)` comes back as `(78, 0, 0, 39)` and `(255, 255, 255, 0)` as
`(0, 0, 0, 0)`. -/
theorem Undo_restores_flipped_and_blended :
    goImgOf (strip ⟨255, 255, 255, 255⟩ ⟨0, 0, 0, 255⟩)
        = strip ⟨0, 0, 0, 255⟩ ⟨255, 255, 255, 255⟩
    ∧ (Undo (inkState (strip ⟨9, 9, 9, 255⟩ ⟨9, 9, 9, 255⟩)
          [⟨"draw", 0, strip ⟨0, 0, 0, 255⟩ ⟨255, 255, 255, 255⟩⟩] 0)).bind
          (fun a => a.pixels? 0)
        = some (strip ⟨0, 0, 0, 255⟩ ⟨255, 255, 255, 255⟩)
    ∧ ((Undo (inkState (strip ⟨9, 9, 9, 255⟩ ⟨9, 9, 9, 255⟩)
          [⟨"draw", 0, strip ⟨0, 0, 0, 255⟩ ⟨255, 255, 255, 255⟩⟩] 0)).bind
          (fun a => a.pixels? 0)).map goImgOf
        = some (strip ⟨255, 255, 255, 255⟩ ⟨0, 0, 0, 255⟩)
    ∧ strip ⟨255, 255, 255, 255⟩ ⟨0, 0, 0, 255⟩ ≠ strip ⟨0, 0, 0, 255⟩ ⟨255, 255, 255, 255⟩
    ∧ (Undo (inkState (strip ⟨9, 9, 9, 255⟩ ⟨9, 9, 9, 255⟩)
          [⟨"draw", 0, strip ⟨0, 0, 0, 255⟩ ⟨255, 255, 255, 255⟩⟩] 0)).map
          (fun a => (a.historyIndex, a.history))
        = some (-1, [⟨"draw", 0, strip ⟨0, 0, 0, 255⟩ ⟨255, 255, 255, 255⟩⟩])
    ∧ (Undo (inkState (pixel ⟨9, 9, 9, 255⟩) [⟨"draw", 0, pixel ⟨200, 0, 0, 100⟩⟩] 0)).bind
          (fun a => a.pixels? 0)
        = some (pixel ⟨78, 0, 0, 39⟩)
    ∧ (Undo (inkState (pixel ⟨9, 9, 9, 255⟩) [⟨"draw", 0, pixel ⟨255, 255, 255, 0⟩⟩] 0)).bind
          (fun a => a.pixels? 0)
        = some (pixel ⟨0, 0, 0, 0⟩) := by
  decide

/-! ## The undo inverse law -/

/-- C6: evaluation of draw operations followed by as many `Undo` calls.  The
layer holds `strip white black`; after one draw operation and one `Undo`, and
after two draw operations and two `Undo` calls, it holds `strip black white`:
the content it had before the operations, upside down.  A one-pixel layer
holding `(200, 0, 0, 100)` holds `(78, 0, 0, 39)` after a draw operation and
`Undo`, and one holding `(255, 255, 255, 0)` holds `(0, 0, 0, 0)`.  An opaque
one-pixel layer comes back as it was. -/
theorem undo_after_draw_flips_layer :
    ((drawOps 0 (inkState (strip ⟨255, 255, 255, 255⟩ ⟨0, 0, 0, 255⟩) [] (-1))
          [strip ⟨9, 9, 9, 255⟩ ⟨9, 9, 9, 255⟩]).bind (undoN 1)).bind (fun a => a.pixels? 0)
        = some (strip ⟨0, 0, 0, 255⟩ ⟨255, 255, 255, 255⟩)
    ∧ ((drawOps 0 (inkState (strip ⟨255, 255, 255, 255⟩ ⟨0, 0, 0, 255⟩) [] (-1))
          [strip ⟨9, 9, 9, 255⟩ ⟨9, 9, 9, 255⟩, strip ⟨7, 7, 7, 255⟩ ⟨8, 8, 8, 255⟩]).bind
          (undoN 2)).bind (fun a => a.pixels? 0)
        = some (strip ⟨0, 0, 0, 255⟩ ⟨255, 255, 255, 255⟩)
    ∧ strip ⟨0, 0, 0, 255⟩ ⟨255, 255, 255, 255⟩ ≠ strip ⟨255, 255, 255, 255⟩ ⟨0, 0, 0, 255⟩
    ∧ ((drawOps 0 (inkState (pixel ⟨200, 0, 0, 100⟩) [] (-1)) [pixel ⟨9, 9, 9, 255⟩]).bind
          (undoN 1)).bind (fun a => a.pixels? 0)
        = some (pixel ⟨78, 0, 0, 39⟩)
    ∧ ((drawOps 0 (inkState (pixel ⟨255, 255, 255, 0⟩) [] (-1)) [pixel ⟨9, 9, 9, 255⟩]).bind
          (undoN 1)).bind (fun a => a.pixels? 0)
        = some (pixel ⟨0, 0, 0, 0⟩)
    ∧ ((drawOps 0 (inkState (pixel ⟨10, 10, 10, 255⟩) [] (-1)) [pixel ⟨9, 9, 9, 255⟩]).bind
          (undoN 1)).bind (fun a => a.pixels? 0)
        = some (pixel ⟨10, 10, 10, 255⟩) := by
  decide

/-! ## Redo -/

/-- C5, counterexample: evaluation of `Redo` where the claim and the code part.  With two entries
and the position on the first, the position is not the last index, yet `Redo`
returns the state unchanged; with three entries and position `-1`, `Redo` moves
the position to `1`, two steps ahead, and restores the snapshot of entry `1`. -/
theorem Redo_skips_an_entry :
    (sample sampleHistory 0 2).historyIndex < ((sample sampleHistory 0 2).history.length : Int) - 1
    ∧ Redo (sample sampleHistory 0 2) = some (sample sampleHistory 0 2)
    ∧ (Redo (sample sampleHistory3 (-1) 3)).map App.historyIndex = some 1
    ∧ (Redo (sample sampleHistory3 (-1) 3)).bind (fun a => a.pixels? 1) = some (dot 2) := by
  decide

/-- C5, amended: in a state with `historyIndex >= -1`, `Redo` changes nothing
when the position is the last index, when the history is empty, and when the
position is the index before the last (`historyIndex >= len(history) - 2`).
In every other state (`historyIndex < len(history) - 2`) it advances
`historyIndex` by exactly two and draws the snapshot of the entry at the new
position into that entry's target layer, cleared first; when the recorded
index addresses no layer, no layer changes. -/
theorem Redo_advances_by_two (app : App) (h0 : -1 ≤ app.historyIndex) :
    (app.historyIndex = (app.history.length : Int) - 1 → Redo app = some app)
    ∧ (app.history = [] → Redo app = some app)
    ∧ (app.historyIndex = (app.history.length : Int) - 2 → Redo app = some app)
    ∧ (app.historyIndex < (app.history.length : Int) - 2 →
        ∃ action, app.history[(app.historyIndex + 2).toNat]? = some action
          ∧ Redo app = some { app with
              layers := restoreAction app.layers action
              historyIndex := app.historyIndex + 2 }
          ∧ (∀ layer, app.layers[action.layerIndex]? = some layer →
              restoreAction app.layers action
                = app.layers.set action.layerIndex
                    { layer with texture := restoreTexture layer.texture action.layerData })
          ∧ (app.layers.length ≤ action.layerIndex →
              restoreAction app.layers action = app.layers)) := by
  refine ⟨fun h => Redo_noop app (by omega), fun h => Redo_noop app ?_,
    fun h => Redo_noop app (by omega), fun h1 => ?_⟩
  · rw [h]
    simp only [List.length_nil, Nat.cast_zero]
    omega
  · obtain ⟨action, ha, -⟩ :=
      index?_eq_some app.history (app.historyIndex + 2) (by omega) (by omega)
    exact ⟨action, ha, Redo_eq app action (by omega) h1 ha,
      fun layer hl => restoreAction_of_getElem? _ _ _ hl,
      fun hge => restoreAction_of_ge _ _ hge⟩

theorem Redo_advances_by_two_witness :
    -1 ≤ (sample sampleHistory3 (-1) 3).historyIndex
    ∧ (sample sampleHistory3 (-1) 3).historyIndex
        < ((sample sampleHistory3 (-1) 3).history.length : Int) - 2
    ∧ ∃ action,
        (sample sampleHistory3 (-1) 3).history[
          ((sample sampleHistory3 (-1) 3).historyIndex + 2).toNat]? = some action
        ∧ Redo (sample sampleHistory3 (-1) 3)
          = some { sample sampleHistory3 (-1) 3 with
              layers := restoreAction (sample sampleHistory3 (-1) 3).layers action
              historyIndex := (sample sampleHistory3 (-1) 3).historyIndex + 2 } :=
  ⟨by decide, by decide,
    by
      obtain ⟨action, ha, h, -⟩ :=
        (Redo_advances_by_two (sample sampleHistory3 (-1) 3) (by decide)).2.2.2 (by decide)
      exact ⟨action, ha, h⟩⟩

/-- C7: evaluation of one draw operation followed by `Undo` and `Redo`.  Layer 1
holds `dot 10`; the draw operation records the snapshot and leaves `dot 20` in
the layer; `Undo` brings back `dot 10`; `Redo` then returns the state unchanged,
so the layer still holds `dot 10` and not the post-draw content `dot 20`. -/
theorem Redo_after_Undo_keeps_old_pixels :
    ((drawOp 1 (some (sample [] (-1) 2)) (dot 20)).bind fun a => a.pixels? 1) = some (dot 20)
    ∧ (((drawOp 1 (some (sample [] (-1) 2)) (dot 20)).bind Undo).bind fun a => a.pixels? 1)
        = some (dot 10)
    ∧ ((((drawOp 1 (some (sample [] (-1) 2)) (dot 20)).bind Undo).bind Redo).bind
        fun a => a.pixels? 1) = some (dot 10)
    ∧ (((drawOp 1 (some (sample [] (-1) 2)) (dot 20)).bind Undo).bind Redo)
        = ((drawOp 1 (some (sample [] (-1) 2)) (dot 20)).bind Undo)
    ∧ dot 10 ≠ dot 20 := by
  decide

/-! ## Truncation of the redo branch -/

theorem undoN_HistInv (k : Nat) (app : App) (h : app.HistInv) :
    ∃ app', undoN k app = some app' ∧ app'.HistInv ∧ app'.maxHistory = app.maxHistory
      ∧ app'.layers.length = app.layers.length := by
  induction k generalizing app with
  | zero => exact ⟨app, rfl, h, rfl, rfl⟩
  | succ k ih =>
    obtain ⟨mid, e, hmid, hm, hl⟩ := Undo_HistInv app h
    obtain ⟨final, e2, hf, hm2, hl2⟩ := ih mid hmid
    refine ⟨final, ?_, hf, by rw [hm2, hm], by rw [hl2, hl]⟩
    simp only [undoN, e, Option.some_bind, e2]

/-- After a snapshot has been recorded the position is the last index. -/
theorem SaveLayerState_position_last (app : App) (i : Int) (tag : String) (layer : Layer)
    (h0 : 0 ≤ i) (hl : app.layers[i.toNat]? = some layer)
    (hp0 : -1 ≤ app.historyIndex) (hp1 : app.historyIndex ≤ (app.history.length : Int) - 1) :
    ∃ app', SaveLayerState app i tag = some app'
      ∧ app'.historyIndex = (app'.history.length : Int) - 1
      ∧ app'.layers = app.layers := by
  rw [SaveLayerState_eq app i tag layer h0 hl hp0 hp1]
  refine ⟨_, rfl, ?_, ?_⟩
  · split
    · simp only [List.length_append, List.length_take, List.length_singleton, List.length_drop]
      omega
    · simp only [List.length_append, List.length_take, List.length_singleton]
      omega
  · split <;> rfl

/-- C8: in every state satisfying the history invariant, for every number `k`
of `Undo` calls followed by one `SaveLayerState` with a valid layer index, all
these calls return a state and a `Redo` call in the resulting state returns that
very state: no layer, no history entry and not the position changes. -/
theorem Redo_noop_after_new_action (app : App) (k : Nat) (i : Int) (tag : String)
    (h : app.HistInv) (hi0 : 0 ≤ i) (hi1 : i < app.layers.length) :
    ∃ undone saved, undoN k app = some undone
      ∧ SaveLayerState undone i tag = some saved
      ∧ Redo saved = some saved := by
  obtain ⟨undone, e1, hinv, -, hlen⟩ := undoN_HistInv k app h
  obtain ⟨layer, hl, -⟩ := index?_eq_some undone.layers i hi0 (by rw [hlen]; exact hi1)
  obtain ⟨saved, e2, hpos, -⟩ :=
    SaveLayerState_position_last undone i tag layer hi0 hl hinv.2.1 hinv.2.2
  exact ⟨undone, saved, e1, e2, Redo_noop saved (by omega)⟩

theorem Redo_noop_after_new_action_witness :
    ((sample sampleHistory3 2 3).HistInv ∧ (0 : Int) ≤ 1
      ∧ (1 : Int) < (sample sampleHistory3 2 3).layers.length)
    ∧ ∃ undone saved, undoN 2 (sample sampleHistory3 2 3) = some undone
      ∧ SaveLayerState undone 1 "draw" = some saved
      ∧ Redo saved = some saved :=
  ⟨by decide,
    Redo_noop_after_new_action (sample sampleHistory3 2 3) 2 1 "draw" (by decide) (by decide)
      (by decide)⟩

/-! ## The lock flag and the history engine -/

/-- C9, as stated, fails: layer 1 is locked and holds `dot 10`; `Undo` on the
entry that records `dot 1` for layer 1 leaves `dot 1` in it.  Likewise `Redo`,
started at position `-1` with three entries, leaves `dot 2` in the locked layer. -/
theorem Undo_ignores_lock_counterexample :
    ((lockedSample [⟨"draw", 1, dot 1⟩] 0).layers[1]?.map Layer.locked = some true
      ∧ (lockedSample [⟨"draw", 1, dot 1⟩] 0).pixels? 1 = some (dot 10)
      ∧ (Undo (lockedSample [⟨"draw", 1, dot 1⟩] 0)).bind (fun a => a.pixels? 1) = some (dot 1)
      ∧ dot 1 ≠ dot 10)
    ∧ ((lockedSample sampleHistory3 (-1)).layers[1]?.map Layer.locked = some true
      ∧ (lockedSample sampleHistory3 (-1)).pixels? 1 = some (dot 10)
      ∧ (Redo (lockedSample sampleHistory3 (-1))).bind (fun a => a.pixels? 1) = some (dot 2)
      ∧ dot 2 ≠ dot 10) := by
  decide

/-- C9, amended: `Undo` and `Redo` do not look at the lock flag.  When the layer
targeted by the current entry is locked, `Undo` still clears it and draws the
stored snapshot into it; when `historyIndex < len(history) - 2` and the layer
targeted by the entry two positions ahead is locked, `Redo` does the same with
that entry.  In both cases the layer stays locked. -/
theorem locked_layer_restored (app : App) :
    (∀ (action : HistoryAction) (layer : Layer),
        0 ≤ app.historyIndex →
        app.history[app.historyIndex.toNat]? = some action →
        app.layers[action.layerIndex]? = some layer →
        layer.locked = true →
        ∃ app', Undo app = some app'
          ∧ app'.layers[action.layerIndex]?
              = some { layer with texture := restoreTexture layer.texture action.layerData }
          ∧ app'.pixels? action.layerIndex
              = some (restoreTexture layer.texture action.layerData)
          ∧ app'.layers[action.layerIndex]?.map Layer.locked = some true)
    ∧ ∀ (action : HistoryAction) (layer : Layer),
        -1 ≤ app.historyIndex →
        app.historyIndex < (app.history.length : Int) - 2 →
        app.history[(app.historyIndex + 2).toNat]? = some action →
        app.layers[action.layerIndex]? = some layer →
        layer.locked = true →
        ∃ app', Redo app = some app'
          ∧ app'.layers[action.layerIndex]?
              = some { layer with texture := restoreTexture layer.texture action.layerData }
          ∧ app'.pixels? action.layerIndex
              = some (restoreTexture layer.texture action.layerData)
          ∧ app'.layers[action.layerIndex]?.map Layer.locked = some true := by
  constructor
  · intro action layer h0 ha hl hlock
    have hlt : action.layerIndex < app.layers.length := by
      rcases Nat.lt_or_ge action.layerIndex app.layers.length with h' | h'
      · exact h'
      · rw [List.getElem?_eq_none h'] at hl; cases hl
    rw [Undo_eq app action h0 ha, restoreAction_of_getElem? _ _ _ hl]
    refine ⟨_, rfl, ?_, ?_, ?_⟩ <;> simp [App.pixels?, List.getElem?_set, hlt, hlock]
  · intro action layer h0 h1 ha hl hlock
    have hlt : action.layerIndex < app.layers.length := by
      rcases Nat.lt_or_ge action.layerIndex app.layers.length with h' | h'
      · exact h'
      · rw [List.getElem?_eq_none h'] at hl; cases hl
    rw [Redo_eq app action (by omega) h1 ha, restoreAction_of_getElem? _ _ _ hl]
    refine ⟨_, rfl, ?_, ?_, ?_⟩ <;> simp [App.pixels?, List.getElem?_set, hlt, hlock]

theorem locked_layer_restored_witness :
    (0 ≤ (lockedSample [⟨"draw", 1, dot 1⟩] 0).historyIndex
      ∧ (lockedSample [⟨"draw", 1, dot 1⟩] 0).history[
          (lockedSample [⟨"draw", 1, dot 1⟩] 0).historyIndex.toNat]? = some ⟨"draw", 1, dot 1⟩
      ∧ (lockedSample [⟨"draw", 1, dot 1⟩] 0).layers[1]? = some (dotLayer "LAYER 1" 10 true)
      ∧ (dotLayer "LAYER 1" 10 true).locked = true)
    ∧ (-1 ≤ (lockedSample sampleHistory3 (-1)).historyIndex
      ∧ (lockedSample sampleHistory3 (-1)).historyIndex
          < ((lockedSample sampleHistory3 (-1)).history.length : Int) - 2
      ∧ (lockedSample sampleHistory3 (-1)).history[
          ((lockedSample sampleHistory3 (-1)).historyIndex + 2).toNat]? = some ⟨"draw", 1, dot 2⟩)
    ∧ (∃ app', Undo (lockedSample [⟨"draw", 1, dot 1⟩] 0) = some app'
        ∧ app'.pixels? 1 = some (restoreTexture (dot 10) (dot 1))
        ∧ app'.layers[1]?.map Layer.locked = some true)
    ∧ ∃ app', Redo (lockedSample sampleHistory3 (-1)) = some app'
        ∧ app'.pixels? 1 = some (restoreTexture (dot 10) (dot 2))
        ∧ app'.layers[1]?.map Layer.locked = some true :=
  ⟨by decide, by decide,
    by
      obtain ⟨app', h1, -, h3, h4⟩ :=
        (locked_layer_restored (lockedSample [⟨"draw", 1, dot 1⟩] 0)).1 ⟨"draw", 1, dot 1⟩
          (dotLayer "LAYER 1" 10 true) (by decide) (by decide) (by decide) (by decide)
      exact ⟨app', h1, h3, h4⟩,
    by
      obtain ⟨app', h1, -, h3, h4⟩ :=
        (locked_layer_restored (lockedSample sampleHistory3 (-1))).2 ⟨"draw", 1, dot 2⟩
          (dotLayer "LAYER 1" 10 true) (by decide) (by decide) (by decide) (by decide) (by decide)
      exact ⟨app', h1, h3, h4⟩⟩

/-! ## The layer-stack invariant -/

theorem AddLayer_LayerInv (app : App) : (AddLayer app).LayerInv := by
  unfold App.LayerInv AddLayer
  simp only [List.length_append, List.length_singleton]
  omega

theorem DuplicateActiveLayer_LayerInv (app : App) (h : app.LayerInv) :
    ∃ app', DuplicateActiveLayer app = some app' ∧ app'.LayerInv
      ∧ app'.layers.length = app.layers.length + 1 := by
  obtain ⟨h1, h2, h3⟩ := h
  obtain ⟨src, -, hsrc⟩ := index?_eq_some app.layers app.activeLayer h2 h3
  unfold DuplicateActiveLayer
  simp only [Option.bind_eq_bind, hsrc, Option.some_bind,
    sliceTo?_eq_some app.layers (app.activeLayer + 1) (by omega) (by omega),
    sliceFrom?_eq_some app.layers (app.activeLayer + 1) (by omega) (by omega)]
  refine ⟨_, rfl, ?_, ?_⟩
  · unfold App.LayerInv
    simp only [List.length_append, List.length_take, List.length_drop, List.length_singleton]
    omega
  · simp only [List.length_append, List.length_take, List.length_drop, List.length_singleton]
    omega

theorem DeleteActiveLayer_LayerInv (app : App) (h : app.LayerInv) :
    ∃ app', DeleteActiveLayer app = some app' ∧ app'.LayerInv := by
  obtain ⟨h1, h2, h3⟩ := h
  by_cases hg : (app.layers.length : Int) > 1 ∧ app.activeLayer > 0
  · obtain ⟨l, -, hl⟩ := index?_eq_some app.layers app.activeLayer h2 h3
    unfold DeleteActiveLayer
    rw [if_pos hg]
    simp only [Option.bind_eq_bind, hl, Option.some_bind,
      sliceTo?_eq_some app.layers app.activeLayer (by omega) (by omega),
      sliceFrom?_eq_some app.layers (app.activeLayer + 1) (by omega) (by omega)]
    split
    · rename_i hc
      refine ⟨_, rfl, ?_⟩
      unfold App.LayerInv
      simp only [List.length_append, List.length_take, List.length_drop] at hc ⊢
      omega
    · rename_i hc
      refine ⟨_, rfl, ?_⟩
      unfold App.LayerInv
      simp only [List.length_append, List.length_take, List.length_drop] at hc ⊢
      omega
  · unfold DeleteActiveLayer
    rw [if_neg hg]
    exact ⟨app, rfl, h1, h2, h3⟩

theorem ToggleLockActiveLayer_LayerInv (app : App) (h : app.LayerInv) :
    ∃ app', ToggleLockActiveLayer app = some app' ∧ app'.LayerInv := by
  obtain ⟨h1, h2, h3⟩ := h
  obtain ⟨l, -, hl⟩ := index?_eq_some app.layers app.activeLayer h2 h3
  unfold ToggleLockActiveLayer
  simp only [Option.bind_eq_bind, hl, Option.some_bind]
  refine ⟨_, rfl, ?_⟩
  unfold App.LayerInv
  simp only [List.length_set]
  omega

theorem ReorderLayers_LayerInv (app : App) (fromIndex toIndex : Int) (h : app.LayerInv) :
    ∃ app', ReorderLayers app fromIndex toIndex = some app' ∧ app'.LayerInv
      ∧ app'.layers.length = app.layers.length := by
  obtain ⟨h1, h2, h3⟩ := h
  by_cases hg : fromIndex < 0 ∨ fromIndex ≥ (app.layers.length : Int) ∨ toIndex < 0
      ∨ toIndex ≥ (app.layers.length : Int) ∨ fromIndex = toIndex
  · unfold ReorderLayers
    rw [if_pos hg]
    exact ⟨app, rfl, ⟨h1, h2, h3⟩, rfl⟩
  · obtain ⟨l, -, hl⟩ := index?_eq_some app.layers fromIndex (by omega) (by omega)
    have hlen : (app.layers.take fromIndex.toNat
        ++ app.layers.drop (fromIndex + 1).toNat).length = app.layers.length - 1 := by
      simp only [List.length_append, List.length_take, List.length_drop]
      omega
    unfold ReorderLayers
    rw [if_neg hg]
    simp only [Option.bind_eq_bind, hl, Option.some_bind,
      sliceTo?_eq_some app.layers fromIndex (by omega) (by omega),
      sliceFrom?_eq_some app.layers (fromIndex + 1) (by omega) (by omega)]
    rw [sliceTo?_eq_some _ _ (by split <;> omega) (by rw [hlen]; split <;> omega),
      sliceFrom?_eq_some _ _ (by split <;> omega) (by rw [hlen]; split <;> omega)]
    simp only [Option.some_bind]
    refine ⟨_, rfl, ?_, ?_⟩
    · unfold App.LayerInv
      simp only [List.length_append, List.length_take, List.length_drop, List.length_singleton,
        hlen]
      split <;> split <;> (try split) <;> (try split) <;> omega
    · simp only [List.length_append, List.length_take, List.length_drop, List.length_singleton,
        hlen]
      split <;> omega

/-- C10: in every state with at least one layer and a valid active index, each
of `AddLayer`, `DuplicateActiveLayer`, `DeleteActiveLayer`,
`ToggleLockActiveLayer` and `ReorderLayers` (for arbitrary integers `fromIndex`
and `toIndex`) returns a state, without an index or slice bound out of range, and
that state again has at least one layer and a valid active index. -/
theorem layer_invariant_preserved (app : App) (hlen : 1 ≤ app.layers.length)
    (h0 : 0 ≤ app.activeLayer) (h1 : app.activeLayer < app.layers.length) :
    (1 ≤ (AddLayer app).layers.length ∧ 0 ≤ (AddLayer app).activeLayer
      ∧ (AddLayer app).activeLayer < (AddLayer app).layers.length)
    ∧ (∃ app', DuplicateActiveLayer app = some app' ∧ 1 ≤ app'.layers.length
        ∧ 0 ≤ app'.activeLayer ∧ app'.activeLayer < app'.layers.length)
    ∧ (∃ app', DeleteActiveLayer app = some app' ∧ 1 ≤ app'.layers.length
        ∧ 0 ≤ app'.activeLayer ∧ app'.activeLayer < app'.layers.length)
    ∧ (∃ app', ToggleLockActiveLayer app = some app' ∧ 1 ≤ app'.layers.length
        ∧ 0 ≤ app'.activeLayer ∧ app'.activeLayer < app'.layers.length)
    ∧ ∀ fromIndex toIndex : Int,
        ∃ app', ReorderLayers app fromIndex toIndex = some app' ∧ 1 ≤ app'.layers.length
          ∧ 0 ≤ app'.activeLayer ∧ app'.activeLayer < app'.layers.length := by
  have h : app.LayerInv := ⟨hlen, h0, h1⟩
  refine ⟨AddLayer_LayerInv app, ?_, ?_, ?_, fun fromIndex toIndex => ?_⟩
  · obtain ⟨app', e, hi, -⟩ := DuplicateActiveLayer_LayerInv app h
    exact ⟨app', e, hi⟩
  · exact DeleteActiveLayer_LayerInv app h
  · exact ToggleLockActiveLayer_LayerInv app h
  · obtain ⟨app', e, hi, -⟩ := ReorderLayers_LayerInv app fromIndex toIndex h
    exact ⟨app', e, hi⟩

theorem layer_invariant_preserved_witness :
    (1 ≤ (sample [] (-1) 2).layers.length ∧ 0 ≤ (sample [] (-1) 2).activeLayer
      ∧ (sample [] (-1) 2).activeLayer < (sample [] (-1) 2).layers.length)
    ∧ ∃ app', ReorderLayers (sample [] (-1) 2) 1 0 = some app' ∧ 1 ≤ app'.layers.length
        ∧ 0 ≤ app'.activeLayer ∧ app'.activeLayer < app'.layers.length :=
  ⟨by decide,
    (layer_invariant_preserved (sample [] (-1) 2) (by decide) (by decide) (by decide)).2.2.2.2
      1 0⟩

/-! ## Layer stack operations in closed form -/

/-- C11: `DeleteActiveLayer` returns the state unchanged when there is one layer
or the active index is 0.  With at least two layers and a valid active index
`k > 0` it returns the state whose layer list is the old one with exactly the
element at index `k` removed (the others in their old order), one layer fewer,
and whose active index is `min k (newLength - 1)`; nothing else changes. -/
theorem DeleteActiveLayer_removes_active (app : App) :
    ((app.layers.length = 1 ∨ app.activeLayer = 0) → DeleteActiveLayer app = some app)
    ∧ ∀ k : Nat, 2 ≤ app.layers.length → app.activeLayer = (k : Int) → 0 < k →
        k < app.layers.length →
        ∃ app', DeleteActiveLayer app = some app'
          ∧ app' = { app with
              layers := app.layers.eraseIdx k
              activeLayer := min (k : Int) (((app.layers.eraseIdx k).length : Int) - 1) }
          ∧ app'.layers.length + 1 = app.layers.length
          ∧ (∀ j, j < k → app'.layers[j]? = app.layers[j]?)
          ∧ (∀ j, k ≤ j → app'.layers[j]? = app.layers[j + 1]?) := by
  constructor
  · intro h
    have hg : ¬ ((app.layers.length : Int) > 1 ∧ app.activeLayer > 0) := by omega
    unfold DeleteActiveLayer
    rw [if_neg hg]
  · intro k hlen hk hk0 hk1
    have hg : (app.layers.length : Int) > 1 ∧ app.activeLayer > 0 := by omega
    obtain ⟨l, -, hl⟩ := index?_eq_some app.layers app.activeLayer (by omega) (by omega)
    have e1 : app.activeLayer.toNat = k := by omega
    have e2 : (app.activeLayer + 1).toNat = k + 1 := by omega
    have hlenE : (app.layers.eraseIdx k).length = app.layers.length - 1 := by
      rw [List.length_eraseIdx, if_pos hk1]
    have hE : app.layers.take k ++ app.layers.drop (k + 1) = app.layers.eraseIdx k :=
      (List.eraseIdx_eq_take_drop_succ app.layers k).symm
    refine ⟨_, ?_, rfl, ?_, ?_, ?_⟩
    · unfold DeleteActiveLayer
      rw [if_pos hg]
      simp only [Option.bind_eq_bind, hl, Option.some_bind,
        sliceTo?_eq_some app.layers app.activeLayer (by omega) (by omega),
        sliceFrom?_eq_some app.layers (app.activeLayer + 1) (by omega) (by omega), e1, e2, hE]
      split
      · rename_i hc
        rw [hlenE] at hc
        have : min (k : Int) (((app.layers.eraseIdx k).length : Int) - 1)
            = ((app.layers.eraseIdx k).length : Int) - 1 := by
          rw [hlenE]; omega
        rw [this]
      · rename_i hc
        rw [hlenE] at hc
        have : min (k : Int) (((app.layers.eraseIdx k).length : Int) - 1) = app.activeLayer := by
          rw [hlenE]; omega
        rw [this]
    · simp only [hlenE]; omega
    · intro j hj
      exact List.getElem?_eraseIdx_of_lt _ _ _ hj
    · intro j hj
      exact List.getElem?_eraseIdx_of_ge _ _ _ hj

theorem DeleteActiveLayer_removes_active_witness :
    (((sample [] (-1) 2).layers.length = 1 ∨ ({ sample [] (-1) 2 with activeLayer := 0 } : App).activeLayer = 0)
      ∧ DeleteActiveLayer { sample [] (-1) 2 with activeLayer := 0 }
          = some { sample [] (-1) 2 with activeLayer := 0 })
    ∧ (2 ≤ (sample [] (-1) 2).layers.length ∧ (sample [] (-1) 2).activeLayer = ((1 : Nat) : Int)
      ∧ 0 < 1 ∧ 1 < (sample [] (-1) 2).layers.length)
    ∧ ∃ app', DeleteActiveLayer (sample [] (-1) 2) = some app'
        ∧ app'.layers = (sample [] (-1) 2).layers.eraseIdx 1
        ∧ app'.layers.length + 1 = (sample [] (-1) 2).layers.length :=
  ⟨⟨by decide,
      (DeleteActiveLayer_removes_active { sample [] (-1) 2 with activeLayer := 0 }).1
        (by decide)⟩,
    by decide,
    by
      obtain ⟨app', h1, h2, h3, -, -⟩ :=
        (DeleteActiveLayer_removes_active (sample [] (-1) 2)).2 1 (by decide) (by decide)
          (by decide) (by decide)
      exact ⟨app', h1, by rw [h2], h3⟩⟩

/-- C14: `ReorderLayers app fromIndex toIndex` returns the state unchanged, layer
list and active index included, whenever `fromIndex < 0`,
`fromIndex ≥ len(layers)`, `toIndex < 0`, `toIndex ≥ len(layers)` or
`fromIndex = toIndex`. -/
theorem ReorderLayers_rejects (app : App) (fromIndex toIndex : Int)
    (h : fromIndex < 0 ∨ fromIndex ≥ (app.layers.length : Int) ∨ toIndex < 0
      ∨ toIndex ≥ (app.layers.length : Int) ∨ fromIndex = toIndex) :
    ReorderLayers app fromIndex toIndex = some app
    ∧ ∀ app', ReorderLayers app fromIndex toIndex = some app' →
        app'.layers = app.layers ∧ app'.activeLayer = app.activeLayer := by
  have e : ReorderLayers app fromIndex toIndex = some app := by
    unfold ReorderLayers
    rw [if_pos h]
  refine ⟨e, fun app' h' => ?_⟩
  rw [e, Option.some.injEq] at h'
  subst h'
  exact ⟨rfl, rfl⟩

theorem ReorderLayers_rejects_witness :
    ((1 : Int) < 0 ∨ (1 : Int) ≥ ((sample [] (-1) 2).layers.length : Int) ∨ (2 : Int) < 0
      ∨ (2 : Int) ≥ ((sample [] (-1) 2).layers.length : Int) ∨ (1 : Int) = 2)
    ∧ ReorderLayers (sample [] (-1) 2) 1 2 = some (sample [] (-1) 2) :=
  ⟨by decide, (ReorderLayers_rejects (sample [] (-1) 2) 1 2 (by decide)).1⟩

/-- The closed form of `DuplicateActiveLayer`: with a valid active index `k` the
list grows by one; indices `0..k` hold the old layers `0..k`, index `k + 1`
holds a layer named after layer `k` with " COPY" appended, with its flags and
opacity and with the texture that results from drawing the texture of layer
`k` into a transparent texture of the canvas size, indices from `k + 2` on
hold the old layers from `k + 1` on, and the active index is `k + 1`. -/
theorem DuplicateActiveLayer_eq (app : App) (k : Nat) (src : Layer)
    (hk : app.activeLayer = (k : Int)) (hsrc : app.layers[k]? = some src) :
    ∃ app', DuplicateActiveLayer app = some app'
      ∧ app' = { app with
          layers := app.layers.take (k + 1)
            ++ ([{ name := src.name ++ " COPY",
                   texture := drawTextureRec
                     (Image.fill app.canvasWidth.toNat app.canvasHeight.toNat Color.blank)
                     src.texture,
                   visible := src.visible, locked := src.locked, opacity := src.opacity }]
              ++ app.layers.drop (k + 1))
          activeLayer := (k : Int) + 1 }
      ∧ app'.layers.length = app.layers.length + 1
      ∧ (∀ j, j ≤ k → app'.layers[j]? = app.layers[j]?)
      ∧ app'.layers[k + 1]?
          = some { name := src.name ++ " COPY",
                   texture := drawTextureRec
                     (Image.fill app.canvasWidth.toNat app.canvasHeight.toNat Color.blank)
                     src.texture,
                   visible := src.visible, locked := src.locked, opacity := src.opacity }
      ∧ (∀ j, k + 2 ≤ j → app'.layers[j]? = app.layers[j - 1]?)
      ∧ app'.activeLayer = (k : Int) + 1 := by
  have hlt : k < app.layers.length := by
    rcases Nat.lt_or_ge k app.layers.length with h' | h'
    · exact h'
    · rw [List.getElem?_eq_none h'] at hsrc; cases hsrc
  have hidx : index? app.layers (k : Int) = some src := by
    apply index?_of_getElem? _ _ _ (by omega)
    simpa using hsrc
  have e2 : ((k : Int) + 1).toNat = k + 1 := by omega
  have htl : (app.layers.take (k + 1)).length = k + 1 := by
    rw [List.length_take]; omega
  refine ⟨_, ?_, rfl, ?_, ?_, ?_, ?_, rfl⟩
  · unfold DuplicateActiveLayer
    rw [hk]
    simp only [Option.bind_eq_bind, hidx, Option.some_bind,
      sliceTo?_eq_some app.layers ((k : Int) + 1) (by omega) (by omega),
      sliceFrom?_eq_some app.layers ((k : Int) + 1) (by omega) (by omega), e2, NewLayer]
  · simp only [List.length_append, List.length_take, List.length_drop, List.length_singleton]
    omega
  · intro j hj
    simp only
    rw [List.getElem?_append_left (by rw [htl]; omega), List.getElem?_take_of_lt (by omega)]
  · simp only
    rw [List.getElem?_append_right (by rw [htl]), htl]
    simp
  · intro j hj
    simp only
    rw [List.getElem?_append_right (by rw [htl]; omega), htl,
      List.getElem?_append_right (by simp; omega), List.getElem?_drop]
    congr 1
    simp only [List.length_singleton]
    omega

/-- C15: evaluation of `DuplicateActiveLayer` on a layer holding the one pixel
`(200, 0, 0, 100)`.  The list grows by one, the new layer sits right after the
source with its name followed by " COPY", its flags and its opacity, and the
active index moves to it, but its pixel is `(78, 0, 0, 39)`: the source is
drawn through the default blend into a transparent texture, which scales
colour and alpha of every pixel by the pixel's alpha.  The copy of an opaque
pixel is that pixel. -/
theorem DuplicateActiveLayer_blends_copy :
    DuplicateActiveLayer (stack [inkLayer (pixel ⟨200, 0, 0, 100⟩)])
        = some { stack [inkLayer (pixel ⟨200, 0, 0, 100⟩)] with
            layers := [inkLayer (pixel ⟨200, 0, 0, 100⟩),
              { name := "INK COPY", texture := pixel ⟨78, 0, 0, 39⟩, visible := true,
                locked := false, opacity := 1 }]
            activeLayer := 1 }
    ∧ pixel ⟨78, 0, 0, 39⟩ ≠ pixel ⟨200, 0, 0, 100⟩
    ∧ (DuplicateActiveLayer (stack [inkLayer (pixel ⟨200, 0, 0, 255⟩)])).bind
          (fun a => a.pixels? 1)
        = some (pixel ⟨200, 0, 0, 255⟩) := by
  decide

/-- C16: `AddLayer` appends exactly one layer at the end of the list and leaves
the existing layers and their order as they are; the new layer is fully
transparent, visible, unlocked, of opacity 1 and named "LAYER c", `c` being the
value of `layerCounter` before the call; `layerCounter` grows by one and
`activeLayer` is the index of the new, last layer; nothing else changes. -/
theorem AddLayer_appends (app : App) :
    AddLayer app = { app with
        layers := app.layers
          ++ [{ name := "LAYER " ++ toString app.layerCounter,
                texture := Image.fill app.canvasWidth.toNat app.canvasHeight.toNat Color.blank,
                visible := true, locked := false, opacity := 1 }]
        layerCounter := app.layerCounter + 1
        activeLayer := (app.layers.length : Int) }
    ∧ (AddLayer app).layers.length = app.layers.length + 1
    ∧ (∀ j, j < app.layers.length → (AddLayer app).layers[j]? = app.layers[j]?)
    ∧ (∀ x y, (Image.fill app.canvasWidth.toNat app.canvasHeight.toNat Color.blank).getColor x y
        = Color.blank)
    ∧ (AddLayer app).layers[((AddLayer app).activeLayer).toNat]?
        = some { name := "LAYER " ++ toString app.layerCounter,
                 texture := Image.fill app.canvasWidth.toNat app.canvasHeight.toNat Color.blank,
                 visible := true, locked := false, opacity := 1 } := by
  have e : ∀ l : Layer, (((app.layers ++ [l]).length : Nat) : Int) - 1
      = (app.layers.length : Int) := by
    intro l
    simp only [List.length_append, List.length_singleton]
    omega
  refine ⟨?_, ?_, ?_, ?_, ?_⟩
  · simp only [AddLayer, NewLayer, e]
  · simp [AddLayer]
  · intro j hj
    simp only [AddLayer]
    rw [List.getElem?_append_left hj]
  · intro x y
    rw [Image.getColor_fill]
    split <;> rfl
  · simp only [AddLayer, NewLayer, e, Int.toNat_ofNat]
    rw [List.getElem?_append_right (Nat.le_refl _)]
    simp

/-! ## Reordering -/

/-- Inserting one element at position `n`: what each index of the result holds. -/
theorem getElem?_take_cons_drop {α : Type} (l : List α) (a : α) (n j : Nat)
    (hn : n ≤ l.length) :
    (l.take n ++ ([a] ++ l.drop n))[j]?
      = if j < n then l[j]? else if j = n then some a else l[j - 1]? := by
  have htl : (l.take n).length = n := by rw [List.length_take]; omega
  by_cases h1 : j < n
  · rw [if_pos h1, List.getElem?_append_left (by rw [htl]; exact h1),
      List.getElem?_take_of_lt h1]
  · rw [if_neg h1, List.getElem?_append_right (by rw [htl]; omega), htl]
    by_cases h2 : j = n
    · subst h2
      simp
    · rw [if_neg h2, List.getElem?_append_right (by simp; omega), List.getElem?_drop]
      congr 1
      simp only [List.length_singleton]
      omega

/-- The layer list and the active index after `ReorderLayers` with valid,
distinct indices: the layer is removed at `f` and inserted at `t - 1` when
`t > f`, at `t` otherwise. -/
theorem ReorderLayers_eq (app : App) (f t : Nat) (layer : Layer)
    (hl : app.layers[f]? = some layer) (ht : t < app.layers.length) (hft : f ≠ t) :
    ReorderLayers app f t = some { app with
      layers := (app.layers.eraseIdx f).take (if f < t then t - 1 else t)
        ++ ([layer] ++ (app.layers.eraseIdx f).drop (if f < t then t - 1 else t))
      activeLayer :=
        if app.activeLayer = (f : Int) then ((if f < t then t - 1 else t : Nat) : Int)
        else if (f : Int) < app.activeLayer
            ∧ ((if f < t then t - 1 else t : Nat) : Int) ≥ app.activeLayer then
          app.activeLayer - 1
        else if (f : Int) > app.activeLayer
            ∧ ((if f < t then t - 1 else t : Nat) : Int) ≤ app.activeLayer then
          app.activeLayer + 1
        else app.activeLayer } := by
  have hf : f < app.layers.length := by
    rcases Nat.lt_or_ge f app.layers.length with h' | h'
    · exact h'
    · rw [List.getElem?_eq_none h'] at hl; cases hl
  have hg : ¬ ((f : Int) < 0 ∨ (f : Int) ≥ (app.layers.length : Int) ∨ (t : Int) < 0
      ∨ (t : Int) ≥ (app.layers.length : Int) ∨ (f : Int) = (t : Int)) := by omega
  have hidx : index? app.layers (f : Int) = some layer :=
    index?_of_getElem? _ _ _ (by omega) (by simpa using hl)
  have hE : app.layers.take f ++ app.layers.drop (f + 1) = app.layers.eraseIdx f :=
    (List.eraseIdx_eq_take_drop_succ app.layers f).symm
  have hlenE : (app.layers.eraseIdx f).length = app.layers.length - 1 := by
    rw [List.length_eraseIdx, if_pos hf]
  have e1 : ((f : Int) + 1).toNat = f + 1 := by omega
  have et : (if (t : Int) > (f : Int) then (t : Int) - 1 else (t : Int))
      = ((if f < t then t - 1 else t : Nat) : Int) := by
    by_cases h : f < t
    · rw [if_pos h, if_pos (by omega)]; omega
    · rw [if_neg h, if_neg (by omega)]
  have hb : (if f < t then t - 1 else t) ≤ (app.layers.eraseIdx f).length := by
    rw [hlenE]; split <;> omega
  unfold ReorderLayers
  rw [if_neg hg]
  simp only [Option.bind_eq_bind, hidx, Option.some_bind,
    sliceTo?_eq_some app.layers (f : Int) (by omega) (by omega),
    sliceFrom?_eq_some app.layers ((f : Int) + 1) (by omega) (by omega),
    Int.toNat_ofNat, e1, hE, et]
  rw [sliceTo?_eq_some _ _ (by omega) (by exact_mod_cast hb),
    sliceFrom?_eq_some _ _ (by omega) (by exact_mod_cast hb)]
  simp only [Option.some_bind, Int.toNat_ofNat]

/-- Where `ReorderLayers` puts the moved layer: at `toIndex` when
`toIndex < fromIndex`, at `toIndex - 1` when `toIndex > fromIndex`. -/
theorem ReorderLayers_lands (app : App) (f t : Nat)
    (hf : f < app.layers.length) (ht : t < app.layers.length) (hft : f ≠ t) :
    ∃ app', ReorderLayers app f t = some app'
      ∧ app'.layers[if f < t then t - 1 else t]? = app.layers[f]? := by
  have hl : app.layers[f]? = some app.layers[f] := List.getElem?_eq_getElem hf
  have hlenE : (app.layers.eraseIdx f).length = app.layers.length - 1 := by
    rw [List.length_eraseIdx, if_pos hf]
  refine ⟨_, ReorderLayers_eq app f t _ hl ht hft, ?_⟩
  simp only
  rw [getElem?_take_cons_drop _ _ _ _ (by rw [hlenE]; split <;> omega), if_neg (by omega),
    if_pos rfl, hl]

theorem perm_eraseIdx_insert (l : List Layer) (f n : Nat) (hf : f < l.length) :
    List.Perm ((l.eraseIdx f).take n ++ ([l[f]] ++ (l.eraseIdx f).drop n)) l := by
  have h1 : List.Perm ((l.eraseIdx f).take n ++ ([l[f]] ++ (l.eraseIdx f).drop n))
      (l[f] :: l.eraseIdx f) := by
    have := @List.perm_middle _ l[f] ((l.eraseIdx f).take n) ((l.eraseIdx f).drop n)
    rw [List.take_append_drop] at this
    simpa using this
  have h2 : List.Perm (l[f] :: l.eraseIdx f) l := by
    have := @List.perm_middle _ l[f] (l.take f) (l.drop (f + 1))
    rw [← List.eraseIdx_eq_take_drop_succ] at this
    have hd : l.take f ++ l[f] :: l.drop (f + 1) = l := by
      rw [← List.drop_eq_getElem_cons hf, List.take_append_drop]
    rw [hd] at this
    exact this.symm
  exact h1.trans h2

/-- C12: for every layer list, every valid active index `a` and every pair of
valid, distinct indices `f` and `t`, `ReorderLayers app f t` returns a state
whose layer list is a permutation of the old one (same layers, each exactly
once, same length) and whose active index refers to the very layer that was at
the old active index. -/
theorem ReorderLayers_keeps_selection (app : App) (f t a : Nat)
    (hf : f < app.layers.length) (ht : t < app.layers.length) (hft : f ≠ t)
    (ha : app.activeLayer = (a : Int)) (ha1 : a < app.layers.length) :
    ∃ (app' : App) (a' : Nat), ReorderLayers app f t = some app'
      ∧ List.Perm app'.layers app.layers
      ∧ app'.layers.length = app.layers.length
      ∧ app'.activeLayer = (a' : Int)
      ∧ app'.layers[a']? = app.layers[a]? := by
  have hl : app.layers[f]? = some app.layers[f] := List.getElem?_eq_getElem hf
  have hlenE : (app.layers.eraseIdx f).length = app.layers.length - 1 := by
    rw [List.length_eraseIdx, if_pos hf]
  have hn : (if f < t then t - 1 else t) ≤ (app.layers.eraseIdx f).length := by
    rw [hlenE]; split <;> omega
  have hperm := perm_eraseIdx_insert app.layers f (if f < t then t - 1 else t) hf
  have hget := fun j => getElem?_take_cons_drop (app.layers.eraseIdx f) app.layers[f]
    (if f < t then t - 1 else t) j hn
  rw [ReorderLayers_eq app f t _ hl ht hft, ha]
  generalize hnd : (if f < t then t - 1 else t) = n at hn hperm hget
  have hnlt : n < app.layers.length := by
    rw [← hnd]; split <;> omega
  by_cases h1 : a = f
  · refine ⟨_, n, rfl, hperm, hperm.length_eq, ?_, ?_⟩
    · simp only
      rw [if_pos (by omega)]
    · simp only
      rw [hget, if_neg (by omega), if_pos rfl, h1, hl]
  · have c1 : ¬ ((a : Int) = (f : Int)) := by omega
    by_cases h2 : f < a ∧ a ≤ n
    · refine ⟨_, a - 1, rfl, hperm, hperm.length_eq, ?_, ?_⟩
      · simp only
        rw [if_neg c1, if_pos (by omega)]
        omega
      · simp only
        rw [hget, if_pos (by omega), List.getElem?_eraseIdx_of_ge _ _ _ (by omega)]
        congr 1
        omega
    · by_cases h3 : a < f ∧ n ≤ a
      · refine ⟨_, a + 1, rfl, hperm, hperm.length_eq, ?_, ?_⟩
        · simp only
          rw [if_neg c1, if_neg (by omega), if_pos (by omega)]
          omega
        · simp only
          rw [hget, if_neg (by omega), if_neg (by omega),
            List.getElem?_eraseIdx_of_lt _ _ _ (by omega)]
          congr 1
      · refine ⟨_, a, rfl, hperm, hperm.length_eq, ?_, ?_⟩
        · simp only
          rw [if_neg c1, if_neg (by omega), if_neg (by omega)]
        · simp only
          rw [hget]
          by_cases h4 : a < n
          · rw [if_pos h4, List.getElem?_eraseIdx_of_lt _ _ _ (by omega)]
          · rw [if_neg h4, if_neg (by omega), List.getElem?_eraseIdx_of_ge _ _ _ (by omega)]
            congr 1
            omega

theorem ReorderLayers_keeps_selection_witness :
    (1 < (sample3 1).layers.length ∧ 0 < (sample3 1).layers.length ∧ 1 ≠ 0
      ∧ (sample3 1).activeLayer = ((1 : Nat) : Int) ∧ 1 < (sample3 1).layers.length)
    ∧ ∃ (app' : App) (a' : Nat), ReorderLayers (sample3 1) ((1 : Nat) : Int) ((0 : Nat) : Int)
          = some app'
        ∧ List.Perm app'.layers (sample3 1).layers
        ∧ app'.layers.length = (sample3 1).layers.length
        ∧ app'.activeLayer = (a' : Int)
        ∧ app'.layers[a']? = (sample3 1).layers[1]? :=
  ⟨by decide,
    ReorderLayers_keeps_selection (sample3 1) 1 0 1 (by decide) (by decide) (by decide)
      (by decide) (by decide)⟩

/-- C13: evaluation of `ReorderLayers` on the layers `[A, B, C]`.  Moving index 0
to index 2 gives `[B, A, C]`: the layer `A` is at index 1, not at the requested
index 2.  Moving index 0 to index 1 gives `[A, B, C]` again: nothing moves.
Moving index 2 to index 0 gives `[C, A, B]`: towards the front the layer reaches
the requested index. -/
theorem ReorderLayers_forward_off_by_one :
    (ReorderLayers (sample3 1) 0 2).map App.layers
      = some [dotLayer "B" 2 false, dotLayer "A" 1 false, dotLayer "C" 3 false]
    ∧ (ReorderLayers (sample3 1) 0 2).bind (fun a => a.layers[2]?)
        ≠ (sample3 1).layers[0]?
    ∧ (ReorderLayers (sample3 1) 0 1).map App.layers = some (sample3 1).layers
    ∧ (ReorderLayers (sample3 1) 2 0).map App.layers
      = some [dotLayer "C" 3 false, dotLayer "A" 1 false, dotLayer "B" 2 false] := by
  decide

/-! ## Compositing: visibility and opacity -/

theorem foldl_visible_filter (draw : Image → Image → Image) (layers : List Layer)
    (init : Image) :
    layers.foldl
        (fun composite layer =>
          if !layer.visible then composite else draw composite layer.texture) init
      = (layers.filter fun l => l.visible).foldl
          (fun composite layer =>
            if !layer.visible then composite else draw composite layer.texture) init := by
  induction layers generalizing init with
  | nil => rfl
  | cons l ls ih =>
    by_cases hv : l.visible = true
    · simp only [List.foldl_cons, List.filter_cons, hv, if_true]
      exact ih _
    · simp only [Bool.not_eq_true] at hv
      simp only [List.foldl_cons, List.filter_cons, hv, Bool.not_false, if_true]
      simpa using ih init

theorem foldl_visible_congr (draw : Image → Image → Image) (layers others : List Layer)
    (h : List.Forall₂
      (fun l l' => l.visible = l'.visible ∧ (l.visible = true → l.texture = l'.texture))
      layers others) (init : Image) :
    others.foldl
        (fun composite layer =>
          if !layer.visible then composite else draw composite layer.texture) init
      = layers.foldl
          (fun composite layer =>
            if !layer.visible then composite else draw composite layer.texture) init := by
  induction h generalizing init with
  | nil => rfl
  | @cons a b as bs hl _ ih =>
    obtain ⟨hv, ht⟩ := hl
    have e : (if (!b.visible) = true then init else draw init b.texture)
        = (if (!a.visible) = true then init else draw init a.texture) := by
      by_cases hvis : a.visible = true
      · rw [← hv, ← ht hvis]
      · simp only [Bool.not_eq_true] at hvis
        rw [← hv, hvis]
        rfl
    simp only [List.foldl_cons]
    rw [e]
    exact ih _

/-- C17: for every layer stack (and every implementation of the library's blend)
the composite that `ComposeLayers` produces is the composite of the same stack
with every layer having `visible = false` removed; and two stacks that have the
same visibility flags and the same pixels in their visible layers, whatever the
pixels of their invisible layers, compose to the same output. -/
theorem ComposeLayers_ignores_invisible (draw : Image → Image → Image) (app : App) :
    (ComposeLayersWith draw app).compositeTexture
      = (ComposeLayersWith draw
          { app with layers := app.layers.filter fun l => l.visible }).compositeTexture
    ∧ ∀ other : App,
        other.compositeTexture.width = app.compositeTexture.width →
        other.compositeTexture.height = app.compositeTexture.height →
        List.Forall₂
          (fun l l' => l.visible = l'.visible ∧ (l.visible = true → l.texture = l'.texture))
          app.layers other.layers →
        (ComposeLayersWith draw other).compositeTexture
          = (ComposeLayersWith draw app).compositeTexture := by
  constructor
  · simp only [ComposeLayersWith]
    rw [foldl_visible_filter draw app.layers, foldl_visible_filter draw (app.layers.filter _),
      List.filter_filter]
  · intro other hw hh h
    simp only [ComposeLayersWith]
    rw [hw, hh]
    exact foldl_visible_congr draw app.layers other.layers h _

theorem ComposeLayers_ignores_invisible_witness :
    ((stack [dotLayerWith "A" 1 true 1, dotLayerWith "B" 3 false 1]).compositeTexture.width
        = (stack [dotLayerWith "A" 1 true 1, dotLayerWith "B" 2 false 1]).compositeTexture.width
      ∧ (stack [dotLayerWith "A" 1 true 1, dotLayerWith "B" 3 false 1]).compositeTexture.height
        = (stack [dotLayerWith "A" 1 true 1, dotLayerWith "B" 2 false 1]).compositeTexture.height)
    ∧ ComposeLayers (stack [dotLayerWith "A" 1 true 1, dotLayerWith "B" 2 false 1])
        = { stack [dotLayerWith "A" 1 true 1, dotLayerWith "B" 2 false 1] with
            compositeTexture := dot 1 }
    ∧ (ComposeLayersWith drawTextureRec
          (stack [dotLayerWith "A" 1 true 1, dotLayerWith "B" 3 false 1])).compositeTexture
      = (ComposeLayersWith drawTextureRec
          (stack [dotLayerWith "A" 1 true 1, dotLayerWith "B" 2 false 1])).compositeTexture :=
  ⟨by decide, by decide,
    (ComposeLayers_ignores_invisible drawTextureRec
      (stack [dotLayerWith "A" 1 true 1, dotLayerWith "B" 2 false 1])).2
      (stack [dotLayerWith "A" 1 true 1, dotLayerWith "B" 3 false 1]) (by decide) (by decide)
      (List.Forall₂.cons ⟨rfl, fun _ => rfl⟩
        (List.Forall₂.cons ⟨rfl, fun h => absurd h (by decide)⟩ List.Forall₂.nil))⟩

/-- C18, as stated, fails.  Over an empty composite a visible, opaque layer of
opacity 0 leaves its pixel in the composite instead of leaving the composite
unchanged, and a layer of opacity 1/2 leaves the same pixel, alpha 255 included,
as the same layer of opacity 1. -/
theorem ComposeLayers_opacity_counterexample :
    (dotLayerWith "A" 7 true 0).opacity = 0
    ∧ (ComposeLayers (stack [])).compositeTexture = Image.fill 1 1 Color.blank
    ∧ (ComposeLayers (stack [dotLayerWith "A" 7 true 0])).compositeTexture = dot 7
    ∧ dot 7 ≠ Image.fill 1 1 Color.blank
    ∧ (ComposeLayers (stack [dotLayerWith "A" 7 true (1 / 2)])).compositeTexture
      = (ComposeLayers (stack [dotLayerWith "A" 7 true 1])).compositeTexture
    ∧ ((ComposeLayers (stack [dotLayerWith "A" 7 true (1 / 2)])).compositeTexture.getColor 0 0).a
      = 255 := by
  decide

/-- C18, amended: `ComposeLayers` draws every visible layer with its own,
unscaled alpha (tint `rl.White`) and never reads `opacity`: for every stack and
every assignment of other opacity values to its layers the composite is the
same, so a visible layer contributes at opacity 0 or 1/2 exactly what it
contributes at opacity 1. -/
theorem ComposeLayers_ignores_opacity (draw : Image → Image → Image) (app : App)
    (opacity : Layer → Rat) :
    (ComposeLayersWith draw
        { app with layers := app.layers.map fun l => { l with opacity := opacity l } }
      ).compositeTexture
      = (ComposeLayersWith draw app).compositeTexture
    ∧ (ComposeLayersWith draw app).compositeTexture
      = ((app.layers.filter fun l => l.visible).map Layer.texture).foldl draw
          (Image.fill app.compositeTexture.width app.compositeTexture.height Color.blank) := by
  constructor
  · simp only [ComposeLayersWith, List.foldl_map]
  · simp only [ComposeLayersWith]
    rw [foldl_visible_filter, List.foldl_map]
    generalize Image.fill app.compositeTexture.width app.compositeTexture.height Color.blank = init
    induction app.layers generalizing init with
    | nil => rfl
    | cons l ls ih =>
      by_cases hv : l.visible = true
      · simp only [List.filter_cons, hv, if_true, List.foldl_cons, Bool.not_true,
          Bool.false_eq_true, if_false]
        exact ih _
      · simp only [Bool.not_eq_true] at hv
        simp only [List.filter_cons, hv, Bool.false_eq_true, if_false]
        exact ih init

/-! ## Canvas handling: eyedropper and lock -/

theorem set_eq_self_of_getElem? {α : Type} (l : List α) (i : Nat) (a : α)
    (h : l[i]? = some a) : l.set i a = l := by
  induction l generalizing i with
  | nil => rfl
  | cons x xs ih =>
    cases i with
    | zero =>
      simp only [List.getElem?_cons_zero, Option.some.injEq] at h
      rw [List.set_cons_zero, h]
    | succ n =>
      simp only [List.getElem?_cons_succ] at h
      rw [List.set_cons_succ, ih n h]

theorem drawOnLayer_nil (render : Image → DrawCall → Image) (layers : List Layer) (i : Int)
    (layer : Layer) (h : index? layers i = some layer) :
    drawOnLayer render layers i [] = some layers := by
  have h0 : 0 ≤ i := by
    by_contra hc
    simp [index?, hc] at h
  have hl : layers[i.toNat]? = some layer := by
    simpa [index?, h0] using h
  unfold drawOnLayer
  simp only [Option.bind_eq_bind, h, Option.some_bind, List.foldl_nil]
  rw [set_eq_self_of_getElem? layers i.toNat layer hl]

theorem strokeCalls_eyedropper (app : App) (pos : Vector2)
    (h : app.currentTool = ToolType.ToolEyedropper) : strokeCalls app pos = [] := by
  simp [strokeCalls, h]

theorem commitBlock_eyedropper (render : Image → DrawCall → Image) (app : App)
    (released : Bool) (pos : Vector2) (h : app.currentTool = ToolType.ToolEyedropper) :
    ∃ app', commitBlock render app released pos = some (app', [])
      ∧ app'.layers = app.layers ∧ app'.currentColor = app.currentColor := by
  unfold commitBlock
  split
  · rw [if_neg (by rw [h]; decide)]
    exact ⟨_, rfl, rfl, rfl⟩
  · exact ⟨_, rfl, rfl, rfl⟩

/-- C19, as stated, fails: with the eyedropper selected, the pointer over the
canvas and a press at canvas position `(0, 0)` of a one-pixel canvas whose only,
active layer is locked, the current colour stays black although the composite
holds grey 9 there; with the same layer unlocked the press picks grey 9. -/
theorem eyedropper_locked_counterexample :
    (pickerSample true).currentTool = ToolType.ToolEyedropper
    ∧ pressAtOrigin.overCanvas = true
    ∧ (ComposeLayers (pickerSample true)).compositeTexture.getColorAt 0 0 = ⟨9, 9, 9, 255⟩
    ∧ (UpdateCanvasOld drawTextureRec floodRender (pickerSample true) pressAtOrigin).map
        (fun r => r.1.currentColor) = some ⟨0, 0, 0, 255⟩
    ∧ (UpdateCanvasOld drawTextureRec floodRender (pickerSample false) pressAtOrigin).map
        (fun r => r.1.currentColor) = some ⟨9, 9, 9, 255⟩ := by
  decide

/-- C19, amended: in `Update` of `src/cmd/old/dd.go`, with the eyedropper
selected, the pointer over the canvas panel and the active layer not locked, a
press at a canvas coordinate inside `[0, canvasWidth) x [0, canvasHeight)` sets
`currentColor` to the pixel of the freshly composed image at that coordinate
(row `canvasHeight - 1 - canvasY` of its read-back), issues no drawing command
and leaves the layer list as it is.  The eyedropper is not exempt from the lock
check: when the active layer is locked the frame leaves `currentColor` and the
layer list unchanged and issues no drawing command. -/
theorem eyedropper_samples_when_unlocked (draw : Image → Image → Image)
    (render : Image → DrawCall → Image) (app : App) (inp : Input) (active : Layer)
    (htool : app.currentTool = ToolType.ToolEyedropper)
    (hover : inp.overCanvas = true)
    (hactive : index? app.layers app.activeLayer = some active) :
    (active.locked = false → inp.pressed = true →
      0 ≤ inp.canvasX → inp.canvasX < app.canvasWidth →
      0 ≤ inp.canvasY → inp.canvasY < app.canvasHeight →
      ∃ app', UpdateCanvasOld draw render app inp = some (app', [])
        ∧ app'.currentColor
          = (ComposeLayersWith draw app).compositeTexture.getColorAt inp.canvasX
              (app.canvasHeight - 1 - inp.canvasY)
        ∧ app'.layers = app.layers)
    ∧ (active.locked = true →
      ∃ app', UpdateCanvasOld draw render app inp = some (app', [])
        ∧ app'.currentColor = app.currentColor
        ∧ app'.layers = app.layers) := by
  constructor
  · intro hlock hpress hx0 hx1 hy0 hy1
    have hrange : inp.canvasX ≥ 0 ∧ inp.canvasX < (ComposeLayersWith draw app).canvasWidth
        ∧ inp.canvasY ≥ 0 ∧ inp.canvasY < (ComposeLayersWith draw app).canvasHeight :=
      ⟨hx0, hx1, hy0, hy1⟩
    have hpressed : pressBlockOld draw app inp
        = some { ComposeLayersWith draw app with
            currentColor := (ComposeLayersWith draw app).compositeTexture.getColorAt inp.canvasX
              ((ComposeLayersWith draw app).canvasHeight - 1 - inp.canvasY) } := by
      unfold pressBlockOld
      rw [if_pos htool]
      simp only
      rw [if_pos hrange]
    have hstroke : strokeBlock render
        { ComposeLayersWith draw app with
            currentColor := (ComposeLayersWith draw app).compositeTexture.getColorAt inp.canvasX
              ((ComposeLayersWith draw app).canvasHeight - 1 - inp.canvasY) }
        ⟨inp.canvasX, inp.canvasY⟩
        = some ({ ComposeLayersWith draw app with
            currentColor := (ComposeLayersWith draw app).compositeTexture.getColorAt inp.canvasX
              ((ComposeLayersWith draw app).canvasHeight - 1 - inp.canvasY)
            lastMousePos := ⟨inp.canvasX, inp.canvasY⟩ }, []) := by
      unfold strokeBlock
      rw [strokeCalls_eyedropper _ _ (by exact htool)]
      rw [drawOnLayer_nil render _ _ active (by exact hactive)]
      rfl
    obtain ⟨app', hc, hcl, hcc⟩ := commitBlock_eyedropper render
      { ComposeLayersWith draw app with
        currentColor := (ComposeLayersWith draw app).compositeTexture.getColorAt inp.canvasX
          ((ComposeLayersWith draw app).canvasHeight - 1 - inp.canvasY)
        lastMousePos := ⟨inp.canvasX, inp.canvasY⟩ }
      inp.released ⟨screenWidth, screenHeight⟩ (by exact htool)
    refine ⟨app', ?_, ?_, ?_⟩
    · unfold UpdateCanvasOld
      rw [if_pos hover]
      simp only [hactive, Option.some_bind, hlock, Bool.not_false, if_true, hpress, hpressed,
        hstroke, hc, Option.map_some', List.append_nil]
    · rw [hcc]
      rfl
    · rw [hcl]
      rfl
  · intro hlock
    obtain ⟨app', hc, hcl, hcc⟩ := commitBlock_eyedropper render app inp.released
      ⟨screenWidth, screenHeight⟩ htool
    refine ⟨app', ?_, hcc, hcl⟩
    unfold UpdateCanvasOld
    rw [if_pos hover]
    simp only [hactive, Option.some_bind, hlock, Bool.not_true, Bool.false_eq_true, if_false, hc,
      Option.map_some', List.append_nil]

theorem eyedropper_samples_when_unlocked_witness :
    ((pickerSample false).currentTool = ToolType.ToolEyedropper
      ∧ pressAtOrigin.overCanvas = true
      ∧ index? (pickerSample false).layers (pickerSample false).activeLayer
          = some (dotLayer "BACKGROUND" 9 false)
      ∧ (dotLayer "BACKGROUND" 9 false).locked = false
      ∧ pressAtOrigin.pressed = true
      ∧ 0 ≤ pressAtOrigin.canvasX ∧ pressAtOrigin.canvasX < (pickerSample false).canvasWidth
      ∧ 0 ≤ pressAtOrigin.canvasY ∧ pressAtOrigin.canvasY < (pickerSample false).canvasHeight)
    ∧ ((pickerSample true).currentTool = ToolType.ToolEyedropper
      ∧ index? (pickerSample true).layers (pickerSample true).activeLayer
          = some (dotLayer "BACKGROUND" 9 true)
      ∧ (dotLayer "BACKGROUND" 9 true).locked = true)
    ∧ (∃ app', UpdateCanvasOld drawTextureRec floodRender (pickerSample false) pressAtOrigin
          = some (app', [])
        ∧ app'.currentColor
          = (ComposeLayersWith drawTextureRec (pickerSample false)).compositeTexture.getColorAt
              pressAtOrigin.canvasX ((pickerSample false).canvasHeight - 1 - pressAtOrigin.canvasY)
        ∧ app'.layers = (pickerSample false).layers)
    ∧ ∃ app', UpdateCanvasOld drawTextureRec floodRender (pickerSample true) pressAtOrigin
          = some (app', [])
        ∧ app'.currentColor = (pickerSample true).currentColor
        ∧ app'.layers = (pickerSample true).layers :=
  ⟨by decide, by decide,
    (eyedropper_samples_when_unlocked drawTextureRec floodRender (pickerSample false)
      pressAtOrigin (dotLayer "BACKGROUND" 9 false) (by decide) (by decide) (by decide)).1
      (by decide) (by decide) (by decide) (by decide) (by decide) (by decide),
    (eyedropper_samples_when_unlocked drawTextureRec floodRender (pickerSample true)
      pressAtOrigin (dotLayer "BACKGROUND" 9 true) (by decide) (by decide) (by decide)).2
      (by decide)⟩

/-- C20: in `Update` of `src/dd.go`, for every state whose active layer is
locked and for every frame (any pointer position, any combination of the button
flags, any selected tool, any rasteriser), the canvas handling returns the state
as it is and issues no drawing command, so every layer keeps its pixels. -/
theorem UpdateCanvas_locked_noop (render : Image → DrawCall → Image) (app : App)
    (inp : Input) (active : Layer)
    (hactive : index? app.layers app.activeLayer = some active)
    (hlock : active.locked = true) :
    UpdateCanvas render app inp = some (app, [])
    ∧ ∀ app' calls, UpdateCanvas render app inp = some (app', calls) →
        calls = [] ∧ app'.layers = app.layers := by
  have e : UpdateCanvas render app inp = some (app, []) := by
    unfold UpdateCanvas
    by_cases hover : inp.overCanvas = true
    · rw [if_pos hover]
      simp only [hactive, Option.some_bind, hlock, Bool.not_true, Bool.false_eq_true, if_false]
    · rw [if_neg hover]
  refine ⟨e, fun app' calls h => ?_⟩
  rw [e, Option.some.injEq, Prod.mk.injEq] at h
  exact ⟨h.2.symm, by rw [← h.1]⟩

theorem UpdateCanvas_locked_noop_witness :
    (index? (lockedSample [] (-1)).layers (lockedSample [] (-1)).activeLayer
        = some (dotLayer "LAYER 1" 10 true)
      ∧ (dotLayer "LAYER 1" 10 true).locked = true)
    ∧ UpdateCanvas floodRender (lockedSample [] (-1)) pressAtOrigin
        = some (lockedSample [] (-1), [])
    ∧ (UpdateCanvas floodRender (sample [] (-1) 2) pressAtOrigin).map (fun r => r.2.length)
        = some 2 :=
  ⟨by decide,
    (UpdateCanvas_locked_noop floodRender (lockedSample [] (-1)) pressAtOrigin
      (dotLayer "LAYER 1" 10 true) (by decide) (by decide)).1,
    by decide⟩

/-! ## Redo as implemented -/

/-- C27: `Redo` returns the state unchanged unless
`historyIndex < len(history) - 2`.  When that test holds (the position being at
least `-1`), `Redo` returns a different state: `historyIndex` is larger by
exactly 2, the history list is as before, and the snapshot of the entry at the
new position is restored into the layer at that entry's recorded index, when
there is such a layer; when there is none the layers are as before. -/
theorem Redo_as_implemented (app : App) :
    (¬ app.historyIndex < (app.history.length : Int) - 2 → Redo app = some app)
    ∧ (app.historyIndex < (app.history.length : Int) - 2 → -1 ≤ app.historyIndex →
        ∃ action app',
          app.history[(app.historyIndex + 2).toNat]? = some action
          ∧ Redo app = some app'
          ∧ app' ≠ app
          ∧ app'.historyIndex = app.historyIndex + 2
          ∧ app'.history = app.history
          ∧ (∀ layer, app.layers[action.layerIndex]? = some layer →
              app'.layers = app.layers.set action.layerIndex
                { layer with texture := restoreTexture layer.texture action.layerData })
          ∧ (app.layers.length ≤ action.layerIndex → app'.layers = app.layers)) := by
  refine ⟨fun h => Redo_noop app h, fun h1 h0 => ?_⟩
  obtain ⟨action, ha, -⟩ :=
    index?_eq_some app.history (app.historyIndex + 2) (by omega) (by omega)
  refine ⟨action, _, ha, Redo_eq app action (by omega) h1 ha, ?_, rfl, rfl, ?_, ?_⟩
  · intro hc
    have := congrArg App.historyIndex hc
    simp only at this
    omega
  · intro layer hl
    exact restoreAction_of_getElem? _ _ _ hl
  · intro hge
    exact restoreAction_of_ge _ _ hge

theorem Redo_as_implemented_witness :
    (¬ (sample sampleHistory 0 2).historyIndex
          < ((sample sampleHistory 0 2).history.length : Int) - 2
      ∧ Redo (sample sampleHistory 0 2) = some (sample sampleHistory 0 2))
    ∧ ((sample sampleHistory3 (-1) 3).historyIndex
          < ((sample sampleHistory3 (-1) 3).history.length : Int) - 2
      ∧ -1 ≤ (sample sampleHistory3 (-1) 3).historyIndex)
    ∧ ∃ app', Redo (sample sampleHistory3 (-1) 3) = some app'
        ∧ app' ≠ sample sampleHistory3 (-1) 3
        ∧ app'.historyIndex = (sample sampleHistory3 (-1) 3).historyIndex + 2 :=
  ⟨⟨by decide, (Redo_as_implemented (sample sampleHistory 0 2)).1 (by decide)⟩,
    by decide,
    by
      obtain ⟨_, app', -, h2, h3, h4, -⟩ :=
        (Redo_as_implemented (sample sampleHistory3 (-1) 3)).2 (by decide) (by decide)
      exact ⟨app', h2, h3, h4⟩⟩

/-! ## Canvas handling of the old `Update`: snapshots and primitive commit -/

/-- C21: evaluation of one frame of the old canvas handling with the pen
selected, the pointer over the canvas, the active layer unlocked, no button
pressed, held or released and `isDrawing` false.  Two drawing commands are
issued into the active layer and its pixels change, while the history is still
empty: no snapshot precedes the drawing.  In `src/dd.go` the same frame issues
no command. -/
theorem hover_draws_without_snapshot :
    (sample [] (-1) 2).currentTool = ToolType.ToolPen
    ∧ (sample [] (-1) 2).isDrawing = false
    ∧ (UpdateCanvasOld drawTextureRec floodRender (sample [] (-1) 2)
          ⟨500, 0, 0, false, false, false⟩).map (fun r => r.2.length) = some 2
    ∧ (UpdateCanvasOld drawTextureRec floodRender (sample [] (-1) 2)
          ⟨500, 0, 0, false, false, false⟩).map (fun r => r.1.history) = some []
    ∧ (UpdateCanvasOld drawTextureRec floodRender (sample [] (-1) 2)
          ⟨500, 0, 0, false, false, false⟩).map (fun r => r.1.isDrawing) = some false
    ∧ (UpdateCanvasOld drawTextureRec floodRender (sample [] (-1) 2)
          ⟨500, 0, 0, false, false, false⟩).bind (fun r => r.1.pixels? 1)
        ≠ (sample [] (-1) 2).pixels? 1
    ∧ (UpdateCanvas floodRender (sample [] (-1) 2) ⟨500, 0, 0, false, false, false⟩).map
        (fun r => r.2) = some [] := by
  decide

/-- C22: evaluation of the release frame of the old canvas handling with the
line tool, `isDrawing` true, the press point `(2, 3)` and the pointer released
at canvas point `(5, 7)`.  Exactly one line is drawn into the active layer, but
it runs from `(2, 3)` to `(1280, 800)`, the constants `screenWidth` and
`screenHeight`, not to the release point; the canvas handling of `src/dd.go`
draws the line from `(2, 3)` to `(5, 7)`. -/
theorem old_commit_ignores_release_point :
    (UpdateCanvasOld drawTextureRec floodRender
        { sample [] (-1) 2 with
          currentTool := ToolType.ToolLine, isDrawing := true, lineStart := ⟨2, 3⟩ }
        ⟨500, 5, 7, false, false, true⟩).map (fun r => r.2)
      = some [⟨1, false, Shape.lineEx ⟨2, 3⟩ ⟨1280, 800⟩ 4, ⟨0, 0, 0, 255⟩⟩]
    ∧ (UpdateCanvas floodRender
        { sample [] (-1) 2 with
          currentTool := ToolType.ToolLine, isDrawing := true, lineStart := ⟨2, 3⟩ }
        ⟨500, 5, 7, false, false, true⟩).map (fun r => r.2)
      = some [⟨1, false, Shape.lineEx ⟨2, 3⟩ ⟨5, 7⟩ 4, ⟨0, 0, 0, 255⟩⟩]
    ∧ (UpdateCanvasOld drawTextureRec floodRender
        { sample [] (-1) 2 with
          currentTool := ToolType.ToolRect, isDrawing := true, lineStart := ⟨2, 3⟩ }
        ⟨500, 5, 7, false, false, true⟩).map (fun r => r.2)
      = some [⟨1, false, Shape.rectangleLines 2 3 1278 797, ⟨0, 0, 0, 255⟩⟩]
    ∧ (UpdateCanvasOld drawTextureRec floodRender
        { sample [] (-1) 2 with
          currentTool := ToolType.ToolCircle, isDrawing := true, lineStart := ⟨2, 3⟩ }
        ⟨500, 5, 7, false, false, true⟩).map (fun r => r.2)
      = some [⟨1, false, Shape.circleLines 641 401 ⟨2, 3⟩ ⟨1280, 800⟩, ⟨0, 0, 0, 255⟩⟩] := by
  decide

/-! ## The square pen -/

/-- C23: evaluation of `DrawSquareLine` from `(0, 0)` to `(10, 0)` with size 1.
The eleven points of the stepped path are `(0, 0)` to `(10, 0)`, but the square
of the point `(x, 0)` is placed at `int32(x - 0.5)`, which is `x - 1` for
`x ≥ 1` and `0` for `x = 0`: the stamps paint the pixels `(0, 0)` to `(9, 0)`
and the pixel `(10, 0)` of the path is painted by none of them. -/
theorem square_pen_size_one_misses_last_pixel :
    squareLinePoints 11 ⟨0, 0⟩ ⟨10, 0⟩
      = some [⟨0, 0⟩, ⟨1, 0⟩, ⟨2, 0⟩, ⟨3, 0⟩, ⟨4, 0⟩, ⟨5, 0⟩, ⟨6, 0⟩, ⟨7, 0⟩, ⟨8, 0⟩, ⟨9, 0⟩,
          ⟨10, 0⟩]
    ∧ (DrawSquareLine 11 ⟨0, 0⟩ ⟨10, 0⟩ 1 ⟨0, 0, 0, 255⟩).map (fun l => l.map Stamp.posX)
      = some [0, 0, 1, 2, 3, 4, 5, 6, 7, 8, 9]
    ∧ (DrawSquareLine 11 ⟨0, 0⟩ ⟨10, 0⟩ 1 ⟨0, 0, 0, 255⟩).map
        (fun l => l.map fun s => (s.posY, s.width, s.height))
      = some (List.replicate 11 (0, 1, 1))
    ∧ (DrawSquareLine 11 ⟨0, 0⟩ ⟨10, 0⟩ 1 ⟨0, 0, 0, 255⟩).map
        (fun l => l.any fun s => s.paints 10 0) = some false
    ∧ (DrawSquareLine 11 ⟨0, 0⟩ ⟨10, 0⟩ 1 ⟨0, 0, 0, 255⟩).map
        (fun l => (List.range 10).all fun x => l.any fun s => s.paints x 0) = some true := by
  decide!

/-- Below `2^24` every integer is a `float32`: the rounding keeps it. -/
theorem f32_small (n : Int) (h1 : -16777216 < n) (h2 : n < 16777216) : f32 n = n := by
  have hu : ulpFrom n.natAbs 104 1 = 1 := by
    show (if n.natAbs < 2 ^ 24 * 1 then 1 else _) = 1
    rw [if_pos (by omega)]
  unfold f32
  simp only [hu, Nat.div_one, Nat.mod_one, Nat.mul_one]
  simp
  exact Int.sign_mul_abs n

theorem squareLineLoop_succ (dx dy sx sy endX endY : Int) (fuel : Nat) (x0 y0 err : Int) :
    squareLineLoop dx dy sx sy endX endY (fuel + 1) x0 y0 err
      = if x0 = endX ∧ y0 = endY then some [⟨x0, y0⟩]
        else
          (squareLineLoop dx dy sx sy endX endY fuel
            (if f32 (2 * err) > -dy then f32 (x0 + sx) else x0)
            (if f32 (2 * err) < dx then f32 (y0 + sy) else y0)
            (if f32 (2 * err) < dx then
                f32 ((if f32 (2 * err) > -dy then f32 (err - dy) else err) + dx)
              else (if f32 (2 * err) > -dy then f32 (err - dy) else err))).map
            fun rest => ⟨x0, y0⟩ :: rest := rfl

/-- Prepending the current point to the rest of a stepped path. -/
theorem path_cons (p q : Vector2) (target : Vector2) (rest : List Vector2) (k : Nat)
    (hadj : Adjacent p q)
    (hlen : rest.length = k + 1) (hhead : rest.head? = some q)
    (hlast : rest.getLast? = some target) (hchain : List.Chain' Adjacent rest) :
    (p :: rest).length = k + 1 + 1 ∧ (p :: rest).head? = some p
      ∧ (p :: rest).getLast? = some target ∧ List.Chain' Adjacent (p :: rest) := by
  cases rest with
  | nil => simp at hlen
  | cons r rs =>
    simp only [List.head?_cons, Option.some.injEq] at hhead
    subst hhead
    refine ⟨by simp [hlen], rfl, ?_, ?_⟩
    · rw [List.getLast?_cons_cons]; exact hlast
    · exact List.chain'_cons.2 ⟨hadj, hchain⟩

/-- The loop when the line is at least as wide as it is high: every iteration
steps in `x`, and after the last of the `k` remaining steps the end point is
reached. All values stay below `2^24`, where `float32` arithmetic is exact. -/
theorem squareLineLoop_xmajor (dx dy sx sy endX endY : Int) (hdx : 1 ≤ dx) (hdy : 0 ≤ dy)
    (hle : dy ≤ dx) (hsx : sx = 1 ∨ sx = -1) (hsy : sy = 1 ∨ sy = -1)
    (hDX : dx ≤ 4194304) (hEX : -2097152 ≤ endX ∧ endX ≤ 2097152)
    (hEY : -2097152 ≤ endY ∧ endY ≤ 2097152) :
    ∀ (k fuel : Nat) (x0 y0 err b : Int), k + 1 ≤ fuel → (k : Int) ≤ dx → 0 ≤ b → b ≤ dy →
      x0 + sx * (k : Int) = endX → y0 + sy * (dy - b) = endY →
      err = dx - dy - (dx - (k : Int)) * dy + b * dx →
      -dy < 2 * err → 2 * err < 3 * dx - 2 * dy →
      ∃ pts, squareLineLoop dx dy sx sy endX endY fuel x0 y0 err = some pts
        ∧ pts.length = k + 1 ∧ pts.head? = some ⟨x0, y0⟩
        ∧ pts.getLast? = some ⟨endX, endY⟩ ∧ List.Chain' Adjacent pts := by
  intro k
  induction k with
  | zero =>
    intro fuel x0 y0 err b hfuel _ _ hb2 hx hy herr hlo hhi
    obtain ⟨f, rfl⟩ : ∃ f, fuel = f + 1 := ⟨fuel - 1, by omega⟩
    simp only [Nat.cast_zero, mul_zero, add_zero, sub_zero] at hx herr
    have hb1 : dy ≤ b := by
      by_contra hc
      have h1 : 0 ≤ (dy - 1 - b) * dx := mul_nonneg (by omega) (by omega)
      nlinarith
    have hb : b = dy := by omega
    have hy' : y0 = endY := by
      rw [hb] at hy
      simpa using hy
    rw [squareLineLoop_succ, if_pos ⟨hx, hy'⟩]
    refine ⟨_, rfl, rfl, rfl, ?_, List.chain'_singleton _⟩
    rw [hx, hy']
    rfl
  | succ k ih =>
    intro fuel x0 y0 err b hfuel hk hb0 hb2 hx hy herr hlo hhi
    obtain ⟨f, rfl⟩ : ∃ f, fuel = f + 1 := ⟨fuel - 1, by omega⟩
    push_cast at hx herr hk
    have hne : ¬ (x0 = endX ∧ y0 = endY) := by
      rintro ⟨h1, -⟩
      rcases hsx with rfl | rfl <;> omega
    have hxs : 2 * err > -dy := hlo
    have h1 : f32 (2 * err) = 2 * err := f32_small _ (by omega) (by omega)
    have h2 : f32 (err - dy) = err - dy := f32_small _ (by omega) (by omega)
    have h3 : f32 (x0 + sx) = x0 + sx := by
      rcases hsx with rfl | rfl <;> exact f32_small _ (by omega) (by omega)
    rw [squareLineLoop_succ, if_neg hne]
    simp only [h1, if_pos hxs, h2, h3]
    have hx' : x0 + sx + sx * (k : Int) = endX := by
      rw [← hx]; ring
    by_cases hys : 2 * err < dx
    · have h4 : f32 (err - dy + dx) = err - dy + dx := f32_small _ (by omega) (by omega)
      have h5 : f32 (y0 + sy) = y0 + sy := by
        rcases hsy with rfl | rfl <;> exact f32_small _ (by omega) (by omega)
      have hb : b + 1 ≤ dy := by
        by_contra hc
        have hbd : b = dy := by omega
        have hkd : 0 ≤ (k : Int) * dy := mul_nonneg (by omega) hdy
        rw [hbd] at herr
        nlinarith
      simp only [if_pos hys, h4, h5]
      obtain ⟨rest, hr, hlen, hhead, hlast, hchain⟩ :=
        ih f (x0 + sx) (y0 + sy) (err - dy + dx) (b + 1) (by omega) (by omega) (by omega) hb
          hx' (by rw [← hy]; ring) (by rw [herr]; ring) (by omega) (by omega)
      rw [hr]
      refine ⟨_, rfl, ?_⟩
      exact path_cons _ _ _ _ _
        (by unfold Adjacent; rcases hsx with rfl | rfl <;> rcases hsy with rfl | rfl <;>
          simp)
        hlen hhead hlast hchain
    · simp only [if_neg hys]
      obtain ⟨rest, hr, hlen, hhead, hlast, hchain⟩ :=
        ih f (x0 + sx) y0 (err - dy) b (by omega) (by omega) hb0 hb2 hx' hy
          (by rw [herr]; ring) (by omega) (by omega)
      rw [hr]
      refine ⟨_, rfl, ?_⟩
      exact path_cons _ _ _ _ _
        (by unfold Adjacent; rcases hsx with rfl | rfl <;> simp)
        hlen hhead hlast hchain

/-- The loop when the line is higher than it is wide: every iteration steps in
`y`, and after the last of the `k` remaining steps the end point is reached.
All values stay below `2^24`, where `float32` arithmetic is exact. -/
theorem squareLineLoop_ymajor (dx dy sx sy endX endY : Int) (hdx : 0 ≤ dx) (hdy : 1 ≤ dy)
    (hlt : dx < dy) (hsx : sx = 1 ∨ sx = -1) (hsy : sy = 1 ∨ sy = -1)
    (hDY : dy ≤ 4194304) (hEX : -2097152 ≤ endX ∧ endX ≤ 2097152)
    (hEY : -2097152 ≤ endY ∧ endY ≤ 2097152) :
    ∀ (k fuel : Nat) (x0 y0 err a : Int), k + 1 ≤ fuel → (k : Int) ≤ dy → 0 ≤ a → a ≤ dx →
      x0 + sx * (dx - a) = endX → y0 + sy * (k : Int) = endY →
      err = dx - dy - a * dy + (dy - (k : Int)) * dx →
      2 * dx - 3 * dy < 2 * err → 2 * err ≤ 2 * dx - dy →
      ∃ pts, squareLineLoop dx dy sx sy endX endY fuel x0 y0 err = some pts
        ∧ pts.length = k + 1 ∧ pts.head? = some ⟨x0, y0⟩
        ∧ pts.getLast? = some ⟨endX, endY⟩ ∧ List.Chain' Adjacent pts := by
  intro k
  induction k with
  | zero =>
    intro fuel x0 y0 err a hfuel _ _ ha1 hx hy herr hlo hhi
    obtain ⟨f, rfl⟩ : ∃ f, fuel = f + 1 := ⟨fuel - 1, by omega⟩
    simp only [Nat.cast_zero, mul_zero, add_zero, sub_zero] at hy herr
    have ha2 : dx ≤ a := by
      by_contra hc
      have h1 : 0 ≤ (dx - a - 1) * dy := mul_nonneg (by omega) (by omega)
      nlinarith
    have ha : a = dx := by omega
    have hx' : x0 = endX := by
      rw [ha] at hx
      simpa using hx
    rw [squareLineLoop_succ, if_pos ⟨hx', hy⟩]
    refine ⟨_, rfl, rfl, rfl, ?_, List.chain'_singleton _⟩
    rw [hx', hy]
    rfl
  | succ k ih =>
    intro fuel x0 y0 err a hfuel hk ha0 ha1 hx hy herr hlo hhi
    obtain ⟨f, rfl⟩ : ∃ f, fuel = f + 1 := ⟨fuel - 1, by omega⟩
    push_cast at hy herr hk
    have hne : ¬ (x0 = endX ∧ y0 = endY) := by
      rintro ⟨-, h1⟩
      rcases hsy with rfl | rfl <;> omega
    have hys : 2 * err < dx := by omega
    have h1 : f32 (2 * err) = 2 * err := f32_small _ (by omega) (by omega)
    have h5 : f32 (y0 + sy) = y0 + sy := by
      rcases hsy with rfl | rfl <;> exact f32_small _ (by omega) (by omega)
    have h4 : f32 (err + dx) = err + dx := f32_small _ (by omega) (by omega)
    rw [squareLineLoop_succ, if_neg hne]
    simp only [h1, if_pos hys, h5]
    have hy' : y0 + sy + sy * (k : Int) = endY := by
      rw [← hy]; ring
    by_cases hxs : 2 * err > -dy
    · have h2 : f32 (err - dy) = err - dy := f32_small _ (by omega) (by omega)
      have h3 : f32 (x0 + sx) = x0 + sx := by
        rcases hsx with rfl | rfl <;> exact f32_small _ (by omega) (by omega)
      have h6 : f32 (err - dy + dx) = err - dy + dx := f32_small _ (by omega) (by omega)
      have ha : a + 1 ≤ dx := by
        by_contra hc
        have had : a = dx := by omega
        have hkd : 0 ≤ (k : Int) * dx := mul_nonneg (by omega) hdx
        rw [had] at herr
        nlinarith
      simp only [if_pos hxs, h2, h3, h6]
      obtain ⟨rest, hr, hlen, hhead, hlast, hchain⟩ :=
        ih f (x0 + sx) (y0 + sy) (err - dy + dx) (a + 1) (by omega) (by omega) (by omega) ha
          (by rw [← hx]; ring) hy' (by rw [herr]; ring) (by omega) (by omega)
      rw [hr]
      refine ⟨_, rfl, ?_⟩
      exact path_cons _ _ _ _ _
        (by unfold Adjacent; rcases hsx with rfl | rfl <;> rcases hsy with rfl | rfl <;>
          simp)
        hlen hhead hlast hchain
    · simp only [if_neg hxs, h4]
      obtain ⟨rest, hr, hlen, hhead, hlast, hchain⟩ :=
        ih f x0 (y0 + sy) (err + dx) a (by omega) (by omega) ha0 ha1 hx hy'
          (by rw [herr]; ring) (by omega) (by omega)
      rw [hr]
      refine ⟨_, rfl, ?_⟩
      exact path_cons _ _ _ _ _
        (by unfold Adjacent; rcases hsy with rfl | rfl <;> simp)
        hlen hhead hlast hchain

/-- The corner of a stamp is rounded to `float32` before it is truncated: with
`size = 30 + 2^-19` the stamp of the point `(32, 32)` is placed at 17, where
the exact difference `16.99999905` would truncate to 16. -/
theorem stampAt_rounds_before_truncating :
    (stampAt (15728641 / 524288) ⟨0, 0, 0, 255⟩ ⟨32, 32⟩).posX = 17
    ∧ truncate ((32 : Rat) - 15728641 / 524288 / 2) = 16 := by
  decide!

/-- The loop started at `(2^24, 0)` towards `(2^24 + 2, 0)` never reaches the
`break`: `x0 += sx` rounds `2^24 + 1` back to `2^24`, so every iteration
leaves `x0`, `y0` and `err` as they were. -/
theorem squareLineLoop_stalls (fuel : Nat) :
    squareLineLoop 2 0 1 1 16777218 0 fuel 16777216 0 2 = none := by
  induction fuel with
  | zero => rfl
  | succ f ih =>
    have h1 : f32 (2 * 2) = 4 := by decide
    have h2 : f32 (2 - 0) = 2 := by decide
    have h3 : f32 (16777216 + 1) = 16777216 := by decide
    rw [squareLineLoop_succ, if_neg (by decide)]
    simp only [h1, h2, h3]
    simp only [show ((4 : Int) > -0) = True from by decide, if_true,
      show ((4 : Int) < 2) = False from by decide, if_false, ih]
    rfl

/-- C28, counterexample: `DrawSquareLine` from `(16777216, 0)` to
`(16777218, 0)`, two integer-valued `float32` points, never terminates. The
step `x0 += sx` computes `16777216 + 1`, which is not a `float32` and rounds
back to `16777216`; the loop draws at the start point for ever and no amount
of fuel yields a result. -/
theorem DrawSquareLine_stalls_above_two_pow_24 :
    f32 16777216 = 16777216 ∧ f32 16777218 = 16777218
    ∧ f32 (16777216 + 1) = 16777216
    ∧ ∀ (fuel : Nat) (size : Rat) (color : Color),
        DrawSquareLine fuel ⟨16777216, 0⟩ ⟨16777218, 0⟩ size color = none := by
  refine ⟨by decide, by decide, by decide, ?_⟩
  intro fuel size color
  have h : squareLinePoints fuel ⟨16777216, 0⟩ ⟨16777218, 0⟩ = none := by
    have hd : squareLinePoints fuel ⟨16777216, 0⟩ ⟨16777218, 0⟩
        = squareLineLoop 2 0 1 1 16777218 0 fuel 16777216 0 2 := by
      unfold squareLinePoints
      have e1 : absF (f32 ((16777218 : Int) - 16777216)) = 2 := by decide
      have e2 : absF (f32 ((0 : Int) - 0)) = 0 := by decide
      have e3 : f32 ((2 : Int) - 0) = 2 := by decide
      simp only [e1, e2, e3]
      rfl
    rw [hd]
    exact squareLineLoop_stalls fuel
  unfold DrawSquareLine
  rw [h]
  rfl

/-- C28, amended: for points whose coordinates have magnitude at most `2^21`,
where every `float32` operation of the loop is exact, `DrawSquareLine`
terminates once the fuel covers `max(|dx|, |dy|) + 1` iterations and draws
exactly that many stamps, one at each point of a path that starts at `start`,
ends at `finish`, and moves between consecutive stamps by at most 1 in `x`, at
most 1 in `y` and by 1 in at least one of them. -/
theorem DrawSquareLine_stepping (start finish : Vector2) (size : Rat) (color : Color)
    (fuel : Nat)
    (hsX : -2097152 ≤ start.X ∧ start.X ≤ 2097152)
    (hsY : -2097152 ≤ start.Y ∧ start.Y ≤ 2097152)
    (hfX : -2097152 ≤ finish.X ∧ finish.X ≤ 2097152)
    (hfY : -2097152 ≤ finish.Y ∧ finish.Y ≤ 2097152)
    (hfuel : max (absF (finish.X - start.X)) (absF (finish.Y - start.Y)) + 1 ≤ (fuel : Int)) :
    ∃ pts, squareLinePoints fuel start finish = some pts
      ∧ DrawSquareLine fuel start finish size color = some (pts.map (stampAt size color))
      ∧ (pts.length : Int)
          = max (absF (finish.X - start.X)) (absF (finish.Y - start.Y)) + 1
      ∧ pts.head? = some start ∧ pts.getLast? = some finish
      ∧ List.Chain' Adjacent pts := by
  obtain ⟨sX, sY⟩ := start
  obtain ⟨fX, fY⟩ := finish
  simp only at hsX hsY hfX hfY hfuel ⊢
  have e1 : f32 (fX - sX) = fX - sX := f32_small _ (by omega) (by omega)
  have e2 : f32 (fY - sY) = fY - sY := f32_small _ (by omega) (by omega)
  have hdx0 : 0 ≤ absF (fX - sX) := by unfold absF; split_ifs <;> omega
  have hdy0 : 0 ≤ absF (fY - sY) := by unfold absF; split_ifs <;> omega
  have hdxB : absF (fX - sX) ≤ 4194304 := by unfold absF; split_ifs <;> omega
  have hdyB : absF (fY - sY) ≤ 4194304 := by unfold absF; split_ifs <;> omega
  have e3 : f32 (absF (fX - sX) - absF (fY - sY)) = absF (fX - sX) - absF (fY - sY) :=
    f32_small _ (by omega) (by omega)
  have hsx : (if sX > fX then (-1 : Int) else 1) = 1 ∨ (if sX > fX then (-1 : Int) else 1) = -1 := by
    split_ifs <;> simp
  have hsy : (if sY > fY then (-1 : Int) else 1) = 1 ∨ (if sY > fY then (-1 : Int) else 1) = -1 := by
    split_ifs <;> simp
  have hxe : sX + (if sX > fX then (-1 : Int) else 1) * absF (fX - sX) = fX := by
    unfold absF; split_ifs <;> omega
  have hye : sY + (if sY > fY then (-1 : Int) else 1) * absF (fY - sY) = fY := by
    unfold absF; split_ifs <;> omega
  have key : ∃ pts, squareLinePoints fuel ⟨sX, sY⟩ ⟨fX, fY⟩ = some pts
      ∧ (pts.length : Int) = max (absF (fX - sX)) (absF (fY - sY)) + 1
      ∧ pts.head? = some ⟨sX, sY⟩ ∧ pts.getLast? = some ⟨fX, fY⟩
      ∧ List.Chain' Adjacent pts := by
    unfold squareLinePoints
    simp only [e1, e2, e3]
    generalize absF (fX - sX) = dx at *
    generalize absF (fY - sY) = dy at *
    by_cases hmaj : dy ≤ dx
    · rw [max_eq_left hmaj] at hfuel ⊢
      by_cases hz : dx = 0
      · have hzy : dy = 0 := by omega
        subst hz; subst hzy
        obtain ⟨f, rfl⟩ : ∃ f, fuel = f + 1 := ⟨fuel - 1, by omega⟩
        have hX : sX = fX := by simpa using hxe
        have hY : sY = fY := by simpa using hye
        subst hX; subst hY
        rw [squareLineLoop_succ, if_pos ⟨rfl, rfl⟩]
        exact ⟨_, rfl, rfl, rfl, rfl, List.chain'_singleton _⟩
      · obtain ⟨pts, hp, hlen, hhead, hlast, hchain⟩ :=
          squareLineLoop_xmajor dx dy _ _ fX fY (by omega) hdy0 hmaj hsx hsy hdxB hfX hfY
            dx.toNat fuel sX sY (dx - dy) 0 (by omega) (by omega) (le_refl _) hdy0
            (by rw [Int.toNat_of_nonneg hdx0]; exact hxe) (by simpa using hye)
            (by rw [Int.toNat_of_nonneg hdx0]; ring) (by omega) (by omega)
        exact ⟨pts, hp, by rw [hlen]; push_cast; rw [Int.toNat_of_nonneg hdx0], hhead, hlast,
          hchain⟩
    · have hlt : dx < dy := by omega
      rw [max_eq_right (le_of_lt hlt)] at hfuel ⊢
      obtain ⟨pts, hp, hlen, hhead, hlast, hchain⟩ :=
        squareLineLoop_ymajor dx dy _ _ fX fY hdx0 (by omega) hlt hsx hsy hdyB hfX hfY
          dy.toNat fuel sX sY (dx - dy) 0 (by omega) (by omega) (le_refl _) hdx0
          (by simpa using hxe) (by rw [Int.toNat_of_nonneg hdy0]; exact hye)
          (by rw [Int.toNat_of_nonneg hdy0]; ring) (by omega) (by omega)
      exact ⟨pts, hp, by rw [hlen]; push_cast; rw [Int.toNat_of_nonneg hdy0], hhead, hlast,
        hchain⟩
  obtain ⟨pts, hp, hrest⟩ := key
  refine ⟨pts, hp, ?_, hrest⟩
  unfold DrawSquareLine
  rw [hp]
  rfl

theorem DrawSquareLine_stepping_witness :
    ∃ pts, squareLinePoints 4 ⟨0, 0⟩ ⟨3, -1⟩ = some pts
      ∧ DrawSquareLine 4 ⟨0, 0⟩ ⟨3, -1⟩ 2 ⟨0, 0, 0, 255⟩
          = some (pts.map (stampAt 2 ⟨0, 0, 0, 255⟩))
      ∧ (pts.length : Int) = max (absF ((3 : Int) - 0)) (absF ((-1 : Int) - 0)) + 1
      ∧ pts.head? = some ⟨0, 0⟩ ∧ pts.getLast? = some ⟨3, -1⟩
      ∧ List.Chain' Adjacent pts :=
  DrawSquareLine_stepping ⟨0, 0⟩ ⟨3, -1⟩ 2 ⟨0, 0, 0, 255⟩ 4 (by decide) (by decide) (by decide)
    (by decide) (by decide)

/-! ## Project files -/

/-- Entries not named `project.json` leave the metadata entry found so far. -/
theorem scanLoop_fst_of_ne (files : List ZipFile)
    (h : ∀ f ∈ files, f.Name ≠ "project.json") (acc : Option ZipFile × List (Int × ZipFile)) :
    (files.foldl
      (fun acc file =>
        if file.Name = "project.json" then (some file, acc.2)
        else if HasPrefix file.Name "layer_" ∧ HasSuffix file.Name ".png" then
          (acc.1, (file.scanned, file) :: acc.2)
        else acc) acc).1 = acc.1 := by
  induction files generalizing acc with
  | nil => rfl
  | cons f rest ih =>
    have hf : f.Name ≠ "project.json" := h f (List.mem_cons_self _ _)
    rw [List.foldl_cons, ih (fun g hg => h g (List.mem_cons_of_mem _ hg)), if_neg hf]
    split_ifs <;> rfl

/-- Without an entry named `project.json` the scan finds no metadata entry. -/
theorem scanFiles_none (files : List ZipFile) (h : ∀ f ∈ files, f.Name ≠ "project.json") :
    (scanFiles files).1 = none :=
  scanLoop_fst_of_ne files h (none, [])

/-- The scan finds the last entry named `project.json`. -/
theorem scanFiles_last (pre post : List ZipFile) (pf : ZipFile)
    (hpf : pf.Name = "project.json") (h : ∀ f ∈ post, f.Name ≠ "project.json") :
    (scanFiles (pre ++ pf :: post)).1 = some pf := by
  unfold scanFiles
  rw [List.foldl_append, List.foldl_cons, scanLoop_fst_of_ne post h, if_pos hpf]

/-- The closed form of a successful `LoadProject`. -/
theorem LoadProject_ok (app : App) (filename : String) (files : List ZipFile)
    (projectFile : ZipFile) (project : ProjectData)
    (h1 : (scanFiles files).1 = some projectFile) (h2 : projectFile.project = some project) :
    LoadProject app filename (some files)
      = ({ app with
            layers :=
              loadLayers (scanFiles files).2 project.CanvasWidth project.CanvasHeight 0
                project.Layers
            canvasWidth := project.CanvasWidth
            canvasHeight := project.CanvasHeight
            compositeTexture :=
              Image.fill project.CanvasWidth.toNat project.CanvasHeight.toNat Color.blank
            colorPalette :=
              if project.Palette.length > 0 then
                project.Palette.map fun colorData =>
                  ⟨colorData.R, colorData.G, colorData.B, colorData.A⟩
              else app.colorPalette
            activeLayer :=
              min 1 (((loadLayers (scanFiles files).2 project.CanvasWidth project.CanvasHeight 0
                project.Layers).length : Int) - 1)
            zoom := 1
            panX := 0
            panY := 0
            currentFilePath := filename }, none) := by
  simp only [LoadProject, h1, h2]

/-- A call of `LoadProject` that returns no error found a metadata entry and
decoded it. -/
theorem LoadProject_ok_inv (app app' : App) (filename : String)
    (archive : Option (List ZipFile)) (h : LoadProject app filename archive = (app', none)) :
    ∃ files projectFile project, archive = some files
      ∧ (scanFiles files).1 = some projectFile ∧ projectFile.project = some project := by
  cases archive with
  | none => simp [LoadProject] at h
  | some files =>
    cases h1 : (scanFiles files).1 with
    | none => simp [LoadProject, h1] at h
    | some projectFile =>
      cases h2 : projectFile.project with
      | none => simp [LoadProject, h1, h2] at h
      | some project => exact ⟨files, projectFile, project, rfl, h1, h2⟩

/-- The layer loop of `LoadProject` builds one layer per metadata record. -/
theorem loadLayers_length (layerFiles : List (Int × ZipFile)) (w h : Int) (i : Nat)
    (datas : List LayerData) : (loadLayers layerFiles w h i datas).length = datas.length := by
  induction datas generalizing i with
  | nil => rfl
  | cons d rest ih => simp [loadLayers, ih]

/-- The layer loop of `LoadProject` gives every layer the stored name and flags. -/
theorem loadLayers_meta (layerFiles : List (Int × ZipFile)) (w h : Int) (i : Nat)
    (datas : List LayerData) :
    (loadLayers layerFiles w h i datas).map
        (fun l => (l.name, l.visible, l.locked, l.opacity))
      = datas.map fun d => (d.Name, d.Visible, d.Locked, d.Opacity) := by
  induction datas generalizing i with
  | nil => rfl
  | cons d rest ih =>
    simp only [loadLayers, List.map_cons, ih, List.cons.injEq, and_true]
    unfold loadLayer
    split <;> rfl

/-- C24: every error return of `LoadProject` leaves the state as it was. When
the archive cannot be opened, when no entry is named `project.json`, and when
the metadata entry (the last entry of that name) cannot be opened or decoded,
`LoadProject` returns an error and the whole state, in particular layers,
canvas size, palette, active layer, zoom, pan and `currentFilePath`, is the
one before the call. -/
theorem LoadProject_error_keeps_state (app : App) (filename : String) :
    LoadProject app filename none = (app, some LoadError.archive)
    ∧ (∀ files : List ZipFile, (∀ f ∈ files, f.Name ≠ "project.json") →
        LoadProject app filename (some files) = (app, some LoadError.notFound))
    ∧ (∀ (pre post : List ZipFile) (projectFile : ZipFile),
        projectFile.Name = "project.json" → (∀ f ∈ post, f.Name ≠ "project.json") →
        projectFile.project = none →
        LoadProject app filename (some (pre ++ projectFile :: post))
          = (app, some LoadError.metadata)) := by
  refine ⟨rfl, ?_, ?_⟩
  · intro files h
    simp only [LoadProject, scanFiles_none files h]
  · intro pre post projectFile hn hpost hp
    simp only [LoadProject, scanFiles_last pre post projectFile hn hpost, hp]

theorem LoadProject_error_keeps_state_witness :
    LoadProject (sample [] (-1) 2) "drawing.ddd" (some [⟨"layer_0.png", 0, none, some (dot 7)⟩])
        = (sample [] (-1) 2, some LoadError.notFound)
    ∧ LoadProject (sample [] (-1) 2) "drawing.ddd"
        (some ([⟨"layer_0.png", 0, none, some (dot 7)⟩]
          ++ ⟨"project.json", 0, none, none⟩ :: [⟨"layer_1.png", 1, none, none⟩]))
        = (sample [] (-1) 2, some LoadError.metadata) :=
  ⟨(LoadProject_error_keeps_state (sample [] (-1) 2) "drawing.ddd").2.1 _ (by decide),
    (LoadProject_error_keeps_state (sample [] (-1) 2) "drawing.ddd").2.2 _ _ _ rfl (by decide)
      rfl⟩

/-- No layer entry that `SaveProject` writes is named `project.json`. -/
theorem layer_entry_name_ne (i : Nat) : "layer_" ++ toString i ++ ".png" ≠ "project.json" := by
  intro h
  have h2 := congrArg (fun s : String => s.data.head?) h
  simp [String.data_append] at h2

/-- The metadata that `LoadProject` finds in an archive written by `SaveProject`. -/
theorem scanFiles_SaveProject (png : Image → Option Image) (s : App) (saveName : String) :
    ∃ projectFile, (scanFiles (SaveProject png s saveName).2).1 = some projectFile
      ∧ projectFile.project = some
        { CanvasWidth := s.canvasWidth
          CanvasHeight := s.canvasHeight
          Layers := s.layers.map fun layer =>
            { Name := layer.name, Visible := layer.visible, Locked := layer.locked,
              Opacity := layer.opacity }
          Palette := s.colorPalette.map fun color =>
            { R := color.r, G := color.g, B := color.b, A := color.a } } := by
  refine ⟨_, scanFiles_last [] _ _ rfl ?_, rfl⟩
  intro f hf
  simp only [List.mem_map] at hf
  obtain ⟨⟨i, layer⟩, -, rfl⟩ := hf
  exact layer_entry_name_ne i

/-- C25, counterexample: a document with an empty palette is saved and loaded
into a state whose palette is `[black]`. The load succeeds, and the palette
afterwards is still `[black]`, not the empty palette of the saved document. -/
theorem round_trip_empty_palette_counterexample :
    (stack [dotLayer "BACKGROUND" 255 false]).colorPalette = []
    ∧ (LoadProject { stack [dotLayer "OTHER" 9 false] with colorPalette := [⟨0, 0, 0, 255⟩] }
        "drawing.ddd"
        (some (SaveProject some (stack [dotLayer "BACKGROUND" 255 false]) "drawing.ddd").2)).2
      = none
    ∧ (LoadProject { stack [dotLayer "OTHER" 9 false] with colorPalette := [⟨0, 0, 0, 255⟩] }
        "drawing.ddd"
        (some (SaveProject some (stack [dotLayer "BACKGROUND" 255 false]) "drawing.ddd").2)
        ).1.colorPalette
      = [⟨0, 0, 0, 255⟩] := by
  decide

/-- C25, amended: `SaveProject` from `s` followed by `LoadProject` into `t`
succeeds and leaves `t` with the canvas width and height of `s` and with the
ordered list of per-layer name, visible, locked and opacity of `s`; the
palette is that of `s` when `s` has at least one palette colour, and the
palette `t` had before the load when the palette of `s` is empty. -/
theorem project_round_trip (png : Image → Option Image) (s t : App)
    (saveName loadName : String) :
    (LoadProject t loadName (some (SaveProject png s saveName).2)).2 = none
    ∧ (LoadProject t loadName (some (SaveProject png s saveName).2)).1.canvasWidth
        = s.canvasWidth
    ∧ (LoadProject t loadName (some (SaveProject png s saveName).2)).1.canvasHeight
        = s.canvasHeight
    ∧ (LoadProject t loadName (some (SaveProject png s saveName).2)).1.layers.map
          (fun l => (l.name, l.visible, l.locked, l.opacity))
        = s.layers.map (fun l => (l.name, l.visible, l.locked, l.opacity))
    ∧ (LoadProject t loadName (some (SaveProject png s saveName).2)).1.colorPalette
        = if s.colorPalette.length > 0 then s.colorPalette else t.colorPalette := by
  obtain ⟨projectFile, h1, h2⟩ := scanFiles_SaveProject png s saveName
  rw [LoadProject_ok t loadName _ projectFile _ h1 h2]
  refine ⟨rfl, rfl, rfl, ?_, ?_⟩
  · simp only [loadLayers_meta, List.map_map]
    rfl
  · simp only [List.length_map, List.map_map]
    split_ifs
    · conv_rhs => rw [← List.map_id s.colorPalette]
      rfl
    · rfl

/-- What a successful `LoadProject` leaves in the view and the layer stack:
zoom 1, pan `(0, 0)`, one layer per metadata record and the active layer
`min(1, layerCount - 1)`; with at least one record the layer-stack invariant
holds. -/
theorem LoadProject_view_reset (app app' : App) (filename : String)
    (archive : Option (List ZipFile)) (h : LoadProject app filename archive = (app', none)) :
    app'.zoom = 1 ∧ app'.panX = 0 ∧ app'.panY = 0
    ∧ app'.activeLayer = min 1 ((app'.layers.length : Int) - 1)
    ∧ (1 ≤ app'.layers.length → app'.LayerInv) := by
  obtain ⟨files, projectFile, project, rfl, h1, h2⟩ := LoadProject_ok_inv _ _ _ _ h
  rw [LoadProject_ok app filename files projectFile project h1 h2] at h
  have h' := (Prod.mk.inj h).1
  subst h'
  refine ⟨rfl, rfl, rfl, rfl, ?_⟩
  intro hlen
  unfold App.LayerInv
  simp only at hlen ⊢
  omega

/-- C26: a metadata document that decodes successfully and declares no layer.
`LoadProject` returns no error and resets the view (zoom 1, pan `(0, 0)`), but
it leaves an empty layer list and `activeLayer = min(1, 0 - 1) = -1`: the
layer-stack invariant does not hold after this successful load. -/
theorem LoadProject_zero_layers_breaks_invariant :
    (LoadProject (sample [] (-1) 2) "empty.ddd"
        (some [⟨"project.json", 0, some ⟨1, 1, [], []⟩, none⟩])).2 = none
    ∧ (LoadProject (sample [] (-1) 2) "empty.ddd"
        (some [⟨"project.json", 0, some ⟨1, 1, [], []⟩, none⟩])).1.layers = []
    ∧ (LoadProject (sample [] (-1) 2) "empty.ddd"
        (some [⟨"project.json", 0, some ⟨1, 1, [], []⟩, none⟩])).1.activeLayer = -1
    ∧ (LoadProject (sample [] (-1) 2) "empty.ddd"
        (some [⟨"project.json", 0, some ⟨1, 1, [], []⟩, none⟩])).1.zoom = 1
    ∧ (LoadProject (sample [] (-1) 2) "empty.ddd"
        (some [⟨"project.json", 0, some ⟨1, 1, [], []⟩, none⟩])).1.panX = 0
    ∧ (LoadProject (sample [] (-1) 2) "empty.ddd"
        (some [⟨"project.json", 0, some ⟨1, 1, [], []⟩, none⟩])).1.panY = 0
    ∧ ¬ (LoadProject (sample [] (-1) 2) "empty.ddd"
        (some [⟨"project.json", 0, some ⟨1, 1, [], []⟩, none⟩])).1.LayerInv
    ∧ index?
        (LoadProject (sample [] (-1) 2) "empty.ddd"
          (some [⟨"project.json", 0, some ⟨1, 1, [], []⟩, none⟩])).1.layers
        (LoadProject (sample [] (-1) 2) "empty.ddd"
          (some [⟨"project.json", 0, some ⟨1, 1, [], []⟩, none⟩])).1.activeLayer = none := by
  decide

/-- C30: a successful `LoadProject` leaves the history list, `historyIndex`
and `maxHistory` as they were, while the layer list is rebuilt from the
archive alone. An `Undo` after the load therefore takes the entry of the
previous document at the old position and restores it by its recorded index:
into the layer of the loaded document at that index when there is one, into
no layer otherwise, and it decrements `historyIndex`. -/
theorem LoadProject_keeps_history (app app' : App) (filename : String)
    (archive : Option (List ZipFile)) (h : LoadProject app filename archive = (app', none)) :
    app'.history = app.history ∧ app'.historyIndex = app.historyIndex
    ∧ app'.maxHistory = app.maxHistory
    ∧ (∃ files projectFile project, archive = some files
        ∧ (scanFiles files).1 = some projectFile ∧ projectFile.project = some project
        ∧ app'.layers
          = loadLayers (scanFiles files).2 project.CanvasWidth project.CanvasHeight 0
              project.Layers)
    ∧ (∀ action, 0 ≤ app.historyIndex → app.history[app.historyIndex.toNat]? = some action →
        Undo app' = some { app' with
          layers := restoreAction app'.layers action
          historyIndex := app.historyIndex - 1 }
        ∧ (∀ layer, app'.layers[action.layerIndex]? = some layer →
            restoreAction app'.layers action
              = app'.layers.set action.layerIndex
                  { layer with texture := restoreTexture layer.texture action.layerData })
        ∧ (app'.layers.length ≤ action.layerIndex →
            restoreAction app'.layers action = app'.layers)) := by
  obtain ⟨files, projectFile, project, rfl, h1, h2⟩ := LoadProject_ok_inv _ _ _ _ h
  rw [LoadProject_ok app filename files projectFile project h1 h2] at h
  have h' := (Prod.mk.inj h).1
  subst h'
  refine ⟨rfl, rfl, rfl, ⟨files, projectFile, project, rfl, h1, h2, rfl⟩, ?_⟩
  intro action h0 ha
  refine ⟨?_, fun layer hl => restoreAction_of_getElem? _ _ _ hl,
    fun hge => restoreAction_of_ge _ _ hge⟩
  exact Undo_eq _ action h0 ha

theorem LoadProject_keeps_history_witness :
    (LoadProject (sample sampleHistory 1 2) "other.ddd"
        (some [⟨"project.json", 0,
          some ⟨1, 1, [⟨"PAPER", true, false, 1⟩, ⟨"INK", true, true, 1⟩], []⟩, none⟩])).1.history
      = sampleHistory
    ∧ Undo (LoadProject (sample sampleHistory 1 2) "other.ddd"
        (some [⟨"project.json", 0,
          some ⟨1, 1, [⟨"PAPER", true, false, 1⟩, ⟨"INK", true, true, 1⟩], []⟩, none⟩])).1
      = some { (LoadProject (sample sampleHistory 1 2) "other.ddd"
        (some [⟨"project.json", 0,
          some ⟨1, 1, [⟨"PAPER", true, false, 1⟩, ⟨"INK", true, true, 1⟩], []⟩, none⟩])).1 with
          layers :=
            [{ NewLayer "PAPER" 1 1 with visible := true, locked := false, opacity := 1 },
              { NewLayer "INK" 1 1 with
                visible := true, locked := true, opacity := 1,
                texture := restoreTexture (NewLayer "INK" 1 1).texture (dot 2) }]
          historyIndex := 0 } :=
  ⟨(LoadProject_keeps_history (sample sampleHistory 1 2) _ "other.ddd"
      (some [⟨"project.json", 0,
        some ⟨1, 1, [⟨"PAPER", true, false, 1⟩, ⟨"INK", true, true, 1⟩], []⟩, none⟩])
      rfl).1,
    ((LoadProject_keeps_history (sample sampleHistory 1 2) _ "other.ddd"
      (some [⟨"project.json", 0,
        some ⟨1, 1, [⟨"PAPER", true, false, 1⟩, ⟨"INK", true, true, 1⟩], []⟩, none⟩])
      rfl).2.2.2.2 ⟨"draw", 1, dot 2⟩ (by decide) rfl).1⟩

/-! ## States reachable from `NewApp` -/

/-- The history engine leaves the active index and the number of layers. -/
theorem SaveLayerState_frame (app app' : App) (i : Int) (tag : String)
    (h : SaveLayerState app i tag = some app') (hinv : app.HistInv) :
    app'.layers = app.layers ∧ app'.activeLayer = app.activeLayer
      ∧ app'.maxHistory = app.maxHistory := by
  by_cases hg : i < 0 ∨ i ≥ (app.layers.length : Int)
  · rw [SaveLayerState_invalid app i tag hg] at h
    cases h
    exact ⟨rfl, rfl, rfl⟩
  · have h0 : 0 ≤ i := by omega
    have hl : i.toNat < app.layers.length := by omega
    rw [SaveLayerState_eq app i tag app.layers[i.toNat] h0 (List.getElem?_eq_getElem hl)
      hinv.2.1 hinv.2.2] at h
    cases h
    split_ifs <;> exact ⟨rfl, rfl, rfl⟩

theorem Undo_frame (app app' : App) (h : Undo app = some app') :
    app'.layers.length = app.layers.length ∧ app'.activeLayer = app.activeLayer
      ∧ app'.maxHistory = app.maxHistory := by
  by_cases hg : app.historyIndex < 0 ∨ app.historyIndex ≥ (app.history.length : Int)
  · rw [Undo_noop app hg] at h
    cases h
    exact ⟨rfl, rfl, rfl⟩
  · have h0 : 0 ≤ app.historyIndex := by omega
    have hl : app.historyIndex.toNat < app.history.length := by omega
    rw [Undo_eq app _ h0 (List.getElem?_eq_getElem hl)] at h
    cases h
    exact ⟨restoreAction_length _ _, rfl, rfl⟩

theorem Redo_frame (app app' : App) (h : Redo app = some app') (h1 : -1 ≤ app.historyIndex) :
    app'.layers.length = app.layers.length ∧ app'.activeLayer = app.activeLayer
      ∧ app'.maxHistory = app.maxHistory := by
  by_cases hg : app.historyIndex < (app.history.length : Int) - 2
  · have hl : (app.historyIndex + 2).toNat < app.history.length := by omega
    rw [Redo_eq app _ (by omega) hg (List.getElem?_eq_getElem hl)] at h
    cases h
    exact ⟨restoreAction_length _ _, rfl, rfl⟩
  · rw [Redo_noop app hg] at h
    cases h
    exact ⟨rfl, rfl, rfl⟩

/-- The layer-stack operations leave the history, its position and its capacity. -/
theorem DuplicateActiveLayer_frame (app app' : App) (h : DuplicateActiveLayer app = some app') :
    app'.history = app.history ∧ app'.historyIndex = app.historyIndex
      ∧ app'.maxHistory = app.maxHistory := by
  simp only [DuplicateActiveLayer, Option.bind_eq_bind, Option.bind_eq_some] at h
  obtain ⟨_, _, _, _, _, _, h⟩ := h
  cases h
  exact ⟨rfl, rfl, rfl⟩

theorem DeleteActiveLayer_frame (app app' : App) (h : DeleteActiveLayer app = some app') :
    app'.history = app.history ∧ app'.historyIndex = app.historyIndex
      ∧ app'.maxHistory = app.maxHistory := by
  unfold DeleteActiveLayer at h
  split_ifs at h
  · simp only [Option.bind_eq_bind, Option.bind_eq_some] at h
    obtain ⟨_, _, _, _, _, _, h⟩ := h
    split_ifs at h <;> cases h <;> exact ⟨rfl, rfl, rfl⟩
  · cases h
    exact ⟨rfl, rfl, rfl⟩

theorem ReorderLayers_frame (app app' : App) (fromIndex toIndex : Int)
    (h : ReorderLayers app fromIndex toIndex = some app') :
    app'.history = app.history ∧ app'.historyIndex = app.historyIndex
      ∧ app'.maxHistory = app.maxHistory := by
  unfold ReorderLayers at h
  split_ifs at h
  · cases h
    exact ⟨rfl, rfl, rfl⟩
  all_goals
    simp only [Option.bind_eq_bind, Option.bind_eq_some] at h
    obtain ⟨_, _, _, _, _, _, _, _, _, _, h⟩ := h
    cases h
    exact ⟨rfl, rfl, rfl⟩

/-- Every reachable state satisfies the history invariant and the layer-stack
invariant, with the capacity `NewApp` sets. -/
theorem Reachable_inv (app : App) (h : Reachable app) :
    app.HistInv ∧ app.LayerInv ∧ app.maxHistory = 50 := by
  induction h with
  | init => exact ⟨by decide, by decide, rfl⟩
  | @saveLayerState app app' i tag _ hs ih =>
    obtain ⟨app'', hs', hinv, _, _⟩ := SaveLayerState_HistInv app ih.1 i tag
    obtain ⟨hl, ha, hm⟩ := SaveLayerState_frame app app' i tag hs ih.1
    rw [hs] at hs'
    cases hs'
    refine ⟨hinv, ?_, by rw [hm]; exact ih.2.2⟩
    unfold App.LayerInv
    rw [hl, ha]
    exact ih.2.1
  | @undo app app' _ hu ih =>
    obtain ⟨app'', hu', hinv, _, _⟩ := Undo_HistInv app ih.1
    obtain ⟨hl, ha, hm⟩ := Undo_frame app app' hu
    rw [hu] at hu'
    cases hu'
    refine ⟨hinv, ?_, by rw [hm]; exact ih.2.2⟩
    unfold App.LayerInv
    rw [hl, ha]
    exact ih.2.1
  | @redo app app' _ hr ih =>
    obtain ⟨app'', hr', hinv, _, _⟩ := Redo_HistInv app ih.1
    obtain ⟨hl, ha, hm⟩ := Redo_frame app app' hr ih.1.2.1
    rw [hr] at hr'
    cases hr'
    refine ⟨hinv, ?_, by rw [hm]; exact ih.2.2⟩
    unfold App.LayerInv
    rw [hl, ha]
    exact ih.2.1
  | @addLayer app _ ih => exact ⟨ih.1, AddLayer_LayerInv app, ih.2.2⟩
  | @duplicateActiveLayer app app' _ hd ih =>
    obtain ⟨app'', hd', hinv, _⟩ := DuplicateActiveLayer_LayerInv app ih.2.1
    obtain ⟨hh, hi, hm⟩ := DuplicateActiveLayer_frame app app' hd
    rw [hd] at hd'
    cases hd'
    refine ⟨?_, hinv, by rw [hm]; exact ih.2.2⟩
    unfold App.HistInv
    rw [hh, hi, hm]
    exact ih.1
  | @deleteActiveLayer app app' _ hd ih =>
    obtain ⟨app'', hd', hinv⟩ := DeleteActiveLayer_LayerInv app ih.2.1
    obtain ⟨hh, hi, hm⟩ := DeleteActiveLayer_frame app app' hd
    rw [hd] at hd'
    cases hd'
    refine ⟨?_, hinv, by rw [hm]; exact ih.2.2⟩
    unfold App.HistInv
    rw [hh, hi, hm]
    exact ih.1
  | @reorderLayers app app' f t _ hd ih =>
    obtain ⟨app'', hd', hinv, _⟩ := ReorderLayers_LayerInv app f t ih.2.1
    obtain ⟨hh, hi, hm⟩ := ReorderLayers_frame app app' f t hd
    rw [hd] at hd'
    cases hd'
    refine ⟨?_, hinv, by rw [hm]; exact ih.2.2⟩
    unfold App.HistInv
    rw [hh, hi, hm]
    exact ih.1

/-- The state with a stale history entry is reachable. -/
theorem staleIndexState_reachable : Reachable staleIndexState :=
  Reachable.deleteActiveLayer
    (Reachable.saveLayerState 3 "draw" (Reachable.addLayer Reachable.init) rfl) rfl

/-- C29: history entries address layers by index, safely. In every state
reachable from `NewApp` through `SaveLayerState`, `Undo`, `Redo`, `AddLayer`,
`DuplicateActiveLayer`, `DeleteActiveLayer` and `ReorderLayers`: the position
lies in `[-1, len(history) - 1]`; every stored entry has a recorded index
`>= 0`, because `SaveLayerState` records nothing for a negative index and
records the index it is given otherwise; `Undo` and `Redo` return without an
index out of range; `Undo` writes the snapshot of the current entry into the
layer that occupies the recorded index now, whichever layer that is, and when
the recorded index is `>= len(layers)` it changes nothing but `historyIndex`,
which it decrements. -/
theorem history_addresses_layers_by_index (app : App) (h : Reachable app) :
    (-1 ≤ app.historyIndex ∧ app.historyIndex ≤ (app.history.length : Int) - 1)
    ∧ (∀ e ∈ app.history, (0 : Int) ≤ e.layerIndex)
    ∧ (∀ (i : Int) (tag : String), i < 0 → SaveLayerState app i tag = some app)
    ∧ (∀ (i : Int) (tag : String), 0 ≤ i → i < app.layers.length →
        ∃ app' e, SaveLayerState app i tag = some app' ∧ app'.history.getLast? = some e
          ∧ (e.layerIndex : Int) = i)
    ∧ (∃ app', Undo app = some app') ∧ (∃ app', Redo app = some app')
    ∧ (∀ action, 0 ≤ app.historyIndex → app.history[app.historyIndex.toNat]? = some action →
        (∀ layer, app.layers[action.layerIndex]? = some layer →
          Undo app = some { app with
            layers := app.layers.set action.layerIndex
              { layer with texture := restoreTexture layer.texture action.layerData }
            historyIndex := app.historyIndex - 1 })
        ∧ (app.layers.length ≤ action.layerIndex →
          Undo app = some { app with historyIndex := app.historyIndex - 1 })) := by
  obtain ⟨hinv, -, hmax⟩ := Reachable_inv app h
  refine ⟨hinv.2, fun e _ => Int.ofNat_nonneg _,
    fun i tag hi => SaveLayerState_invalid app i tag (Or.inl hi), ?_, ?_, ?_, ?_⟩
  · intro i tag h0 h1
    have hl : i.toNat < app.layers.length := by omega
    rw [SaveLayerState_eq app i tag app.layers[i.toNat] h0 (List.getElem?_eq_getElem hl)
      hinv.2.1 hinv.2.2]
    refine ⟨_, ⟨tag, i.toNat, goImgOf app.layers[i.toNat].texture⟩, rfl, ?_,
      Int.toNat_of_nonneg h0⟩
    split_ifs with hover
    · have hlen : 1 ≤ (app.history.take (app.historyIndex + 1).toNat).length := by
        rw [List.length_append, List.length_singleton, hmax] at hover
        omega
      simp only
      rw [List.drop_append_of_le_length hlen, List.getLast?_append]
      rfl
    · simp only
      rw [List.getLast?_append]
      rfl
  · obtain ⟨app', hu, _⟩ := Undo_HistInv app hinv
    exact ⟨app', hu⟩
  · obtain ⟨app', hr, _⟩ := Redo_HistInv app hinv
    exact ⟨app', hr⟩
  · intro action h0 ha
    refine ⟨fun layer hl => ?_, fun hge => ?_⟩
    · rw [Undo_eq app action h0 ha, restoreAction_of_getElem? _ _ _ hl]
    · rw [Undo_eq app action h0 ha, restoreAction_of_ge _ _ hge]

theorem history_addresses_layers_by_index_witness :
    Reachable staleIndexState
    ∧ staleIndexState.history = [⟨"draw", 3, goImgOf (Image.fill 512 512 Color.blank)⟩]
    ∧ staleIndexState.layers.length = 3
    ∧ Undo staleIndexState = some { staleIndexState with historyIndex := 0 - 1 } :=
  ⟨staleIndexState_reachable, rfl, rfl,
    ((history_addresses_layers_by_index staleIndexState staleIndexState_reachable).2.2.2.2.2.2
      ⟨"draw", 3, goImgOf (Image.fill 512 512 Color.blank)⟩ (by decide) rfl).2 (by decide)⟩

end DeluxeDraw
